import Mathlib

/-!
# KBFS: conflict-resolution chains and the folder-branch status keeper

A shallow embedding of

* `src/libkbfs/folder_branch_status.go` (the status keeper), translated
  statement by statement into state-passing functions, and
* the chain builder `newCRChains` exercised by
  `src/libkbfs/cr_chains_test.go`.  The builder's own source file is not part
  of the sources, so it is modelled from the specification (sections 3, 4.3
  and 4.4) and checked against the expectations of the four tests.

Go maps are association lists with pairwise distinct keys.  Pointers to heap
objects (`*IFCERFTRootMetadata`, `*IFCERFTCrChains`, channels) are addresses,
so that `==` on them is identity, as in Go.
-/

namespace KBFS

/-! ## Go maps as association lists -/

/-- Lookup `m[k]`, with `none` for the `ok == false` case. -/
def mapLookup {β : Type} (k : Nat) : List (Nat × β) → Option β
  | [] => none
  | (k', v) :: rest => if k' = k then some v else mapLookup k rest

/-- The builtin `delete(m, k)`. -/
def mapErase {β : Type} (k : Nat) : List (Nat × β) → List (Nat × β)
  | [] => []
  | (k', v) :: rest => if k' = k then mapErase k rest else (k', v) :: mapErase k rest

/-- The assignment `m[k] = v`. -/
def mapInsert {β : Type} (k : Nat) (v : β) (m : List (Nat × β)) : List (Nat × β) :=
  mapErase k m ++ [(k, v)]

/-! ## Data shared by both components -/

/-- Modelled from the spec: a block pointer is an opaque identifier, compared
by identifier only (section 3); the tests build one from a byte. -/
abbrev IFCERFTBlockPointer := Nat

/-- Modelled from the spec: the identity of a writer. -/
abbrev UID := Nat

/-- Modelled from the spec: the identifier of a folder. -/
abbrev TlfID := Nat

/-- A Go `error` value that is not nil. -/
abbrev GoError := String

/-- Modelled from the spec: the entry type of an operation (section 3);
the tests use `IFCERFTFile`. -/
inductive IFCERFTEntryType where
  | File
  | Exec
  | Dir
  | Sym
  deriving DecidableEq, Repr

/-- Modelled from the spec: the attribute of a SetAttribute (section 3); the
tests use `exAttr`. -/
inductive attrChange where
  | exAttr
  | mtimeAttr
  deriving DecidableEq, Repr

/-- Modelled from the spec: one `(Unref, Ref)` pair of an operation's `Updates`
(section 3). -/
structure blockUpdate where
  Unref : IFCERFTBlockPointer
  Ref : IFCERFTBlockPointer
  deriving DecidableEq, Repr

/-- Modelled from the spec: the operation variants of section 3 (their Go
declarations are not among the sources), named after the constructors the
tests call (`newCreateOp`, `newRmOp`, `newRenameOp`, `newSetAttrOp`,
`newSyncOp`).  Every variant carries its ordered `Updates` list. -/
inductive IFCERFTOps where
  | createOp (NewName : String) (DirUnref : IFCERFTBlockPointer) (EntryType : IFCERFTEntryType)
      (renamed : Bool) (Updates : List blockUpdate)
  | rmOp (OldName : String) (DirUnref : IFCERFTBlockPointer) (Updates : List blockUpdate)
  | renameOp (OldName : String) (OldDirUnref : IFCERFTBlockPointer) (NewName : String)
      (NewDirUnref : IFCERFTBlockPointer) (Renamed : IFCERFTBlockPointer)
      (RenamedType : IFCERFTEntryType) (Updates : List blockUpdate)
  | setAttrOp (Name : String) (DirUnref : IFCERFTBlockPointer) (Attr : attrChange)
      (File : IFCERFTBlockPointer) (Updates : List blockUpdate)
  | syncOp (FileUnref : IFCERFTBlockPointer) (Updates : List blockUpdate)
  deriving DecidableEq, Repr

/-- Modelled from the spec: the fields of a revision that the sources read: `WFlags`,
`LastModifyingWriter`, `DiskUsage` and `ID` in `getStatus`, the operation list
(`AddOp`) and `data.Dir.IFCERFTBlockPointer` in the chain tests. -/
structure IFCERFTRootMetadata where
  WFlags : Nat
  LastModifyingWriter : UID
  DiskUsage : Nat
  ID : TlfID
  ops : List IFCERFTOps
  dataDir : IFCERFTBlockPointer
  deriving DecidableEq, Repr

/-! ## The status keeper (`folder_branch_status.go`) -/

/-- The address held by a `*IFCERFTRootMetadata`; `none` is `nil`. -/
abbrev MdRef := Nat

/-- The address held by a `*IFCERFTCrChains`; `none` is `nil`. -/
abbrev ChainsRef := Nat

/-- The identity of a channel value. -/
abbrev ChanID := Nat

/-- Modelled from the spec: the identity of an in-memory node. -/
abbrev IFCERFTNodeID := Nat

/-- Modelled from the spec: an `IFCERFTNode` interface value: what `GetID()`
returns, and the rest of the node. -/
structure IFCERFTNode where
  id : IFCERFTNodeID
  payload : Nat
  deriving DecidableEq, Repr

/-- Modelled from the spec: the method `GetID` of a node. -/
def IFCERFTNode.GetID (n : IFCERFTNode) : IFCERFTNodeID := n.id

/-- Modelled from the spec: one entry of a chain summary (section 4.5), the
result type of `Summary`. -/
structure crChainSummary where
  Path : String
  Ops : List String
  deriving DecidableEq, Repr

/-- Modelled from the spec: the status record filled by `getStatus`, with the
snapshot fields of section 6. -/
structure IFCERFTFolderBranchStatus where
  Staged : Bool
  HeadWriter : String
  DiskUsage : Nat
  RekeyPending : Bool
  FolderID : String
  DirtyPaths : List String
  Unmerged : List crChainSummary
  Merged : List crChainSummary
  deriving DecidableEq, Repr

/-- The Go zero value `IFCERFTFolderBranchStatus{}`. -/
def IFCERFTFolderBranchStatus.zero : IFCERFTFolderBranchStatus :=
  { Staged := false, HeadWriter := "", DiskUsage := 0, RekeyPending := false,
    FolderID := "", DirtyPaths := [], Unmerged := [], Merged := [] }

/-- Modelled from the spec: the collaborators reached through `config`: the constant
`IFCERFTMetadataFlagUnmerged`, `KBPKI().GetNormalizedUsername` (a name and an
error), `RekeyQueue().IsRekeyPending`, `TlfID.String`, the heap holding the
revisions that `*IFCERFTRootMetadata` values point to, and `Summary` of the
chains at an address (called with the identifying chains). -/
structure IFCERFTConfig where
  metadataFlagUnmerged : Nat
  GetNormalizedUsername : UID → String × Option GoError
  IsRekeyPending : TlfID → Bool
  tlfString : TlfID → String
  deref : MdRef → IFCERFTRootMetadata
  Summary : ChainsRef → ChainsRef → List crChainSummary

/-- Modelled from the spec: the node cache, for `PathFromNode(n).String()`. -/
structure IFCERFTNodeCache where
  PathFromNode : IFCERFTNode → String

/-- The struct `folderBranchStatusKeeper`, without its two mutexes: every
method body below runs as one atomic step, which is what holding `dataMutex`
for the whole body gives. -/
structure folderBranchStatusKeeper where
  config : IFCERFTConfig
  nodeCache : IFCERFTNodeCache
  md : Option MdRef
  dirtyNodes : List (IFCERFTNodeID × IFCERFTNode)
  unmerged : Option ChainsRef
  merged : Option ChainsRef
  updateChan : ChanID

/-- The channels allocated so far (`make` hands out `next`) and the log of
`close` calls, newest first. -/
structure ChanHeap where
  next : Nat
  closed : List ChanID
  deriving DecidableEq, Repr

/-- The keeper together with the channel heap it lives in. -/
structure World where
  fbsk : folderBranchStatusKeeper
  heap : ChanHeap

/-- The builtin `make(chan IFCERFTStatusUpdate, 1)`. -/
def ChanHeap.make (h : ChanHeap) : ChanID × ChanHeap :=
  (h.next, { h with next := h.next + 1 })

/-- The builtin `close(c)`: closing a closed channel panics (`none`). -/
def ChanHeap.close (h : ChanHeap) (c : ChanID) : Option ChanHeap :=
  if c ∈ h.closed then none else some { h with closed := c :: h.closed }

def newFolderBranchStatusKeeper (config : IFCERFTConfig) (nodeCache : IFCERFTNodeCache)
    (h : ChanHeap) : World :=
  { fbsk :=
      { config := config, nodeCache := nodeCache, md := none, dirtyNodes := [],
        unmerged := none, merged := none, updateChan := (h.make).1 },
    heap := (h.make).2 }

def signalChangeLocked (w : World) : Option World :=
  match w.heap.close w.fbsk.updateChan with
  | none => none
  | some h1 =>
    some { fbsk := { w.fbsk with updateChan := (h1.make).1 }, heap := (h1.make).2 }

def setRootMetadata (md : Option MdRef) (w : World) : Option World :=
  if w.fbsk.md = md then some w
  else signalChangeLocked { w with fbsk := { w.fbsk with md := md } }

def setCRChains (unmerged merged : Option ChainsRef) (w : World) : Option World :=
  if unmerged = w.fbsk.unmerged ∧ merged = w.fbsk.merged then some w
  else
    signalChangeLocked
      { w with fbsk := { w.fbsk with unmerged := unmerged, merged := merged } }

/-- The method `addNode`, with the map it is handed updated in place through
`setM`; `addDirtyNode` passes the accessors of `dirtyNodes`. -/
def addNode (getM : folderBranchStatusKeeper → List (IFCERFTNodeID × IFCERFTNode))
    (setM : List (IFCERFTNodeID × IFCERFTNode) → folderBranchStatusKeeper →
      folderBranchStatusKeeper)
    (n : IFCERFTNode) (w : World) : Option World :=
  match mapLookup n.GetID (getM w.fbsk) with
  | some _ => some w
  | none =>
    signalChangeLocked { w with fbsk := setM (mapInsert n.GetID n (getM w.fbsk)) w.fbsk }

def rmNode (getM : folderBranchStatusKeeper → List (IFCERFTNodeID × IFCERFTNode))
    (setM : List (IFCERFTNodeID × IFCERFTNode) → folderBranchStatusKeeper →
      folderBranchStatusKeeper)
    (n : IFCERFTNode) (w : World) : Option World :=
  match mapLookup n.GetID (getM w.fbsk) with
  | none => some w
  | some _ =>
    signalChangeLocked { w with fbsk := setM (mapErase n.GetID (getM w.fbsk)) w.fbsk }

def setDirtyNodes (m : List (IFCERFTNodeID × IFCERFTNode)) (k : folderBranchStatusKeeper) :
    folderBranchStatusKeeper :=
  { k with dirtyNodes := m }

def addDirtyNode (n : IFCERFTNode) (w : World) : Option World :=
  addNode (fun k => k.dirtyNodes) setDirtyNodes n w

def rmDirtyNode (n : IFCERFTNode) (w : World) : Option World :=
  rmNode (fun k => k.dirtyNodes) setDirtyNodes n w

/-- The order in which one `range` statement visits a map: Go leaves it
unspecified, and it may differ from one loop to the next, so each loop takes
its order as an argument. -/
structure RangeOrder where
  visit : List (IFCERFTNodeID × IFCERFTNode) → List (IFCERFTNodeID × IFCERFTNode)
  perm : ∀ m, (visit m).Perm m

def convertNodesToPathsLocked (ord : RangeOrder) (k : folderBranchStatusKeeper)
    (m : List (IFCERFTNodeID × IFCERFTNode)) : List String :=
  (ord.visit m).map (fun kv => k.nodeCache.PathFromNode kv.2)

/-- The three results of `getStatus`. -/
structure StatusResult where
  fbs : IFCERFTFolderBranchStatus
  updateChan : Option ChanID
  err : Option GoError
  deriving DecidableEq, Repr

/-- The head-metadata block of `getStatus` (lines 135-145): the status so far,
or the error of the username lookup. -/
def statusHead (k : folderBranchStatusKeeper) (fbs : IFCERFTFolderBranchStatus) :
    Except GoError IFCERFTFolderBranchStatus :=
  match k.md with
  | none => .ok fbs
  | some p =>
    let md := k.config.deref p
    let fbs1 := { fbs with Staged := decide (Nat.land md.WFlags k.config.metadataFlagUnmerged ≠ 0) }
    match k.config.GetNormalizedUsername md.LastModifyingWriter with
    | (_, some err) => .error err
    | (name, none) =>
      .ok { fbs1 with
        HeadWriter := name, DiskUsage := md.DiskUsage,
        RekeyPending := k.config.IsRekeyPending md.ID,
        FolderID := k.config.tlfString md.ID }

/-- The chain-summary block of `getStatus` (lines 152-157). -/
def statusChains (k : folderBranchStatusKeeper) (fbs : IFCERFTFolderBranchStatus) :
    IFCERFTFolderBranchStatus :=
  match k.unmerged with
  | none => fbs
  | some u =>
    let fbs1 := { fbs with Unmerged := k.config.Summary u u }
    match k.merged with
    | none => fbs1
    | some m => { fbs1 with Merged := k.config.Summary m u }

/-- The method `getStatus`: its three results and the world it leaves. -/
def getStatus (ord : RangeOrder) (w : World) : StatusResult × World :=
  match statusHead w.fbsk IFCERFTFolderBranchStatus.zero with
  | .error err => ({ fbs := IFCERFTFolderBranchStatus.zero, updateChan := none, err := some err }, w)
  | .ok fbs =>
    let fbs1 := { fbs with DirtyPaths := convertNodesToPathsLocked ord w.fbsk w.fbsk.dirtyNodes }
    ({ fbs := statusChains w.fbsk fbs1, updateChan := some w.fbsk.updateChan, err := none }, w)

/-- One call on the keeper's surface. -/
inductive Call where
  | setRootMetadata (md : Option MdRef)
  | setCRChains (unmerged merged : Option ChainsRef)
  | addDirtyNode (n : IFCERFTNode)
  | rmDirtyNode (n : IFCERFTNode)
  | getStatus (ord : RangeOrder)

def Call.apply : Call → World → Option World
  | .setRootMetadata md, w => KBFS.setRootMetadata md w
  | .setCRChains u m, w => KBFS.setCRChains u m w
  | .addDirtyNode n, w => KBFS.addDirtyNode n w
  | .rmDirtyNode n, w => KBFS.rmDirtyNode n w
  | .getStatus ord, w => some (KBFS.getStatus ord w).2

/-- Run a sequence of calls; `none` when one of them panics. -/
def runCalls : List Call → World → Option World
  | [], w => some w
  | c :: cs, w =>
    match c.apply w with
    | none => none
    | some w1 => runCalls cs w1

/-- The data the keeper reports on: head metadata, both chain sets and the
dirty-node map. -/
def keeperData (w : World) :
    Option MdRef × Option ChainsRef × Option ChainsRef × List (IFCERFTNodeID × IFCERFTNode) :=
  (w.fbsk.md, w.fbsk.unmerged, w.fbsk.merged, w.fbsk.dirtyNodes)

/-- A call is effective in `w` when it changes the keeper's data. -/
def Call.effective (c : Call) (w : World) : Bool :=
  match c.apply w with
  | none => false
  | some w1 => decide (keeperData w1 ≠ keeperData w)

/-- Number of effective calls of a run. -/
def effectiveCount : List Call → World → Nat
  | [], _ => 0
  | c :: cs, w =>
    match c.apply w with
    | none => 0
    | some w1 => (if c.effective w then 1 else 0) + effectiveCount cs w1

/-- The current handle is allocated and open, every closed handle was
allocated, and no handle was closed twice. -/
def World.WF (w : World) : Prop :=
  w.fbsk.updateChan < w.heap.next ∧ w.fbsk.updateChan ∉ w.heap.closed ∧
  (∀ c ∈ w.heap.closed, c < w.heap.next) ∧ w.heap.closed.Nodup

/-- A heap before the keeper is made: closed handles were allocated, each
closed once. -/
def ChanHeap.Valid (h : ChanHeap) : Prop :=
  (∀ c ∈ h.closed, c < h.next) ∧ h.closed.Nodup


/-- The condition under which a mutation carries a new value: a metadata
pointer other than the current one, a chain pair other than the current pair,
a node whose ID is absent from (present in) the dirty map. -/
def Call.differs : Call → World → Prop
  | .setRootMetadata md, w => md ≠ w.fbsk.md
  | .setCRChains u m, w => ¬ (u = w.fbsk.unmerged ∧ m = w.fbsk.merged)
  | .addDirtyNode n, w => mapLookup n.GetID w.fbsk.dirtyNodes = none
  | .rmDirtyNode n, w => mapLookup n.GetID w.fbsk.dirtyNodes ≠ none
  | .getStatus _, _ => False

/-- A range loop that visits the map in stored order. -/
def rangeInOrder : RangeOrder :=
  { visit := fun m => m, perm := fun m => List.Perm.refl m }

/-- A range loop that visits the map in the opposite order. -/
def rangeReversed : RangeOrder :=
  { visit := fun m => m.reverse, perm := fun m => List.reverse_perm m }

/-- A configuration whose username lookup fails for user 7 only. -/
def sampleConfig : IFCERFTConfig :=
  { metadataFlagUnmerged := 1,
    GetNormalizedUsername := fun u => if u = 7 then ("", some "no such user") else ("alice", none),
    IsRekeyPending := fun _ => false,
    tlfString := fun _ => "tlf",
    deref := fun p => { WFlags := 1, LastModifyingWriter := p, DiskUsage := 10, ID := 3,
                        ops := [], dataDir := 0 },
    Summary := fun _ _ => [] }

def sampleNodeCache : IFCERFTNodeCache :=
  { PathFromNode := fun n => if n.id = 1 then "a" else "b" }

/-- A freshly made keeper on an empty channel heap. -/
def sampleWorld : World :=
  newFolderBranchStatusKeeper sampleConfig sampleNodeCache { next := 0, closed := [] }

/-- A keeper holding two dirty nodes. -/
def sampleDirtyWorld : World :=
  { sampleWorld with
    fbsk := { sampleWorld.fbsk with dirtyNodes := [(1, ⟨1, 0⟩), (2, ⟨2, 0⟩)] } }

/-! ## CR chains

The chain builder's source file is not among the sources; only its test file
is.  The data model and `newCRChains` below are modelled from the
specification and are checked against the four tests of
`cr_chains_test.go` further down. -/

/-- Modelled from the spec: the ordered `Updates` list every operation carries
(section 3). -/
def IFCERFTOps.Updates : IFCERFTOps → List blockUpdate
  | .createOp _ _ _ _ us => us
  | .rmOp _ _ us => us
  | .renameOp _ _ _ _ _ _ us => us
  | .setAttrOp _ _ _ _ us => us
  | .syncOp _ us => us

/-- Modelled from the spec: the method `AddUpdate(oldPtr, newPtr)` the tests
call, whose Go definition is missing: one more `(Unref, Ref)` pair at the end
of the operation's `Updates` (section 3). -/
def IFCERFTOps.AddUpdate (op : IFCERFTOps) (oldPtr newPtr : IFCERFTBlockPointer) : IFCERFTOps :=
  match op with
  | .createOp n d t r us => .createOp n d t r (us ++ [⟨oldPtr, newPtr⟩])
  | .rmOp n d us => .rmOp n d (us ++ [⟨oldPtr, newPtr⟩])
  | .renameOp o od n nd f t us => .renameOp o od n nd f t (us ++ [⟨oldPtr, newPtr⟩])
  | .setAttrOp n d a f us => .setAttrOp n d a f (us ++ [⟨oldPtr, newPtr⟩])
  | .syncOp f us => .syncOp f (us ++ [⟨oldPtr, newPtr⟩])

/-- Modelled from the spec: the constructor `newCreateOp` the tests call: a
Create that is not a rename half and has no updates yet. -/
def newCreateOp (name : String) (oldDir : IFCERFTBlockPointer) (t : IFCERFTEntryType) :
    IFCERFTOps :=
  .createOp name oldDir t false []

/-- Modelled from the spec: the constructor `newRmOp` the tests call. -/
def newRmOp (name : String) (oldDir : IFCERFTBlockPointer) : IFCERFTOps :=
  .rmOp name oldDir []

/-- Modelled from the spec: the constructor `newRenameOp` the tests call. -/
def newRenameOp (oldName : String) (oldOldDir : IFCERFTBlockPointer) (newName : String)
    (oldNewDir : IFCERFTBlockPointer) (renamed : IFCERFTBlockPointer) (t : IFCERFTEntryType) :
    IFCERFTOps :=
  .renameOp oldName oldOldDir newName oldNewDir renamed t []

/-- Modelled from the spec: the constructor `newSetAttrOp` the tests call. -/
def newSetAttrOp (name : String) (oldDir : IFCERFTBlockPointer) (attr : attrChange)
    (file : IFCERFTBlockPointer) : IFCERFTOps :=
  .setAttrOp name oldDir attr file []

/-- Modelled from the spec: the constructor `newSyncOp` the tests call. -/
def newSyncOp (oldFile : IFCERFTBlockPointer) : IFCERFTOps :=
  .syncOp oldFile []

/-- Modelled from the spec: the record `IFCERFTRenameInfo` of section 3, in
original pointers; the tests build it positionally in this field order. -/
structure IFCERFTRenameInfo where
  originalOldParent : IFCERFTBlockPointer
  oldName : String
  originalNewParent : IFCERFTBlockPointer
  newName : String
  deriving DecidableEq, Repr

/-- Modelled from the spec: a chain (section 3), the net history of one entry:
its operations, its original pointer and its most-recent pointer. -/
structure crChain where
  ops : List IFCERFTOps
  original : IFCERFTBlockPointer
  mostRecent : IFCERFTBlockPointer
  deriving DecidableEq, Repr

/-- Modelled from the spec: the index `IFCERFTCrChains` of section 3, laid out
as section 9 describes it: an arena of chain records and two explicit maps
from pointers to arena positions, so that "the same chain object" is "the same
position". -/
structure IFCERFTCrChains where
  chains : List crChain
  byOriginal : List (IFCERFTBlockPointer × Nat)
  byMostRecent : List (IFCERFTBlockPointer × Nat)
  renamedOriginals : List (IFCERFTBlockPointer × IFCERFTRenameInfo)
  originalRoot : IFCERFTBlockPointer
  deriving DecidableEq, Repr

/-- Modelled from the spec: the chain object a map entry points to. -/
def IFCERFTCrChains.chainAt (cc : IFCERFTCrChains) (id : Nat) : crChain :=
  cc.chains.getD id ⟨[], 0, 0⟩

/-- Modelled from the spec: the expression `cc.byOriginal[p]` of the tests: the
chain, when there is one. -/
def IFCERFTCrChains.lookupOriginal (cc : IFCERFTCrChains) (p : IFCERFTBlockPointer) :
    Option crChain :=
  (mapLookup p cc.byOriginal).map cc.chainAt

/-- Modelled from the spec: the expression `cc.byMostRecent[p]` of the tests:
the chain, when there is one. -/
def IFCERFTCrChains.lookupMostRecent (cc : IFCERFTCrChains) (p : IFCERFTBlockPointer) :
    Option crChain :=
  (mapLookup p cc.byMostRecent).map cc.chainAt

/-- Equality of results is decidable. -/
instance instDecidableEqExcept {ε α : Type} [DecidableEq ε] [DecidableEq α] :
    DecidableEq (Except ε α)
  | .ok a, .ok b =>
    if h : a = b then isTrue (congrArg Except.ok h)
    else isFalse (fun h1 => h (Except.ok.inj h1))
  | .error a, .error b =>
    if h : a = b then isTrue (congrArg Except.error h)
    else isFalse (fun h1 => h (Except.error.inj h1))
  | .ok _, .error _ => isFalse (fun h => Except.noConfusion h)
  | .error _, .ok _ => isFalse (fun h => Except.noConfusion h)

/-- Modelled from the spec: the construction failures of section 7 that the
builder can tell from its input: a pointer with no resolvable original, a
non-causal update, a root-continuity mismatch.  Section 7 also lists
SetAttribute or Sync on a removed original; a Remove names its entry by
directory and name and carries no target pointer, so the index of section 3
has nothing to tell a removed original by. -/
inductive crError where
  | unresolvedPointer (p : IFCERFTBlockPointer)
  | pointerInUse (p : IFCERFTBlockPointer)
  | rootMismatch (root : IFCERFTBlockPointer)
  deriving DecidableEq, Repr

/-- Modelled from the spec: the builder's working state: the arena, the two
maps (`byMostRecent` is the working table of section 4.1, kept as the map
that survives), the renames, and the arena positions of the chains on which a
Create was cancelled by a Remove. -/
structure chainBuilder where
  chains : List crChain
  byOriginal : List (IFCERFTBlockPointer × Nat)
  byMostRecent : List (IFCERFTBlockPointer × Nat)
  renamedOriginals : List (IFCERFTBlockPointer × IFCERFTRenameInfo)
  cancelled : List Nat
  deriving DecidableEq, Repr

/-- Modelled from the spec: the builder starts with nothing. -/
def chainBuilder.empty : chainBuilder :=
  { chains := [], byOriginal := [], byMostRecent := [], renamedOriginals := [], cancelled := [] }

/-- Modelled from the spec: the chain at an arena position. -/
def chainBuilder.chainAt (b : chainBuilder) (id : Nat) : crChain :=
  b.chains.getD id ⟨[], 0, 0⟩

/-- Modelled from the spec: whether an operation is a Create of the given name. -/
def IFCERFTOps.isCreateOf (name : String) : IFCERFTOps → Bool
  | .createOp n _ _ _ _ => decide (n = name)
  | _ => false

/-- Modelled from the spec: collapsing before insertion (section 4.4), on the
operation list of one chain.  A Remove cancels the pending Create of the same
name, wherever it stands in the chain, and neither is kept.  A Create takes
the place of an earlier pending Create of the same name, so that a chain holds
one pending Create per name (in `TestCRChainsCollapse` file3 is created and
then created again by a rename onto it, and one Create is expected in the
end).  Everything else is appended.  Sync never collapses.  The
SetAttribute rules of section 4.4 have nothing to act on, the rules being per
chain: a SetAttribute is recorded on the chain of its target and a Remove on
the chain of the parent directory, so the two never meet on one chain (and
`TestCRChainsCollapse` expects the SetAttribute on file1 to stay after file1
is renamed away and removed).  The flag tells whether a cancellation took
place. -/
def collapseInsert (ops : List IFCERFTOps) (op : IFCERFTOps) : List IFCERFTOps × Bool :=
  match op with
  | .createOp name _ _ _ _ => (ops.filter (fun o => !o.isCreateOf name) ++ [op], false)
  | .rmOp name _ _ =>
    if ops.any (fun o => o.isCreateOf name) then
      (ops.filter (fun o => !o.isCreateOf name), true)
    else (ops ++ [op], false)
  | _ => (ops ++ [op], false)

/-- Modelled from the spec: add an operation to a chain, collapsing first
(section 4.4). -/
def crChain.addOp (c : crChain) (op : IFCERFTOps) : crChain × Bool :=
  ({ c with ops := (collapseInsert c.ops op).1 }, (collapseInsert c.ops op).2)

/-- Modelled from the spec: the chains an operation is recorded on (section
4.3, steps 2 and 3), each with the pointer that names the chain: the parent
directory for Create and Remove, the target for SetAttribute, the file for
Sync.  A Rename is recorded as its remove half (old name, no updates) on the
source directory and its create half (new name, marked renamed, no updates) on
the destination directory; the moved object gets no operation. -/
def IFCERFTOps.chainOps : IFCERFTOps → List (IFCERFTBlockPointer × IFCERFTOps)
  | .createOp n d t r us => [(d, .createOp n d t r us)]
  | .rmOp n d us => [(d, .rmOp n d us)]
  | .renameOp o od n nd _ t _ => [(od, .rmOp o od []), (nd, .createOp n nd t true [])]
  | .setAttrOp n d a f us => [(f, .setAttrOp n d a f us)]
  | .syncOp f us => [(f, .syncOp f us)]

/-- Modelled from the spec: resolving a pointer to its original (section 4.3,
step 1): through the working table, and a pointer that is not in it is its
own original. -/
def chainBuilder.originalOf (b : chainBuilder) (p : IFCERFTBlockPointer) :
    IFCERFTBlockPointer :=
  match mapLookup p b.byMostRecent with
  | some id => (b.chainAt id).original
  | none => p

/-- Modelled from the spec: locate or create the chain of a pointer (section
4.3, step 2).  A pointer found in the working table has its chain; a
first-seen pointer starts a chain as its own original.  A pointer that is not
in the working table although a chain already starts from it has been
superseded, which is non-causal input and fails the construction. -/
def chainBuilder.chainFor (p : IFCERFTBlockPointer) (b : chainBuilder) :
    Except crError (Nat × chainBuilder) :=
  match mapLookup p b.byMostRecent with
  | some id => .ok (id, b)
  | none =>
    match mapLookup p b.byOriginal with
    | some _ => .error (.unresolvedPointer p)
    | none =>
      .ok (b.chains.length,
        { b with
          chains := b.chains ++ [⟨[], p, p⟩],
          byOriginal := mapInsert p b.chains.length b.byOriginal,
          byMostRecent := mapInsert p b.chains.length b.byMostRecent })

/-- Modelled from the spec: move a chain to its new most-recent pointer and
re-key the working table (section 4.3, step 2).  A new pointer that is already
the key of a chain is non-causal input and fails the construction. -/
def chainBuilder.setMostRecent (id : Nat) (ref : IFCERFTBlockPointer) (b : chainBuilder) :
    Except crError chainBuilder :=
  if (b.chainAt id).mostRecent = ref then .ok b
  else
    match mapLookup ref b.byMostRecent with
    | some _ => .error (.pointerInUse ref)
    | none =>
      .ok { b with
        chains := b.chains.set id { b.chainAt id with mostRecent := ref },
        byMostRecent := mapInsert ref id (mapErase (b.chainAt id).mostRecent b.byMostRecent) }

/-- Modelled from the spec: one `(Unref, Ref)` pair (section 4.3, steps 1 and
2): the chain of `Unref`, located or created, moves to `Ref`. -/
def chainBuilder.applyUpdate (u : blockUpdate) (b : chainBuilder) :
    Except crError chainBuilder :=
  match b.chainFor u.Unref with
  | .error e => .error e
  | .ok (id, b1) => b1.setMostRecent id u.Ref

/-- Modelled from the spec: the update pairs of an operation, in order. -/
def chainBuilder.applyUpdates : List blockUpdate → chainBuilder → Except crError chainBuilder
  | [], b => .ok b
  | u :: us, b =>
    match b.applyUpdate u with
    | .error e => .error e
    | .ok b1 => chainBuilder.applyUpdates us b1

/-- Modelled from the spec: append an operation to the chain of pointer `p`,
located or created, collapsing first (section 4.3, step 2), and note a
cancellation. -/
def chainBuilder.insertOp (p : IFCERFTBlockPointer) (op : IFCERFTOps) (b : chainBuilder) :
    Except crError chainBuilder :=
  match b.chainFor p with
  | .error e => .error e
  | .ok (id, b1) =>
    .ok { b1 with
      chains := b1.chains.set id ((b1.chainAt id).addOp op).1,
      cancelled := if ((b1.chainAt id).addOp op).2 then id :: b1.cancelled else b1.cancelled }

/-- Modelled from the spec: the `renamedOriginals` entry of a renamed object
(section 4.3, step 3), in original pointers: an existing entry keeps its first
source and takes the new destination. -/
def chainBuilder.recordRename (oldName : String) (oldDir : IFCERFTBlockPointer)
    (newName : String) (newDir : IFCERFTBlockPointer) (renamed : IFCERFTBlockPointer)
    (b : chainBuilder) : chainBuilder :=
  { b with
    renamedOriginals :=
      mapInsert (b.originalOf renamed)
        (match mapLookup (b.originalOf renamed) b.renamedOriginals with
         | some ri =>
           { ri with originalNewParent := b.originalOf newDir, newName := newName }
         | none =>
           { originalOldParent := b.originalOf oldDir, oldName := oldName,
             originalNewParent := b.originalOf newDir, newName := newName })
        b.renamedOriginals }

/-- Modelled from the spec: record an operation on each of its chains, in
order. -/
def chainBuilder.insertOps :
    List (IFCERFTBlockPointer × IFCERFTOps) → chainBuilder → Except crError chainBuilder
  | [], b => .ok b
  | (p, op) :: rest, b =>
    match b.insertOp p op with
    | .error e => .error e
    | .ok b1 => chainBuilder.insertOps rest b1

/-- Modelled from the spec: the rename an operation records, if it is a Rename
(section 4.3, step 3). -/
def chainBuilder.recordRenameOf (op : IFCERFTOps) (b : chainBuilder) : chainBuilder :=
  match op with
  | .renameOp oldName oldDir newName newDir renamed _ _ =>
    b.recordRename oldName oldDir newName newDir renamed
  | _ => b

/-- Modelled from the spec: one operation (section 4.3, steps 1 to 3).  The
operation is appended, after collapsing, to the chains it is recorded on; a
Rename also records the rename of the moved object; then every chain named by
an update pair moves to its new pointer. -/
def chainBuilder.makeChainForOp (op : IFCERFTOps) (b : chainBuilder) :
    Except crError chainBuilder :=
  match b.insertOps op.chainOps with
  | .error e => .error e
  | .ok b1 => (b1.recordRenameOf op).applyUpdates op.Updates

/-- Modelled from the spec: the operations of a revision, in the given order
(section 4.2). -/
def chainBuilder.processOps : List IFCERFTOps → chainBuilder → Except crError chainBuilder
  | [], b => .ok b
  | op :: ops, b =>
    match b.makeChainForOp op with
    | .error e => .error e
    | .ok b1 => chainBuilder.processOps ops b1

/-- Modelled from the spec: a chain is pruned when a Create was cancelled by a
Remove on it and no operation is left on it (section 4.4: pruned if nothing
else references it). -/
def chainBuilder.pruned (b : chainBuilder) (id : Nat) : Bool :=
  decide (id ∈ b.cancelled) && decide ((b.chainAt id).ops = [])

/-- Modelled from the spec: the finished index.  Chains emptied by a
Create/Remove cancellation are dropped from both maps (section 4.4); the
working state is discarded. -/
def chainBuilder.finish (b : chainBuilder) (root : IFCERFTBlockPointer) : IFCERFTCrChains :=
  { chains := b.chains,
    byOriginal := b.byOriginal.filter (fun e => !b.pruned e.2),
    byMostRecent := b.byMostRecent.filter (fun e => !b.pruned e.2),
    renamedOriginals := b.renamedOriginals,
    originalRoot := root }

/-- Modelled from the spec: the revision loop (section 4.3, step 4).  The root
of the first revision, resolved through the working table, establishes
`originalRoot`; the root of every later revision must resolve to it, that is,
the revision must have started from the running most-recent root. -/
def newCRChainsLoop :
    List IFCERFTRootMetadata → chainBuilder → Option IFCERFTBlockPointer →
      Except crError IFCERFTCrChains
  | [], b, root => .ok (b.finish (root.getD 0))
  | rmd :: rest, b, root =>
    match b.processOps rmd.ops with
    | .error e => .error e
    | .ok b1 =>
      match root with
      | none => newCRChainsLoop rest b1 (some (b1.originalOf rmd.dataDir))
      | some r =>
        if b1.originalOf rmd.dataDir = r then newCRChainsLoop rest b1 (some r)
        else .error (.rootMismatch rmd.dataDir)

/-- Modelled from the spec: `newCRChains(ctx, config, rmds, nil, true)`, the
chain builder of sections 4.3 and 4.4, whose source file is missing.  The
revisions come oldest first; the tests pass no bounding chain set, and the
writer lookup belongs to a collaborator. -/
def newCRChains (rmds : List IFCERFTRootMetadata) : Except crError IFCERFTCrChains :=
  newCRChainsLoop rmds chainBuilder.empty none

/-! ### The helpers of `cr_chains_test.go` -/

/-- The loop of `testCRInitPtrs`: `n` more rounds from the state reached. -/
def testCRInitPtrsLoop :
    Nat → Nat × List IFCERFTBlockPointer × List (IFCERFTBlockPointer × IFCERFTBlockPointer) →
      Nat × List IFCERFTBlockPointer × List (IFCERFTBlockPointer × IFCERFTBlockPointer)
  | 0, r => r
  | n + 1, (currPtr, ptrs, revPtrs) =>
    testCRInitPtrsLoop n ((currPtr + 1) % 256, ptrs ++ [currPtr], mapInsert currPtr currPtr revPtrs)

def testCRInitPtrs (n : Nat) :
    Nat × List IFCERFTBlockPointer × List (IFCERFTBlockPointer × IFCERFTBlockPointer) :=
  testCRInitPtrsLoop n (42, [], [])

/-- The state threaded through a test: next fresh pointer, `expected` and
`revPtrs`. -/
structure testPtrs where
  currPtr : Nat
  expected : List (IFCERFTBlockPointer × IFCERFTBlockPointer)
  revPtrs : List (IFCERFTBlockPointer × IFCERFTBlockPointer)
  deriving DecidableEq, Repr

def testCRFillOpPtrs (s : testPtrs) :
    List IFCERFTBlockPointer → IFCERFTOps → testPtrs × IFCERFTOps
  | [], op => (s, op)
  | ptr :: rest, op =>
    testCRFillOpPtrs
      { currPtr := (s.currPtr + 1) % 256,
        expected := mapInsert ((mapLookup ptr s.revPtrs).getD 0) s.currPtr s.expected,
        revPtrs := mapInsert s.currPtr ((mapLookup ptr s.revPtrs).getD 0) s.revPtrs }
      rest (op.AddUpdate ptr s.currPtr)

/-- The function `checkExpectedChains`, as a test that passes or fails; the
two maps hold positions of one arena, so `chain != mrChain` compares
positions. -/
def checkExpectedChains (expected : List (IFCERFTBlockPointer × IFCERFTBlockPointer))
    (expectedRenames : List (IFCERFTBlockPointer × IFCERFTRenameInfo))
    (expectedRoot : IFCERFTBlockPointer) (cc : IFCERFTCrChains) (checkTailPtr : Bool) : Bool :=
  decide (cc.byOriginal.length = expected.length) &&
  decide (cc.byMostRecent.length = expected.length) &&
  decide (cc.renamedOriginals.length = expectedRenames.length) &&
  decide (cc.originalRoot = expectedRoot) &&
  expected.all (fun e =>
    match mapLookup e.1 cc.byOriginal with
    | none => false
    | some id =>
      (!checkTailPtr || decide ((cc.chainAt id).mostRecent = e.2)) &&
      (match mapLookup e.2 cc.byMostRecent with
       | none => false
       | some mrId => decide (id = mrId))) &&
  expectedRenames.all (fun e => decide (mapLookup e.1 cc.renamedOriginals = some e.2))

/-- The comparison of one chain operation with the expected one in
`testCRCheckOps`: a create half by name, directory and the renamed mark, a
remove half (no updates) by name and directory, anything else exactly. -/
def testCRCheckOp (op eOp : IFCERFTOps) : Bool :=
  match op, eOp with
  | .createOp n d _ true _, .createOp en ed _ er _ => decide (n = en) && decide (d = ed) && er
  | .createOp _ _ _ true _, _ => false
  | .rmOp n d [], .rmOp en ed eus =>
    decide (n = en) && decide (d = ed) && !(eus.any (fun u => decide (u.Unref = ed)))
  | .rmOp _ _ [], _ => false
  | _, _ => decide (op = eOp)

def testCRCheckOpsList : List IFCERFTOps → List IFCERFTOps → Bool
  | [], [] => true
  | op :: ops, eOp :: eOps => testCRCheckOp op eOp && testCRCheckOpsList ops eOps
  | _, _ => false

def testCRCheckOps (cc : IFCERFTCrChains) (original : IFCERFTBlockPointer)
    (expectedOps : List IFCERFTOps) : Bool :=
  match cc.lookupOriginal original with
  | none => false
  | some chain => testCRCheckOpsList chain.ops expectedOps

/-! ### The scenarios of `cr_chains_test.go` -/

/-- A revision holding the given operations and root pointer (`rmd.AddOp`,
`rmd.data.Dir`), with the writer the tests fill in. -/
def testRmd (ops : List IFCERFTOps) (root : IFCERFTBlockPointer) : IFCERFTRootMetadata :=
  { WFlags := 0, LastModifyingWriter := 1, DiskUsage := 0, ID := 0, ops := ops, dataDir := root }

/-- The expression `expected[ptr]`. -/
def testPtrs.exp (s : testPtrs) (ptr : IFCERFTBlockPointer) : IFCERFTBlockPointer :=
  (mapLookup ptr s.expected).getD 0

/-- The state after `testCRInitPtrs(n)` and `extra` further pointers taken
from `currPtr` by hand. -/
def testStart (n extra : Nat) : testPtrs :=
  { currPtr := (testCRInitPtrs n).1 + extra, expected := [], revPtrs := (testCRInitPtrs n).2.2 }

namespace SingleOp

def rootPtrUnref : IFCERFTBlockPointer := 42

def dir1Unref : IFCERFTBlockPointer := 43

def dir2Unref : IFCERFTBlockPointer := 44

def step1 : testPtrs × IFCERFTOps :=
  testCRFillOpPtrs (testStart 3 0) [rootPtrUnref, dir1Unref, dir2Unref]
    (newCreateOp "new" dir2Unref .File)

def co : IFCERFTOps := step1.2

def rmds : List IFCERFTRootMetadata := [testRmd [co] (step1.1.exp rootPtrUnref)]

end SingleOp

namespace RenameOp

def rootPtrUnref : IFCERFTBlockPointer := 42

def dir1Unref : IFCERFTBlockPointer := 43

def dir2Unref : IFCERFTBlockPointer := 44

def filePtr : IFCERFTBlockPointer := 45

def step1 : testPtrs × IFCERFTOps :=
  testCRFillOpPtrs (testStart 3 1) [rootPtrUnref, dir1Unref, dir2Unref]
    (newRenameOp "old" dir1Unref "new" dir2Unref filePtr .File)

def ro : IFCERFTOps := step1.2

def expectedRenames : List (IFCERFTBlockPointer × IFCERFTRenameInfo) :=
  [(filePtr, ⟨dir1Unref, "old", dir2Unref, "new"⟩)]

def rmds : List IFCERFTRootMetadata := [testRmd [ro] (step1.1.exp rootPtrUnref)]

end RenameOp

namespace MultiOps

def rootPtrUnref : IFCERFTBlockPointer := 42

def dir1Unref : IFCERFTBlockPointer := 43

def dir2Unref : IFCERFTBlockPointer := 44

def dir3Unref : IFCERFTBlockPointer := 45

def file4Unref : IFCERFTBlockPointer := 46

def file2Ptr : IFCERFTBlockPointer := 47

/-- Operation 1, `setex root/dir3/file2`, and `expected[file2Ptr] = file2Ptr`. -/
def step1 : testPtrs × IFCERFTOps :=
  let r := testCRFillOpPtrs (testStart 5 1) [rootPtrUnref, dir3Unref]
    (newSetAttrOp "file2" dir3Unref .exAttr file2Ptr)
  ({ r.1 with expected := mapInsert file2Ptr file2Ptr r.1.expected }, r.2)

/-- Operation 2, `createfile root/dir1/file3`. -/
def step2 : testPtrs × IFCERFTOps :=
  testCRFillOpPtrs step1.1 [step1.1.exp rootPtrUnref, dir1Unref]
    (newCreateOp "file3" dir1Unref .File)

/-- Operation 3, `rename root/dir3/file2 root/dir1/file4`. -/
def step3 : testPtrs × IFCERFTOps :=
  testCRFillOpPtrs step2.1
    [step2.1.exp rootPtrUnref, step2.1.exp dir1Unref, step2.1.exp dir3Unref]
    (newRenameOp "file2" (step2.1.exp dir3Unref) "file4" (step2.1.exp dir1Unref) file2Ptr .File)

/-- Operation 4, `write root/dir1/file4`. -/
def step4 : testPtrs × IFCERFTOps :=
  testCRFillOpPtrs step3.1 [step3.1.exp rootPtrUnref, step3.1.exp dir1Unref, file4Unref]
    (newSyncOp file4Unref)

/-- Operation 5, `rm root/dir1/dir2/file1`. -/
def step5 : testPtrs × IFCERFTOps :=
  testCRFillOpPtrs step4.1 [step4.1.exp rootPtrUnref, step4.1.exp dir1Unref, dir2Unref]
    (newRmOp "file1" dir2Unref)

def expectedRenames : List (IFCERFTBlockPointer × IFCERFTRenameInfo) :=
  [(file2Ptr, ⟨dir3Unref, "file2", dir1Unref, "file4"⟩)]

def ops : List IFCERFTOps := [step1.2, step2.2, step3.2, step4.2, step5.2]

def rmds : List IFCERFTRootMetadata := [testRmd ops (step5.1.exp rootPtrUnref)]

def multiRmds : List IFCERFTRootMetadata :=
  [testRmd [step1.2] (step1.1.exp rootPtrUnref), testRmd [step2.2] (step2.1.exp rootPtrUnref),
   testRmd [step3.2] (step3.1.exp rootPtrUnref), testRmd [step4.2] (step4.1.exp rootPtrUnref),
   testRmd [step5.2] (step5.1.exp rootPtrUnref)]

end MultiOps

namespace Collapse

def rootPtrUnref : IFCERFTBlockPointer := 42

def dir1Unref : IFCERFTBlockPointer := 43

def dir2Unref : IFCERFTBlockPointer := 44

def file1Ptr : IFCERFTBlockPointer := 45

def file4Ptr : IFCERFTBlockPointer := 46

/-- Operation 1, `createfile root/dir1/file2`. -/
def step1 : testPtrs × IFCERFTOps :=
  testCRFillOpPtrs (testStart 3 2) [rootPtrUnref, dir1Unref] (newCreateOp "file2" dir1Unref .File)

/-- Operation 2, `setex root/dir2/file1`, and `expected[file1Ptr] = file1Ptr`. -/
def step2 : testPtrs × IFCERFTOps :=
  let r := testCRFillOpPtrs step1.1 [step1.1.exp rootPtrUnref, dir2Unref]
    (newSetAttrOp "file1" dir2Unref .exAttr file1Ptr)
  ({ r.1 with expected := mapInsert file1Ptr file1Ptr r.1.expected }, r.2)

/-- Operation 3, `createfile root/dir1/file3`. -/
def step3 : testPtrs × IFCERFTOps :=
  testCRFillOpPtrs step2.1 [step2.1.exp rootPtrUnref, step2.1.exp dir1Unref]
    (newCreateOp "file3" (step2.1.exp dir1Unref) .File)

/-- Operation 4, `createfile root/dir1/file4`. -/
def step4 : testPtrs × IFCERFTOps :=
  testCRFillOpPtrs step3.1 [step3.1.exp rootPtrUnref, step3.1.exp dir1Unref]
    (newCreateOp "file4" (step3.1.exp dir1Unref) .File)

/-- Operation 5, `rm root/dir1/file2`. -/
def step5 : testPtrs × IFCERFTOps :=
  testCRFillOpPtrs step4.1 [step4.1.exp rootPtrUnref, step4.1.exp dir1Unref]
    (newRmOp "file2" (step4.1.exp dir1Unref))

/-- Operation 6, `rename root/dir2/file1 root/dir1/file3`. -/
def step6 : testPtrs × IFCERFTOps :=
  testCRFillOpPtrs step5.1
    [step5.1.exp rootPtrUnref, step5.1.exp dir1Unref, step5.1.exp dir2Unref]
    (newRenameOp "file1" (step5.1.exp dir2Unref) "file3" (step5.1.exp dir1Unref) file1Ptr .File)

/-- Operation 7, `rm root/dir1/file3`. -/
def step7 : testPtrs × IFCERFTOps :=
  testCRFillOpPtrs step6.1 [step6.1.exp rootPtrUnref, step6.1.exp dir1Unref]
    (newRmOp "file3" (step6.1.exp dir1Unref))

/-- Operation 8, `rename root/dir1/file4 root/dir1/file5`. -/
def step8 : testPtrs × IFCERFTOps :=
  testCRFillOpPtrs step7.1 [step7.1.exp rootPtrUnref, step7.1.exp dir1Unref]
    (newRenameOp "file4" (step7.1.exp dir1Unref) "file5" (step7.1.exp dir1Unref) file4Ptr .File)

/-- Operation 9, `rename root/dir1/file5 root/dir1/file3`. -/
def step9 : testPtrs × IFCERFTOps :=
  testCRFillOpPtrs step8.1 [step8.1.exp rootPtrUnref, step8.1.exp dir1Unref]
    (newRenameOp "file5" (step8.1.exp dir1Unref) "file3" (step8.1.exp dir1Unref) file4Ptr .File)

def expectedRenames : List (IFCERFTBlockPointer × IFCERFTRenameInfo) :=
  [(file1Ptr, ⟨dir2Unref, "file1", dir1Unref, "file3"⟩),
   (file4Ptr, ⟨dir1Unref, "file4", dir1Unref, "file3"⟩)]

def ops : List IFCERFTOps :=
  [step1.2, step2.2, step3.2, step4.2, step5.2, step6.2, step7.2, step8.2, step9.2]

def rmds : List IFCERFTRootMetadata := [testRmd ops (step9.1.exp rootPtrUnref)]

end Collapse

/-- The builder state after a list of operations, from the empty state. -/
def chainBuilder.after (ops : List IFCERFTOps) : chainBuilder :=
  match chainBuilder.empty.processOps ops with
  | .ok b => b
  | .error _ => chainBuilder.empty

/-- A scenario built with the test helpers, on the tree of
`TestCRChainsCollapse` (root/dir1 and root/dir2/file1): createfile
root/dir1/file2, setex root/dir2/file1, rm root/dir1/file2. -/
def CreateRemove.rmStep : testPtrs × IFCERFTOps :=
  testCRFillOpPtrs Collapse.step2.1
    [Collapse.step2.1.exp Collapse.rootPtrUnref, Collapse.step2.1.exp Collapse.dir1Unref]
    (newRmOp "file2" (Collapse.step2.1.exp Collapse.dir1Unref))

def CreateRemove.rmd : IFCERFTRootMetadata :=
  testRmd [Collapse.step1.2, Collapse.step2.2, CreateRemove.rmStep.2]
    (CreateRemove.rmStep.1.exp Collapse.rootPtrUnref)

namespace TwoRenames

/-! A scenario built with the test helpers on the tree root/dirA, root/dirB,
root/dirC: createfile root/dirA/name0, rename root/dirA/name0 root/dirB/name1,
rename root/dirB/name1 root/dirC/name2. -/

def rootPtrUnref : IFCERFTBlockPointer := 42

def dirAUnref : IFCERFTBlockPointer := 43

def dirBUnref : IFCERFTBlockPointer := 44

def dirCUnref : IFCERFTBlockPointer := 45

def objPtr : IFCERFTBlockPointer := 46

/-- Operation 1, `createfile root/dirA/name0`. -/
def step1 : testPtrs × IFCERFTOps :=
  testCRFillOpPtrs (testStart 4 1) [rootPtrUnref, dirAUnref] (newCreateOp "name0" dirAUnref .File)

/-- Operation 2, `rename root/dirA/name0 root/dirB/name1`. -/
def step2 : testPtrs × IFCERFTOps :=
  testCRFillOpPtrs step1.1 [step1.1.exp rootPtrUnref, step1.1.exp dirAUnref, dirBUnref]
    (newRenameOp "name0" (step1.1.exp dirAUnref) "name1" dirBUnref objPtr .File)

/-- Operation 3, `rename root/dirB/name1 root/dirC/name2`. -/
def step3 : testPtrs × IFCERFTOps :=
  testCRFillOpPtrs step2.1 [step2.1.exp rootPtrUnref, step2.1.exp dirBUnref, dirCUnref]
    (newRenameOp "name1" (step2.1.exp dirBUnref) "name2" dirCUnref objPtr .File)

def rmds : List IFCERFTRootMetadata :=
  [testRmd [step1.2, step2.2, step3.2] (step3.1.exp rootPtrUnref)]

/-- The two renames alone, name0 being there from the start: operation 1. -/
def plain1 : testPtrs × IFCERFTOps :=
  testCRFillOpPtrs (testStart 4 1) [rootPtrUnref, dirAUnref, dirBUnref]
    (newRenameOp "name0" dirAUnref "name1" dirBUnref objPtr .File)

/-- The two renames alone: operation 2. -/
def plain2 : testPtrs × IFCERFTOps :=
  testCRFillOpPtrs plain1.1 [plain1.1.exp rootPtrUnref, plain1.1.exp dirBUnref, dirCUnref]
    (newRenameOp "name1" (plain1.1.exp dirBUnref) "name2" dirCUnref objPtr .File)

def plainRmd : IFCERFTRootMetadata :=
  testRmd [plain1.2, plain2.2] (plain2.1.exp rootPtrUnref)

end TwoRenames

/-- The index invariant the builder keeps: keys are distinct in both maps,
both maps point to the same arena positions, each once, the chain at a
position carries the keys it is filed under, and cancellations are recorded
for positions of the arena. -/
structure chainBuilder.Inv (b : chainBuilder) : Prop where
  keysO : (b.byOriginal.map Prod.fst).Nodup
  keysM : (b.byMostRecent.map Prod.fst).Nodup
  idsO : (b.byOriginal.map Prod.snd).Nodup
  perm : (b.byOriginal.map Prod.snd).Perm (b.byMostRecent.map Prod.snd)
  orig : ∀ p id, (p, id) ∈ b.byOriginal → id < b.chains.length ∧ (b.chainAt id).original = p
  most : ∀ q id, (q, id) ∈ b.byMostRecent →
    id < b.chains.length ∧ (b.chainAt id).mostRecent = q
  canc : ∀ id ∈ b.cancelled, id < b.chains.length

/-- The operations of the chain filed under original pointer `o`; none when no
chain is. -/
def chainBuilder.opsOf (b : chainBuilder) (o : IFCERFTBlockPointer) : List IFCERFTOps :=
  match mapLookup o b.byOriginal with
  | some id => (b.chainAt id).ops
  | none => []

/-- Whether a Create was cancelled on the chain filed under `o`. -/
def chainBuilder.wasCancelled (b : chainBuilder) (o : IFCERFTBlockPointer) : Bool :=
  match mapLookup o b.byOriginal with
  | some id => decide (id ∈ b.cancelled)
  | none => false

/-- Whether an operation recorded on a chain is a Remove of the name `name`. -/
def IFCERFTOps.removes (name : String) : IFCERFTOps → Bool
  | .rmOp n _ _ => decide (n = name)
  | _ => false

/-- Whether, in state `b`, an operation takes the name `name` away from the
directory whose chain is filed under `o`: a Remove of it there, or a Rename
from it there. -/
def IFCERFTOps.removesFrom (name : String) (o : IFCERFTBlockPointer) (b : chainBuilder)
    (op : IFCERFTOps) : Bool :=
  op.chainOps.any (fun e => e.2.removes name && decide (b.originalOf e.1 = o))

/-- Whether some operation of the list, processed from state `b`, takes the
name `name` away from the directory whose chain is filed under `o`. -/
def chainBuilder.removedIn (name : String) (o : IFCERFTBlockPointer) :
    List IFCERFTOps → chainBuilder → Bool
  | [], _ => false
  | op :: rest, b =>
    op.removesFrom name o b ||
      (match b.makeChainForOp op with
       | .ok b1 => chainBuilder.removedIn name o rest b1
       | .error _ => false)

/-- Whether, in state `b`, an operation is a Rename of the object whose
original pointer is `o`. -/
def IFCERFTOps.renamesObject (o : IFCERFTBlockPointer) (b : chainBuilder) : IFCERFTOps → Bool
  | .renameOp _ _ _ _ renamed _ _ => decide (b.originalOf renamed = o)
  | _ => false

/-- Whether some operation of the list, processed from state `b`, is a Rename
of the object whose original pointer is `o`. -/
def chainBuilder.renamedIn (o : IFCERFTBlockPointer) :
    List IFCERFTOps → chainBuilder → Bool
  | [], _ => false
  | op :: rest, b =>
    op.renamesObject o b ||
      (match b.makeChainForOp op with
       | .ok b1 => chainBuilder.renamedIn o rest b1
       | .error _ => false)

/-- All operations of a list of revisions, in order. -/
def allOps : List IFCERFTRootMetadata → List IFCERFTOps
  | [] => []
  | rmd :: rest => rmd.ops ++ allOps rest

/-- Whether an operation recorded on a chain is a Create or a Remove of the
name `name`. -/
def IFCERFTOps.names (name : String) : IFCERFTOps → Bool
  | .createOp n _ _ _ _ => decide (n = name)
  | .rmOp n _ _ => decide (n = name)
  | _ => false

/-- Whether, in state `b`, an operation records a Create or a Remove of the
name `name` on the chain filed under `o`: a Create or Remove there, or a
Rename from or to that name there. -/
def IFCERFTOps.namesOn (name : String) (o : IFCERFTBlockPointer) (b : chainBuilder)
    (op : IFCERFTOps) : Bool :=
  op.chainOps.any (fun e => e.2.names name && decide (b.originalOf e.1 = o))

/-- Whether some operation of the list, processed from state `b`, records a
Create or a Remove of the name `name` on the chain filed under `o`. -/
def chainBuilder.namedIn (name : String) (o : IFCERFTBlockPointer) :
    List IFCERFTOps → chainBuilder → Bool
  | [], _ => false
  | op :: rest, b =>
    op.namesOn name o b ||
      (match b.makeChainForOp op with
       | .ok b1 => chainBuilder.namedIn name o rest b1
       | .error _ => false)

namespace TwoRenames

/-! The two renames among other operations: createfile root/dirA/other, rename
root/dirA/name0 root/dirB/name1, createfile root/dirC/mid, rename
root/dirB/name1 root/dirC/name2, createfile root/dirB/late. -/

def full1 : testPtrs × IFCERFTOps :=
  testCRFillOpPtrs (testStart 4 1) [rootPtrUnref, dirAUnref] (newCreateOp "other" dirAUnref .File)

def full2 : testPtrs × IFCERFTOps :=
  testCRFillOpPtrs full1.1 [full1.1.exp rootPtrUnref, full1.1.exp dirAUnref, dirBUnref]
    (newRenameOp "name0" (full1.1.exp dirAUnref) "name1" dirBUnref objPtr .File)

def full3 : testPtrs × IFCERFTOps :=
  testCRFillOpPtrs full2.1 [full2.1.exp rootPtrUnref, dirCUnref]
    (newCreateOp "mid" dirCUnref .File)

def full4 : testPtrs × IFCERFTOps :=
  testCRFillOpPtrs full3.1
    [full3.1.exp rootPtrUnref, full3.1.exp dirBUnref, full3.1.exp dirCUnref]
    (newRenameOp "name1" (full3.1.exp dirBUnref) "name2" (full3.1.exp dirCUnref) objPtr .File)

def full5 : testPtrs × IFCERFTOps :=
  testCRFillOpPtrs full4.1 [full4.1.exp rootPtrUnref, full4.1.exp dirBUnref]
    (newCreateOp "late" (full4.1.exp dirBUnref) .File)

def fullRmd : IFCERFTRootMetadata :=
  testRmd [full1.2, full2.2, full3.2, full4.2, full5.2] (full5.1.exp rootPtrUnref)

/-- The two renames alone, followed by rm root/dirC/name2. -/
def plain3 : testPtrs × IFCERFTOps :=
  testCRFillOpPtrs plain2.1 [plain2.1.exp rootPtrUnref, plain2.1.exp dirCUnref]
    (newRmOp "name2" (plain2.1.exp dirCUnref))

def removedRmd : IFCERFTRootMetadata :=
  testRmd [plain1.2, plain2.2, plain3.2] (plain3.1.exp rootPtrUnref)

end TwoRenames

/-! ## The status keeper: worlds with chains set -/

/-- The sample configuration with a `Summary` that is never empty: one entry,
whose path tells whether the chains summarised are the identifying ones. -/
def summaryConfig : IFCERFTConfig :=
  { sampleConfig with
    Summary := fun c u => [{ Path := if c = u then "unmerged" else "merged", Ops := [] }] }

/-- A keeper with merged chains set, unmerged chains nil and no head
metadata. -/
def mergedOnlyWorld : World :=
  { sampleWorld with
    fbsk := { sampleWorld.fbsk with config := summaryConfig, merged := some 5 } }

/-- A keeper with head metadata and both chain sets. -/
def bothChainsWorld : World :=
  { sampleWorld with
    fbsk := { sampleWorld.fbsk with
      config := summaryConfig, md := some 2, unmerged := some 4, merged := some 5 } }

/-! ## Association-list facts -/

theorem mapLookup_erase_self {β : Type} (k : Nat) (m : List (Nat × β)) :
    mapLookup k (mapErase k m) = none := by
  induction m with
  | nil => rfl
  | cons kv rest ih =>
    obtain ⟨k', v⟩ := kv
    by_cases h : k' = k
    · simp [mapErase, h, ih]
    · simp [mapErase, mapLookup, h, ih]

theorem mapErase_of_lookup_none {β : Type} (k : Nat) (m : List (Nat × β))
    (h : mapLookup k m = none) : mapErase k m = m := by
  induction m with
  | nil => rfl
  | cons kv rest ih =>
    obtain ⟨k', v⟩ := kv
    by_cases hk : k' = k
    · simp [mapLookup, hk] at h
    · simp only [mapLookup, hk, if_false] at h
      simp [mapErase, hk, ih h]

/-! ## The status keeper -/

theorem signalChangeLocked_spec (w : World) (hwf : w.WF) :
    ∃ w1, signalChangeLocked w = some w1 ∧
      w1.heap.closed = w.fbsk.updateChan :: w.heap.closed ∧
      w1.fbsk.updateChan = w.heap.next ∧ w1.heap.next = w.heap.next + 1 ∧
      w1.fbsk.md = w.fbsk.md ∧ w1.fbsk.unmerged = w.fbsk.unmerged ∧
      w1.fbsk.merged = w.fbsk.merged ∧ w1.fbsk.dirtyNodes = w.fbsk.dirtyNodes ∧ w1.WF := by
  obtain ⟨h1, h2, h3, h4⟩ := hwf
  refine ⟨{ fbsk := { w.fbsk with updateChan := w.heap.next },
            heap := { next := w.heap.next + 1, closed := w.fbsk.updateChan :: w.heap.closed } },
    ?_, ?_⟩
  · simp only [signalChangeLocked, ChanHeap.close, h2, if_false, ChanHeap.make]
  · refine ⟨rfl, rfl, rfl, rfl, rfl, rfl, rfl, ?_, ?_, ?_, ?_⟩
    · exact Nat.lt_succ_self _
    · intro hmem
      rcases List.mem_cons.1 hmem with h | h
      · exact absurd h.symm (Nat.ne_of_lt h1)
      · exact absurd (h3 _ h) (Nat.lt_irrefl _)
    · intro c hc
      rcases List.mem_cons.1 hc with h | h
      · exact h.symm ▸ Nat.lt_succ_of_lt h1
      · exact Nat.lt_succ_of_lt (h3 _ h)
    · exact List.nodup_cons.2 ⟨h2, h4⟩

theorem apply_of_not_differs (c : Call) (w : World) (h : ¬ c.differs w) :
    c.apply w = some w := by
  cases c with
  | setRootMetadata md =>
    have h1 : w.fbsk.md = md := by
      by_contra hne
      exact h (fun e => hne e.symm)
    simp [Call.apply, setRootMetadata, h1]
  | setCRChains u m =>
    have h1 : u = w.fbsk.unmerged ∧ m = w.fbsk.merged := by
      by_contra hne
      exact h hne
    simp [Call.apply, setCRChains, h1.1, h1.2]
  | addDirtyNode n =>
    simp only [Call.differs] at h
    cases hl : mapLookup n.GetID w.fbsk.dirtyNodes with
    | none => exact absurd hl h
    | some v => simp [Call.apply, addDirtyNode, addNode, hl]
  | rmDirtyNode n =>
    simp only [Call.differs, ne_eq, not_not] at h
    simp [Call.apply, rmDirtyNode, rmNode, h]
  | getStatus ord =>
    simp only [Call.apply, getStatus]
    split <;> rfl

/-- What a mutation carrying a new value does in a well-formed world. -/
theorem apply_of_differs (c : Call) (w : World) (hwf : w.WF) (h : c.differs w) :
    ∃ w1, c.apply w = some w1 ∧
      w1.heap.closed = w.fbsk.updateChan :: w.heap.closed ∧
      w1.fbsk.updateChan = w.heap.next ∧ w1.heap.next = w.heap.next + 1 ∧
      keeperData w1 ≠ keeperData w ∧ w1.WF := by
  cases c with
  | setRootMetadata md =>
    have h1 : ¬ w.fbsk.md = md := fun e => h e.symm
    obtain ⟨w1, e, hc, hu, hn, hmd, -, -, -, hw⟩ :=
      signalChangeLocked_spec { w with fbsk := { w.fbsk with md := md } } hwf
    refine ⟨w1, ?_, hc, hu, hn, ?_, hw⟩
    · simp [Call.apply, setRootMetadata, h1, e]
    · intro hk
      simp only [keeperData, Prod.mk.injEq] at hk
      exact h1 (by rw [← hk.1, hmd])
  | setCRChains u m =>
    have h1 : ¬ (u = w.fbsk.unmerged ∧ m = w.fbsk.merged) := h
    obtain ⟨w1, e, hc, hu, hn, -, hun, hme, -, hw⟩ :=
      signalChangeLocked_spec
        { w with fbsk := { w.fbsk with unmerged := u, merged := m } } hwf
    refine ⟨w1, ?_, hc, hu, hn, ?_, hw⟩
    · simp only [Call.apply, setCRChains, h1, if_false, e]
    · intro hk
      simp only [keeperData, Prod.mk.injEq] at hk
      exact h1 ⟨by rw [← hk.2.1, hun], by rw [← hk.2.2.1, hme]⟩
  | addDirtyNode n =>
    have h1 : mapLookup n.GetID w.fbsk.dirtyNodes = none := h
    obtain ⟨w1, e, hc, hu, hn, -, -, -, hd, hw⟩ :=
      signalChangeLocked_spec
        { w with fbsk := setDirtyNodes (mapInsert n.GetID n w.fbsk.dirtyNodes) w.fbsk } hwf
    refine ⟨w1, ?_, hc, hu, hn, ?_, hw⟩
    · simp only [Call.apply, addDirtyNode, addNode, h1, e]
    · intro hk
      simp only [keeperData, Prod.mk.injEq] at hk
      have hlen := congrArg List.length hk.2.2.2
      rw [hd] at hlen
      simp [setDirtyNodes, mapInsert, mapErase_of_lookup_none _ _ h1] at hlen
  | rmDirtyNode n =>
    have h1 : mapLookup n.GetID w.fbsk.dirtyNodes ≠ none := h
    obtain ⟨v, hv⟩ := Option.ne_none_iff_exists'.1 h1
    obtain ⟨w1, e, hc, hu, hn, -, -, -, hd, hw⟩ :=
      signalChangeLocked_spec
        { w with fbsk := setDirtyNodes (mapErase n.GetID w.fbsk.dirtyNodes) w.fbsk } hwf
    refine ⟨w1, ?_, hc, hu, hn, ?_, hw⟩
    · simp only [Call.apply, rmDirtyNode, rmNode, hv, e]
    · intro hk
      simp only [keeperData, Prod.mk.injEq] at hk
      have hl := congrArg (mapLookup n.GetID) hk.2.2.2
      rw [hd] at hl
      simp only [setDirtyNodes, mapLookup_erase_self, hv] at hl
      exact absurd hl (by simp)
  | getStatus ord => exact absurd h (by simp [Call.differs])

theorem getStatus_chan (ord : RangeOrder) (w : World)
    (h : (getStatus ord w).1.err = none) :
    (getStatus ord w).1.updateChan = some w.fbsk.updateChan := by
  unfold getStatus at h ⊢
  split
  · rename_i err he
    simp [he] at h
  · rfl


/-! ## The model passes the tests of `cr_chains_test.go` -/

/-- The test `TestCRChainsSingleOp` passes on the model. -/
theorem TestCRChainsSingleOp_passes :
    ∃ cc, newCRChains SingleOp.rmds = .ok cc ∧
      checkExpectedChains SingleOp.step1.1.expected [] SingleOp.rootPtrUnref cc true = true ∧
      testCRCheckOps cc SingleOp.dir2Unref [SingleOp.co] = true :=
  ⟨_, rfl, by decide, by decide⟩

/-- The test `TestCRChainsRenameOp` passes on the model. -/
theorem TestCRChainsRenameOp_passes :
    ∃ cc, newCRChains RenameOp.rmds = .ok cc ∧
      checkExpectedChains RenameOp.step1.1.expected RenameOp.expectedRenames
        RenameOp.rootPtrUnref cc true = true ∧
      testCRCheckOps cc RenameOp.dir2Unref
        [.createOp "new" RenameOp.dir2Unref .File true []] = true ∧
      testCRCheckOps cc RenameOp.dir1Unref [newRmOp "old" RenameOp.dir1Unref] = true :=
  ⟨_, rfl, by decide, by decide, by decide⟩

/-- The test `TestCRChainsMultiOps` passes on the model. -/
theorem TestCRChainsMultiOps_passes :
    ∃ cc mcc, newCRChains MultiOps.rmds = .ok cc ∧ newCRChains MultiOps.multiRmds = .ok mcc ∧
      checkExpectedChains MultiOps.step5.1.expected MultiOps.expectedRenames
        MultiOps.rootPtrUnref cc true = true ∧
      testCRCheckOps cc MultiOps.rootPtrUnref [] = true ∧
      testCRCheckOps cc MultiOps.dir1Unref
        [MultiOps.step2.2, .createOp "file4" (MultiOps.step2.1.exp MultiOps.dir1Unref) .File true []]
        = true ∧
      testCRCheckOps cc MultiOps.dir2Unref [MultiOps.step5.2] = true ∧
      testCRCheckOps cc MultiOps.dir3Unref
        [newRmOp "file2" (MultiOps.step2.1.exp MultiOps.dir3Unref)] = true ∧
      testCRCheckOps cc MultiOps.file2Ptr [MultiOps.step1.2] = true ∧
      testCRCheckOps cc MultiOps.file4Unref [MultiOps.step4.2] = true ∧
      cc.byOriginal = mcc.byOriginal ∧ cc.byMostRecent = mcc.byMostRecent ∧
      cc.chains = mcc.chains ∧ mcc.originalRoot = MultiOps.rootPtrUnref :=
  ⟨_, _, rfl, rfl, by decide, by decide, by decide, by decide, by decide, by decide, by decide,
    by decide, by decide, by decide, by decide⟩

/-- The test `TestCRChainsCollapse` passes on the model. -/
theorem TestCRChainsCollapse_passes :
    ∃ cc, newCRChains Collapse.rmds = .ok cc ∧
      checkExpectedChains Collapse.step9.1.expected Collapse.expectedRenames
        Collapse.rootPtrUnref cc false = true ∧
      testCRCheckOps cc Collapse.rootPtrUnref [] = true ∧
      testCRCheckOps cc Collapse.dir1Unref
        [.createOp "file3" (Collapse.step8.1.exp Collapse.dir1Unref) .File true []] = true ∧
      testCRCheckOps cc Collapse.dir2Unref
        [newRmOp "file1" (Collapse.step5.1.exp Collapse.dir2Unref)] = true ∧
      testCRCheckOps cc Collapse.file1Ptr [Collapse.step2.2] = true :=
  ⟨_, rfl, by decide, by decide, by decide, by decide, by decide⟩

/-! ## The index invariant of the chain builder -/

theorem mapErase_eq_filter {β : Type} (k : Nat) (m : List (Nat × β)) :
    mapErase k m = m.filter (fun e => decide (e.1 ≠ k)) := by
  induction m with
  | nil => rfl
  | cons kv rest ih =>
    obtain ⟨k', v⟩ := kv
    by_cases h : k' = k
    · simp [mapErase, h, ih]
    · simp [mapErase, h, ih]

theorem mem_of_mapLookup {β : Type} {k : Nat} {v : β} {m : List (Nat × β)}
    (h : mapLookup k m = some v) : (k, v) ∈ m := by
  induction m with
  | nil => simp [mapLookup] at h
  | cons kv rest ih =>
    obtain ⟨k', v'⟩ := kv
    by_cases hk : k' = k
    · simp only [mapLookup, hk, if_true, Option.some.injEq] at h
      simp [hk, h]
    · simp only [mapLookup, hk, if_false] at h
      exact List.mem_cons_of_mem _ (ih h)

theorem not_mem_keys_of_mapLookup_none {β : Type} {k : Nat} {m : List (Nat × β)}
    (h : mapLookup k m = none) : k ∉ m.map Prod.fst := by
  induction m with
  | nil => simp
  | cons kv rest ih =>
    obtain ⟨k', v'⟩ := kv
    by_cases hk : k' = k
    · simp [mapLookup, hk] at h
    · simp only [mapLookup, hk, if_false] at h
      simp only [List.map_cons, List.mem_cons, not_or]
      exact ⟨fun e => hk e.symm, ih h⟩

theorem mapLookup_none_of_not_mem_keys {β : Type} {k : Nat} {m : List (Nat × β)}
    (h : k ∉ m.map Prod.fst) : mapLookup k m = none := by
  induction m with
  | nil => rfl
  | cons kv rest ih =>
    obtain ⟨k', v'⟩ := kv
    simp only [List.map_cons, List.mem_cons, not_or] at h
    have hk : ¬ k' = k := fun e => h.1 e.symm
    simp only [mapLookup, hk, if_false]
    exact ih h.2

theorem mapLookup_of_mem {β : Type} {k : Nat} {v : β} {m : List (Nat × β)}
    (hn : (m.map Prod.fst).Nodup) (h : (k, v) ∈ m) : mapLookup k m = some v := by
  induction m with
  | nil => simp at h
  | cons kv rest ih =>
    obtain ⟨k', v'⟩ := kv
    simp only [List.map_cons, List.nodup_cons] at hn
    rcases List.mem_cons.1 h with h1 | h1
    · cases h1
      simp [mapLookup]
    · have hk : ¬ k' = k := by
        intro e
        apply hn.1
        rw [e]
        exact List.mem_map_of_mem Prod.fst h1
      simp only [mapLookup, hk, if_false]
      exact ih hn.2 h1

theorem mapErase_sublist {β : Type} (k : Nat) (m : List (Nat × β)) :
    (mapErase k m).Sublist m := by
  rw [mapErase_eq_filter]
  exact List.filter_sublist m

theorem mem_mapErase {β : Type} {k : Nat} {e : Nat × β} {m : List (Nat × β)} :
    e ∈ mapErase k m ↔ e ∈ m ∧ e.1 ≠ k := by
  rw [mapErase_eq_filter, List.mem_filter]
  simp

theorem mapErase_perm {β : Type} {k : Nat} {v : β} {m : List (Nat × β)}
    (hn : (m.map Prod.fst).Nodup) (h : (k, v) ∈ m) : m.Perm ((k, v) :: mapErase k m) := by
  induction m with
  | nil => simp at h
  | cons kv rest ih =>
    obtain ⟨k', v'⟩ := kv
    simp only [List.map_cons, List.nodup_cons] at hn
    rcases List.mem_cons.1 h with h1 | h1
    · cases h1
      have : mapErase k rest = rest :=
        mapErase_of_lookup_none k rest (mapLookup_none_of_not_mem_keys hn.1)
      simp [mapErase, this]
    · have hk : ¬ k' = k := by
        intro e
        apply hn.1
        rw [e]
        exact List.mem_map_of_mem Prod.fst h1
      simp only [mapErase, hk, if_false]
      exact ((ih hn.2 h1).cons (k', v')).trans (List.Perm.swap _ _ _)

theorem mapInsert_of_lookup_none {β : Type} {k : Nat} (v : β) {m : List (Nat × β)}
    (h : mapLookup k m = none) : mapInsert k v m = m ++ [(k, v)] := by
  simp [mapInsert, mapErase_of_lookup_none k m h]

theorem getD_set_chain (l : List crChain) (i j : Nat) (c d : crChain) :
    (l.set i c).getD j d = if i = j ∧ i < l.length then c else l.getD j d := by
  rw [List.getD_eq_getElem?_getD, List.getD_eq_getElem?_getD, List.getElem?_set]
  by_cases h : i = j
  · subst h
    by_cases h2 : i < l.length
    · simp [h2]
    · simp [h2, List.getElem?_eq_none (Nat.le_of_not_lt h2)]
  · simp [h]

theorem getD_append_chain (l : List crChain) (j : Nat) (c d : crChain) :
    (l ++ [c]).getD j d = if j = l.length then c else l.getD j d := by
  rw [List.getD_eq_getElem?_getD, List.getD_eq_getElem?_getD, List.getElem?_append]
  by_cases h : j < l.length
  · have : j ≠ l.length := Nat.ne_of_lt h
    simp [h, this]
  · by_cases h2 : j = l.length
    · subst h2
      simp
    · have h3 : l.length < j := by omega
      have h4 : [c].length ≤ j - l.length := by
        simp only [List.length_singleton]
        omega
      simp [h, h2, List.getElem?_eq_none (Nat.le_of_lt h3), List.getElem?_eq_none h4]

theorem nodup_append_singleton {α : Type} {a : α} {l : List α} (hn : l.Nodup) (ha : a ∉ l) :
    (l ++ [a]).Nodup :=
  (List.perm_append_singleton a l).nodup_iff.2 (List.nodup_cons.2 ⟨ha, hn⟩)

theorem mapLookup_append_singleton {β : Type} (q p : Nat) (v : β) (m : List (Nat × β)) :
    mapLookup q (m ++ [(p, v)]) =
      match mapLookup q m with
      | some x => some x
      | none => if p = q then some v else none := by
  induction m with
  | nil => simp [mapLookup]
  | cons kv rest ih =>
    obtain ⟨k', v'⟩ := kv
    by_cases hk : k' = q
    · simp [mapLookup, hk]
    · simp only [List.cons_append, mapLookup, hk, if_false]
      exact ih

theorem fst_inj_of_nodup {β : Type} {m : List (Nat × β)} (hn : (m.map Prod.fst).Nodup)
    {q : Nat} {i j : β} (h1 : (q, i) ∈ m) (h2 : (q, j) ∈ m) : i = j := by
  have := List.inj_on_of_nodup_map hn h1 h2 rfl
  exact congrArg Prod.snd this

theorem snd_inj_of_nodup {m : List (Nat × Nat)} (hn : (m.map Prod.snd).Nodup) {q q' i : Nat}
    (h1 : (q, i) ∈ m) (h2 : (q', i) ∈ m) : q = q' := by
  have := List.inj_on_of_nodup_map hn h1 h2 rfl
  exact congrArg Prod.fst this

theorem mapLookup_erase_none {β : Type} {k k' : Nat} {m : List (Nat × β)}
    (h : mapLookup k m = none) : mapLookup k (mapErase k' m) = none := by
  apply mapLookup_none_of_not_mem_keys
  intro hmem
  exact not_mem_keys_of_mapLookup_none h ((mapErase_sublist k' m).map Prod.fst |>.subset hmem)

theorem chainBuilder.Inv.idsM {b : chainBuilder} (h : b.Inv) :
    (b.byMostRecent.map Prod.snd).Nodup :=
  h.perm.nodup_iff.1 h.idsO

theorem chainBuilder.Inv.empty : chainBuilder.empty.Inv :=
  { keysO := List.nodup_nil, keysM := List.nodup_nil, idsO := List.nodup_nil,
    perm := List.Perm.refl _,
    orig := fun _ _ h => absurd h (List.not_mem_nil _),
    most := fun _ _ h => absurd h (List.not_mem_nil _),
    canc := fun _ h => absurd h (List.not_mem_nil _) }

/-- The chain a most-recent pointer leads to is filed under its own original. -/
theorem chainBuilder.Inv.lookup_original {b : chainBuilder} (h : b.Inv) {p id : Nat}
    (hl : mapLookup p b.byMostRecent = some id) :
    mapLookup (b.chainAt id).original b.byOriginal = some id := by
  have hidM : id ∈ b.byMostRecent.map Prod.snd :=
    List.mem_map_of_mem Prod.snd (mem_of_mapLookup hl)
  obtain ⟨⟨o, i⟩, ho, hi⟩ := List.mem_map.1 (h.perm.symm.subset hidM)
  simp only at hi
  subst hi
  rw [(h.orig o i ho).2]
  exact mapLookup_of_mem h.keysO ho

/-- The chain filed under an original is keyed by its most-recent pointer. -/
theorem chainBuilder.Inv.lookup_mostRecent {b : chainBuilder} (h : b.Inv) {o id : Nat}
    (hl : mapLookup o b.byOriginal = some id) :
    mapLookup (b.chainAt id).mostRecent b.byMostRecent = some id := by
  have hidO : id ∈ b.byOriginal.map Prod.snd :=
    List.mem_map_of_mem Prod.snd (mem_of_mapLookup hl)
  obtain ⟨⟨q, i⟩, hq, hi⟩ := List.mem_map.1 (h.perm.subset hidO)
  simp only at hi
  subst hi
  rw [(h.most q i hq).2]
  exact mapLookup_of_mem h.keysM hq

/-- Replacing the chain at a position by one with the same two pointers keeps
the invariant. -/
theorem chainBuilder.Inv.set_chain {b : chainBuilder} (h : b.Inv) (id : Nat) (c : crChain)
    (ho : c.original = (b.chainAt id).original)
    (hm : c.mostRecent = (b.chainAt id).mostRecent) (ri : List (Nat × IFCERFTRenameInfo))
    (cs : List Nat) (hcs : ∀ i ∈ cs, i < b.chains.length) :
    ({ chains := b.chains.set id c, byOriginal := b.byOriginal, byMostRecent := b.byMostRecent,
       renamedOriginals := ri, cancelled := cs } : chainBuilder).Inv := by
  refine ⟨h.keysO, h.keysM, h.idsO, h.perm, ?_, ?_, ?_⟩
  · intro p i hi
    obtain ⟨h1, h2⟩ := h.orig p i hi
    refine ⟨by simpa using h1, ?_⟩
    simp only [chainBuilder.chainAt, getD_set_chain]
    split
    · rename_i hc
      rw [ho, ← h2, hc.1]
    · exact h2
  · intro q i hi
    obtain ⟨h1, h2⟩ := h.most q i hi
    refine ⟨by simpa using h1, ?_⟩
    simp only [chainBuilder.chainAt, getD_set_chain]
    split
    · rename_i hc
      rw [hm, ← h2, hc.1]
    · exact h2
  · intro i hi
    simpa using hcs i hi

/-- What `chainFor` returns and what it leaves alone. -/
theorem chainBuilder.chainFor_spec {b b1 : chainBuilder} {p id : Nat} (h : b.Inv)
    (e : b.chainFor p = .ok (id, b1)) :
    b1.Inv ∧ mapLookup p b1.byMostRecent = some id ∧
    mapLookup (b.originalOf p) b1.byOriginal = some id ∧
    (∀ q, b1.originalOf q = b.originalOf q) ∧
    (∀ o, b1.opsOf o = b.opsOf o) ∧
    (∀ o, b1.wasCancelled o = b.wasCancelled o) ∧
    b1.renamedOriginals = b.renamedOriginals ∧ b1.cancelled = b.cancelled := by
  unfold chainBuilder.chainFor at e
  cases hm : mapLookup p b.byMostRecent with
  | some i =>
    simp only [hm, Except.ok.injEq, Prod.mk.injEq] at e
    obtain ⟨rfl, rfl⟩ := e
    refine ⟨h, hm, ?_, fun _ => rfl, fun _ => rfl, fun _ => rfl, rfl, rfl⟩
    have := h.lookup_original hm
    simpa [chainBuilder.originalOf, hm] using this
  | none =>
    cases ho : mapLookup p b.byOriginal with
    | some i => simp [hm, ho] at e
    | none =>
      simp only [hm, ho, Except.ok.injEq, Prod.mk.injEq] at e
      obtain ⟨rfl, rfl⟩ := e
      have hlt : ∀ i ∈ b.byOriginal.map Prod.snd, i < b.chains.length := by
        intro i hi
        obtain ⟨⟨q, i'⟩, hmem, rfl⟩ := List.mem_map.1 hi
        exact (h.orig q i' hmem).1
      have hfresh : b.chains.length ∉ b.byOriginal.map Prod.snd :=
        fun hi => absurd (hlt _ hi) (Nat.lt_irrefl _)
      have hkM : ((b.byMostRecent ++ [(p, b.chains.length)]).map Prod.fst).Nodup := by
        simp only [List.map_append, List.map_cons, List.map_nil]
        exact nodup_append_singleton h.keysM (not_mem_keys_of_mapLookup_none hm)
      have hop : b.originalOf p = p := by simp [chainBuilder.originalOf, hm]
      refine ⟨⟨?_, ?_, ?_, ?_, ?_, ?_, ?_⟩, ?_, ?_, ?_, ?_, ?_, rfl, rfl⟩
      · simp only [mapInsert_of_lookup_none _ ho, List.map_append, List.map_cons, List.map_nil]
        exact nodup_append_singleton h.keysO (not_mem_keys_of_mapLookup_none ho)
      · rw [mapInsert_of_lookup_none _ hm]
        exact hkM
      · simp only [mapInsert_of_lookup_none _ ho, List.map_append, List.map_cons, List.map_nil]
        exact nodup_append_singleton h.idsO hfresh
      · simp only [mapInsert_of_lookup_none _ ho, mapInsert_of_lookup_none _ hm,
          List.map_append, List.map_cons, List.map_nil]
        exact h.perm.append_right _
      · intro q i hi
        simp only [mapInsert_of_lookup_none _ ho, List.mem_append, List.mem_singleton,
          Prod.mk.injEq] at hi
        simp only [chainBuilder.chainAt, List.length_append, List.length_singleton,
          getD_append_chain]
        rcases hi with hi | ⟨rfl, rfl⟩
        · obtain ⟨h1, h2⟩ := h.orig q i hi
          have : i ≠ b.chains.length := Nat.ne_of_lt h1
          exact ⟨Nat.lt_succ_of_lt h1, by simpa [this, chainBuilder.chainAt] using h2⟩
        · exact ⟨Nat.lt_succ_self _, by simp⟩
      · intro q i hi
        simp only [mapInsert_of_lookup_none _ hm, List.mem_append, List.mem_singleton,
          Prod.mk.injEq] at hi
        simp only [chainBuilder.chainAt, List.length_append, List.length_singleton,
          getD_append_chain]
        rcases hi with hi | ⟨rfl, rfl⟩
        · obtain ⟨h1, h2⟩ := h.most q i hi
          have : i ≠ b.chains.length := Nat.ne_of_lt h1
          exact ⟨Nat.lt_succ_of_lt h1, by simpa [this, chainBuilder.chainAt] using h2⟩
        · exact ⟨Nat.lt_succ_self _, by simp⟩
      · intro i hi
        simp only [List.length_append, List.length_singleton]
        exact Nat.lt_succ_of_lt (h.canc i hi)
      · rw [mapInsert_of_lookup_none _ hm]
        exact mapLookup_of_mem hkM (by simp)
      · rw [hop, mapInsert_of_lookup_none _ ho, mapLookup_append_singleton, ho]
        simp
      · intro q
        simp only [chainBuilder.originalOf, mapInsert_of_lookup_none _ hm,
          mapLookup_append_singleton]
        cases hq : mapLookup q b.byMostRecent with
        | some j =>
          have hj := (h.most q j (mem_of_mapLookup hq)).1
          have : j ≠ b.chains.length := Nat.ne_of_lt hj
          simp only [chainBuilder.chainAt, getD_append_chain, if_neg this]
        | none =>
          by_cases hpq : p = q
          · simp [hpq, chainBuilder.chainAt, getD_append_chain]
          · simp [hpq]
      · intro o
        simp only [chainBuilder.opsOf, mapInsert_of_lookup_none _ ho,
          mapLookup_append_singleton]
        cases hq : mapLookup o b.byOriginal with
        | some j =>
          have hj := (h.orig o j (mem_of_mapLookup hq)).1
          have : j ≠ b.chains.length := Nat.ne_of_lt hj
          simp only [chainBuilder.chainAt, getD_append_chain, if_neg this]
        | none =>
          by_cases hpq : p = o
          · simp [hpq, chainBuilder.chainAt, getD_append_chain]
          · simp [hpq]
      · intro o
        simp only [chainBuilder.wasCancelled, mapInsert_of_lookup_none _ ho,
          mapLookup_append_singleton]
        cases hq : mapLookup o b.byOriginal with
        | some j => rfl
        | none =>
          by_cases hpq : p = o
          · have : b.chains.length ∉ b.cancelled :=
              fun hi => absurd (h.canc _ hi) (Nat.lt_irrefl _)
            simp [hpq, this]
          · simp [hpq]

theorem chainBuilder.chainFor_inv {b b1 : chainBuilder} {p id : Nat} (h : b.Inv)
    (e : b.chainFor p = .ok (id, b1)) :
    b1.Inv ∧ mapLookup p b1.byMostRecent = some id :=
  ⟨(chainBuilder.chainFor_spec h e).1, (chainBuilder.chainFor_spec h e).2.1⟩

theorem chainBuilder.setMostRecent_spec {b b1 : chainBuilder} {id ref : Nat} (h : b.Inv)
    (hid : ∃ q, (q, id) ∈ b.byMostRecent) (e : b.setMostRecent id ref = .ok b1) :
    b1.Inv ∧ (∀ o, b1.opsOf o = b.opsOf o) ∧ (∀ o, b1.wasCancelled o = b.wasCancelled o) ∧
    b1.renamedOriginals = b.renamedOriginals ∧ b1.byOriginal = b.byOriginal := by
  unfold chainBuilder.setMostRecent at e
  by_cases hsame : (b.chainAt id).mostRecent = ref
  · simp only [hsame, if_true, Except.ok.injEq] at e
    subst e
    exact ⟨h, fun _ => rfl, fun _ => rfl, rfl, rfl⟩
  · simp only [hsame, if_false] at e
    cases hl : mapLookup ref b.byMostRecent with
    | some i => simp [hl] at e
    | none =>
      simp only [hl, Except.ok.injEq] at e
      subst e
      obtain ⟨q, hq⟩ := hid
      obtain ⟨hlt, hq2⟩ := h.most q id hq
      subst hq2
      have hins : mapInsert ref id (mapErase (b.chainAt id).mostRecent b.byMostRecent)
          = mapErase (b.chainAt id).mostRecent b.byMostRecent ++ [(ref, id)] :=
        mapInsert_of_lookup_none _ (mapLookup_erase_none hl)
      have hkeys : ((mapErase (b.chainAt id).mostRecent b.byMostRecent ++ [(ref, id)]).map
          Prod.fst).Nodup := by
        simp only [List.map_append, List.map_cons, List.map_nil]
        exact nodup_append_singleton
          (h.keysM.sublist ((mapErase_sublist _ _).map Prod.fst))
          (not_mem_keys_of_mapLookup_none (mapLookup_erase_none hl))
      refine ⟨⟨h.keysO, ?_, h.idsO, ?_, ?_, ?_, ?_⟩, ?_, fun _ => rfl, rfl, rfl⟩
      · rw [hins]
        exact hkeys
      · rw [hins]
        simp only [List.map_append, List.map_cons, List.map_nil]
        refine h.perm.trans ?_
        refine ((mapErase_perm h.keysM hq).map Prod.snd).trans ?_
        simp only [List.map_cons]
        exact (List.perm_append_singleton _ _).symm
      · intro p i hi
        obtain ⟨h1, h2⟩ := h.orig p i hi
        refine ⟨by simpa using h1, ?_⟩
        simp only [chainBuilder.chainAt, getD_set_chain]
        split
        · rename_i hc
          rw [← h2, hc.1]
          rfl
        · exact h2
      · intro q i hi
        rw [hins] at hi
        simp only [List.mem_append, List.mem_singleton, Prod.mk.injEq] at hi
        simp only [chainBuilder.chainAt, getD_set_chain, List.length_set]
        rcases hi with hi | ⟨rfl, rfl⟩
        · obtain ⟨hmem, hne⟩ := mem_mapErase.1 hi
          obtain ⟨h1, h2⟩ := h.most q i hmem
          have hne2 : ¬ (id = i ∧ id < b.chains.length) := by
            rintro ⟨rfl, -⟩
            exact hne (snd_inj_of_nodup h.idsM hmem hq)
          exact ⟨h1, by simpa [hne2, chainBuilder.chainAt] using h2⟩
        · exact ⟨hlt, by simp [hlt]⟩
      · intro i hi
        simpa using h.canc i hi
      · intro o
        simp only [chainBuilder.opsOf]
        cases mapLookup o b.byOriginal with
        | none => rfl
        | some j =>
          simp only [chainBuilder.chainAt, getD_set_chain]
          split
          · rename_i hc
            rw [hc.1]
          · rfl

theorem chainBuilder.applyUpdate_spec {b b1 : chainBuilder} {u : blockUpdate} (h : b.Inv)
    (e : b.applyUpdate u = .ok b1) :
    b1.Inv ∧ (∀ o, b1.opsOf o = b.opsOf o) ∧ (∀ o, b1.wasCancelled o = b.wasCancelled o) ∧
    b1.renamedOriginals = b.renamedOriginals := by
  unfold chainBuilder.applyUpdate at e
  cases hc : b.chainFor u.Unref with
  | error err => simp [hc] at e
  | ok r =>
    obtain ⟨id, b2⟩ := r
    simp only [hc] at e
    obtain ⟨h2, hl, -, -, hops, hcanc, hren, -⟩ := chainBuilder.chainFor_spec h hc
    obtain ⟨h3, hops3, hcanc3, hren3, -⟩ :=
      chainBuilder.setMostRecent_spec h2 ⟨_, mem_of_mapLookup hl⟩ e
    exact ⟨h3, fun o => (hops3 o).trans (hops o), fun o => (hcanc3 o).trans (hcanc o),
      hren3.trans hren⟩

theorem chainBuilder.applyUpdates_spec (us : List blockUpdate) :
    ∀ {b b1 : chainBuilder}, b.Inv → chainBuilder.applyUpdates us b = .ok b1 →
      b1.Inv ∧ (∀ o, b1.opsOf o = b.opsOf o) ∧ (∀ o, b1.wasCancelled o = b.wasCancelled o) ∧
      b1.renamedOriginals = b.renamedOriginals := by
  induction us with
  | nil =>
    intro b b1 h e
    simp only [chainBuilder.applyUpdates, Except.ok.injEq] at e
    subst e
    exact ⟨h, fun _ => rfl, fun _ => rfl, rfl⟩
  | cons u rest ih =>
    intro b b1 h e
    simp only [chainBuilder.applyUpdates] at e
    cases hu : b.applyUpdate u with
    | error err => simp [hu] at e
    | ok b2 =>
      simp only [hu] at e
      obtain ⟨h2, hops, hcanc, hren⟩ := chainBuilder.applyUpdate_spec h hu
      obtain ⟨h3, hops3, hcanc3, hren3⟩ := ih h2 e
      exact ⟨h3, fun o => (hops3 o).trans (hops o), fun o => (hcanc3 o).trans (hcanc o),
        hren3.trans hren⟩

/-- What inserting an operation does, seen through the original pointers: the
chain of the named pointer takes the operation after collapsing, and every
other chain is left alone. -/
theorem chainBuilder.insertOp_spec {b b1 : chainBuilder} {p : Nat} {op : IFCERFTOps}
    (h : b.Inv) (e : b.insertOp p op = .ok b1) :
    b1.Inv ∧ (∀ q, b1.originalOf q = b.originalOf q) ∧
    (∀ o, b1.opsOf o =
      if o = b.originalOf p then (collapseInsert (b.opsOf o) op).1 else b.opsOf o) ∧
    (∀ o, b1.wasCancelled o =
      (b.wasCancelled o || (decide (o = b.originalOf p) && (collapseInsert (b.opsOf o) op).2))) ∧
    b1.renamedOriginals = b.renamedOriginals ∧
    (∃ id, mapLookup (b.originalOf p) b1.byOriginal = some id) := by
  unfold chainBuilder.insertOp at e
  cases hc : b.chainFor p with
  | error err => simp [hc] at e
  | ok r =>
    obtain ⟨id, b2⟩ := r
    simp only [hc, Except.ok.injEq] at e
    obtain ⟨h2, hl, hlo, horig, hops, hcanc, hren, -⟩ := chainBuilder.chainFor_spec h hc
    have hlt : id < b2.chains.length := (h2.most p id (mem_of_mapLookup hl)).1
    have hsetAt : ∀ j, (b1.chainAt j) =
        if id = j then ((b2.chainAt id).addOp op).1 else b2.chainAt j := by
      intro j
      subst e
      simp only [chainBuilder.chainAt, getD_set_chain, hlt, and_true]
    have hbyO : b1.byOriginal = b2.byOriginal := by subst e; rfl
    have hbyM : b1.byMostRecent = b2.byMostRecent := by subst e; rfl
    have hidO : ∀ o j, mapLookup o b2.byOriginal = some j → (j = id ↔ o = b.originalOf p) := by
      intro o j hj
      constructor
      · rintro rfl
        exact snd_inj_of_nodup h2.idsO (mem_of_mapLookup hj) (mem_of_mapLookup hlo)
      · rintro rfl
        rw [hlo] at hj
        exact (Option.some.inj hj).symm
    have hopsId : (b2.chainAt id).ops = b.opsOf (b.originalOf p) := by
      rw [← hops, chainBuilder.opsOf, hlo]
    refine ⟨?_, ?_, ?_, ?_, ?_, ?_⟩
    · subst e
      refine h2.set_chain id ((b2.chainAt id).addOp op).1 rfl rfl _ _ ?_
      intro i hi
      split at hi
      · rcases List.mem_cons.1 hi with rfl | hi
        · exact hlt
        · exact h2.canc i hi
      · exact h2.canc i hi
    · intro q
      rw [← horig q]
      simp only [chainBuilder.originalOf, hbyM]
      cases mapLookup q b2.byMostRecent with
      | none => rfl
      | some j =>
        simp only [hsetAt]
        split
        · rename_i hj
          subst hj
          rfl
        · rfl
    · intro o
      rw [← hops o]
      simp only [chainBuilder.opsOf, hbyO]
      cases hj : mapLookup o b2.byOriginal with
      | none =>
        have : o ≠ b.originalOf p := by
          rintro rfl
          rw [hlo] at hj
          exact absurd hj (by simp)
        simp [this]
      | some j =>
        simp only [hsetAt]
        by_cases hjid : j = id
        · have ho := (hidO o j hj).1 hjid
          subst hjid
          simp only [if_true, ho, crChain.addOp, hopsId]
        · have ho : ¬ o = b.originalOf p := fun ho => hjid ((hidO o j hj).2 ho)
          have : ¬ id = j := fun e2 => hjid e2.symm
          simp only [this, if_false, ho]
    · intro o
      rw [← hcanc o, ← hops o]
      subst e
      simp only [chainBuilder.wasCancelled, chainBuilder.opsOf]
      cases hj : mapLookup o b2.byOriginal with
      | none =>
        have : o ≠ b.originalOf p := by
          rintro rfl
          rw [hlo] at hj
          exact absurd hj (by simp)
        simp [this]
      | some j =>
        by_cases hjid : j = id
        · have ho := (hidO o j hj).1 hjid
          subst hjid
          simp only [crChain.addOp, ho, decide_True, Bool.true_and]
          by_cases hflag : (collapseInsert (b2.chainAt j).ops op).2 = true
          · simp [hflag]
          · simp [hflag]
        · have ho : ¬ o = b.originalOf p := fun ho => hjid ((hidO o j hj).2 ho)
          simp only [ho, decide_False, Bool.false_and, Bool.or_false]
          split <;> simp [hjid]
    · subst e
      exact hren
    · exact ⟨id, by rw [hbyO]; exact hlo⟩

theorem chainBuilder.insertOps_inv (l : List (Nat × IFCERFTOps)) :
    ∀ {b b1 : chainBuilder}, b.Inv → chainBuilder.insertOps l b = .ok b1 → b1.Inv := by
  induction l with
  | nil =>
    intro b b1 h e
    simp only [chainBuilder.insertOps, Except.ok.injEq] at e
    exact e ▸ h
  | cons x rest ih =>
    intro b b1 h e
    obtain ⟨p, op⟩ := x
    simp only [chainBuilder.insertOps] at e
    cases hu : b.insertOp p op with
    | error err => simp [hu] at e
    | ok b2 =>
      simp only [hu] at e
      exact ih (chainBuilder.insertOp_spec h hu).1 e

theorem chainBuilder.recordRename_inv {b : chainBuilder} (h : b.Inv) (oldName : String)
    (oldDir : Nat) (newName : String) (newDir renamed : Nat) :
    (b.recordRename oldName oldDir newName newDir renamed).Inv :=
  ⟨h.keysO, h.keysM, h.idsO, h.perm, h.orig, h.most, h.canc⟩

theorem chainBuilder.recordRenameOf_inv {b : chainBuilder} (h : b.Inv) (op : IFCERFTOps) :
    (b.recordRenameOf op).Inv := by
  cases op <;> first | exact h | exact chainBuilder.recordRename_inv h _ _ _ _ _

theorem chainBuilder.recordRenameOf_opsOf (b : chainBuilder) (op : IFCERFTOps) (o : Nat) :
    (b.recordRenameOf op).opsOf o = b.opsOf o ∧
    (b.recordRenameOf op).wasCancelled o = b.wasCancelled o := by
  cases op <;> exact ⟨rfl, rfl⟩

theorem chainBuilder.makeChainForOp_inv {b b1 : chainBuilder} {op : IFCERFTOps} (h : b.Inv)
    (e : b.makeChainForOp op = .ok b1) : b1.Inv := by
  unfold chainBuilder.makeChainForOp at e
  cases hi : b.insertOps op.chainOps with
  | error err => simp [hi] at e
  | ok b2 =>
    simp only [hi] at e
    exact (chainBuilder.applyUpdates_spec _
      (chainBuilder.recordRenameOf_inv (chainBuilder.insertOps_inv _ h hi) op) e).1

theorem chainBuilder.processOps_inv (ops : List IFCERFTOps) :
    ∀ {b b1 : chainBuilder}, b.Inv → chainBuilder.processOps ops b = .ok b1 → b1.Inv := by
  induction ops with
  | nil =>
    intro b b1 h e
    simp only [chainBuilder.processOps, Except.ok.injEq] at e
    exact e ▸ h
  | cons op rest ih =>
    intro b b1 h e
    simp only [chainBuilder.processOps] at e
    cases hu : b.makeChainForOp op with
    | error err => simp [hu] at e
    | ok b2 =>
      simp only [hu] at e
      exact ih (chainBuilder.makeChainForOp_inv h hu) e

/-- What the invariant gives for the finished index. -/
theorem chainBuilder.finish_spec {b : chainBuilder} (h : b.Inv) (root : Nat) :
    (b.finish root).byOriginal.length = (b.finish root).byMostRecent.length ∧
    ∀ p id, (p, id) ∈ (b.finish root).byOriginal →
      id < (b.finish root).chains.length ∧
      ((b.finish root).chainAt id).original = p ∧
      mapLookup ((b.finish root).chainAt id).mostRecent (b.finish root).byMostRecent = some id ∧
      mapLookup ((b.finish root).chainAt id).original (b.finish root).byOriginal = some id := by
  have hfm : ∀ l : List (Nat × Nat),
      (l.filter (fun e => !b.pruned e.2)).map Prod.snd
        = (l.map Prod.snd).filter (fun i => !b.pruned i) := by
    intro l
    rw [List.filter_map]
    rfl
  constructor
  · have := (h.perm.filter (fun i => !b.pruned i)).length_eq
    rw [← hfm, ← hfm] at this
    simpa [chainBuilder.finish] using this
  · intro p id hmem
    simp only [chainBuilder.finish, List.mem_filter] at hmem
    obtain ⟨hmem, hkeep⟩ := hmem
    obtain ⟨hlt, ho⟩ := h.orig p id hmem
    have hidM : id ∈ b.byMostRecent.map Prod.snd :=
      h.perm.subset (List.mem_map_of_mem Prod.snd hmem)
    obtain ⟨⟨q, i⟩, hq, hi⟩ := List.mem_map.1 hidM
    simp only at hi
    subst hi
    obtain ⟨-, hm⟩ := h.most q i hq
    have hc : (b.finish root).chainAt i = b.chainAt i := rfl
    refine ⟨hlt, ?_, ?_, ?_⟩
    · rw [hc, ho]
    · rw [hc, hm]
      apply mapLookup_of_mem
      · exact h.keysM.sublist ((List.filter_sublist _).map Prod.fst)
      · exact List.mem_filter.2 ⟨hq, hkeep⟩
    · rw [hc, ho]
      apply mapLookup_of_mem
      · exact h.keysO.sublist ((List.filter_sublist _).map Prod.fst)
      · exact List.mem_filter.2 ⟨hmem, hkeep⟩

/-- A chain emptied by a cancellation is in neither map of the finished
index. -/
theorem chainBuilder.finish_pruned {b : chainBuilder} (h : b.Inv) (root o id : Nat)
    (hl : mapLookup o b.byOriginal = some id) (hc : b.wasCancelled o = true)
    (hops : b.opsOf o = []) :
    mapLookup o (b.finish root).byOriginal = none ∧
    mapLookup (b.chainAt id).mostRecent (b.finish root).byMostRecent = none := by
  have hpr : b.pruned id = true := by
    simp only [chainBuilder.wasCancelled, hl, decide_eq_true_eq] at hc
    simp only [chainBuilder.opsOf, hl] at hops
    simp [chainBuilder.pruned, hc, hops]
  constructor
  · apply mapLookup_none_of_not_mem_keys
    intro hmem
    obtain ⟨⟨o', j⟩, hj, ho'⟩ := List.mem_map.1 hmem
    simp only at ho'
    subst ho'
    simp only [chainBuilder.finish, List.mem_filter] at hj
    have := fst_inj_of_nodup h.keysO hj.1 (mem_of_mapLookup hl)
    subst this
    simp [hpr] at hj
  · apply mapLookup_none_of_not_mem_keys
    intro hmem
    obtain ⟨⟨q, j⟩, hj, hq⟩ := List.mem_map.1 hmem
    simp only at hq
    subst hq
    simp only [chainBuilder.finish, List.mem_filter] at hj
    have := fst_inj_of_nodup h.keysM hj.1 (mem_of_mapLookup (h.lookup_mostRecent hl))
    subst this
    simp [hpr] at hj

theorem newCRChainsLoop_finish (rmds : List IFCERFTRootMetadata) :
    ∀ (b : chainBuilder) (root : Option Nat) (cc : IFCERFTCrChains), b.Inv →
      newCRChainsLoop rmds b root = .ok cc →
        ∃ (b1 : chainBuilder) (r : Nat), b1.Inv ∧ cc = b1.finish r := by
  induction rmds with
  | nil =>
    intro b root cc h e
    simp only [newCRChainsLoop, Except.ok.injEq] at e
    exact ⟨b, _, h, e.symm⟩
  | cons rmd rest ih =>
    intro b root cc h e
    simp only [newCRChainsLoop] at e
    cases hp : b.processOps rmd.ops with
    | error err => simp [hp] at e
    | ok b2 =>
      simp only [hp] at e
      have h2 := chainBuilder.processOps_inv _ h hp
      cases root with
      | none => exact ih _ _ _ h2 e
      | some r =>
        simp only at e
        split at e
        · exact ih _ _ _ h2 e
        · exact absurd e (by simp)

/-! ## Splitting a revision -/

theorem chainBuilder.processOps_append (l1 : List IFCERFTOps) :
    ∀ (l2 : List IFCERFTOps) (b : chainBuilder),
      chainBuilder.processOps (l1 ++ l2) b =
        match chainBuilder.processOps l1 b with
        | .error e => .error e
        | .ok b1 => chainBuilder.processOps l2 b1 := by
  induction l1 with
  | nil =>
    intro l2 b
    rfl
  | cons op rest ih =>
    intro l2 b
    simp only [List.cons_append, chainBuilder.processOps]
    cases b.makeChainForOp op with
    | error e => rfl
    | ok b1 => exact ih l2 b1

/-- The loop with the root already established: it processes all operations,
finishes with that root, and the last revision's root resolves to it. -/
theorem newCRChainsLoop_some (multi : List IFCERFTRootMetadata) :
    ∀ (b : chainBuilder) (r : Nat) (cc : IFCERFTCrChains),
      newCRChainsLoop multi b (some r) = .ok cc →
        ∃ b1, chainBuilder.processOps (allOps multi) b = .ok b1 ∧ cc = b1.finish r ∧
          ∀ last, multi.getLast? = some last → b1.originalOf last.dataDir = r := by
  induction multi with
  | nil =>
    intro b r cc e
    simp only [newCRChainsLoop, Except.ok.injEq] at e
    exact ⟨b, rfl, e.symm, by simp⟩
  | cons rmd rest ih =>
    intro b r cc e
    simp only [newCRChainsLoop] at e
    cases hp : b.processOps rmd.ops with
    | error err => simp [hp] at e
    | ok b2 =>
      simp only [hp] at e
      split at e
      · rename_i hroot
        obtain ⟨b1, h1, h2, h3⟩ := ih b2 r cc e
        refine ⟨b1, ?_, h2, ?_⟩
        · simp only [allOps, chainBuilder.processOps_append, hp, h1]
        · intro last hlast
          cases rest with
          | nil =>
            simp only [List.getLast?_singleton, Option.some.injEq] at hlast
            simp only [allOps, chainBuilder.processOps, Except.ok.injEq] at h1
            rw [← hlast, ← h1]
            exact hroot
          | cons r2 rest2 =>
            rw [List.getLast?_cons_cons] at hlast
            exact h3 last hlast
      · exact absurd e (by simp)

/-- The loop fails only on an operation or on a root mismatch. -/
theorem newCRChainsLoop_ok_or_mismatch (multi : List IFCERFTRootMetadata) :
    ∀ (b b1 : chainBuilder) (root : Option Nat),
      chainBuilder.processOps (allOps multi) b = .ok b1 →
        (∃ cc, newCRChainsLoop multi b root = .ok cc) ∨
        (∃ r, newCRChainsLoop multi b root = .error (.rootMismatch r)) := by
  induction multi with
  | nil =>
    intro b b1 root _
    exact Or.inl ⟨_, rfl⟩
  | cons rmd rest ih =>
    intro b b1 root e
    simp only [allOps, chainBuilder.processOps_append] at e
    cases hp : b.processOps rmd.ops with
    | error err => simp [hp] at e
    | ok b2 =>
      simp only [hp] at e
      simp only [newCRChainsLoop, hp]
      cases root with
      | none => exact ih b2 b1 _ e
      | some r =>
        simp only
        split
        · exact ih b2 b1 _ e
        · exact Or.inr ⟨_, rfl⟩

theorem newCRChains_split (multi : List IFCERFTRootMetadata) (big : IFCERFTRootMetadata)
    (hops : allOps multi = big.ops)
    (hlast : multi.getLast?.map (fun r => r.dataDir) = some big.dataDir) :
    (∀ mcc, newCRChains multi = .ok mcc → newCRChains [big] = .ok mcc) ∧
    (∀ cc, newCRChains [big] = .ok cc →
      newCRChains multi = .ok cc ∨ ∃ r, newCRChains multi = .error (.rootMismatch r)) := by
  have key : ∀ mcc, newCRChains multi = .ok mcc → newCRChains [big] = .ok mcc := by
    intro mcc e
    cases multi with
    | nil => simp at hlast
    | cons rmd rest =>
      simp only [newCRChains, newCRChainsLoop] at e ⊢
      cases hp : chainBuilder.empty.processOps rmd.ops with
      | error err => simp [hp] at e
      | ok b2 =>
        simp only [hp] at e
        obtain ⟨b1, h1, h2, h3⟩ := newCRChainsLoop_some rest b2 _ mcc e
        have hall : chainBuilder.empty.processOps big.ops = .ok b1 := by
          rw [← hops]
          simp only [allOps, chainBuilder.processOps_append, hp, h1]
        simp only [hall, Option.getD_some, Except.ok.injEq]
        rw [h2]
        congr 1
        cases rest with
        | nil =>
          simp only [List.getLast?_singleton, Option.map_some', Option.some.injEq] at hlast
          simp only [allOps, chainBuilder.processOps, Except.ok.injEq] at h1
          rw [← hlast, ← h1]
        | cons r2 rest2 =>
          rw [List.getLast?_cons_cons] at hlast
          cases hl : (r2 :: rest2).getLast? with
          | none => simp [hl] at hlast
          | some last =>
            simp only [hl, Option.map_some', Option.some.injEq] at hlast
            rw [← hlast]
            exact h3 last hl
  refine ⟨key, ?_⟩
  intro cc e
  have hproc : ∃ b1, chainBuilder.processOps (allOps multi) chainBuilder.empty = .ok b1 := by
    rw [hops]
    simp only [newCRChains, newCRChainsLoop] at e
    cases hp : chainBuilder.empty.processOps big.ops with
    | error err => simp [hp] at e
    | ok b1 => exact ⟨b1, rfl⟩
  obtain ⟨b1, hb1⟩ := hproc
  rcases newCRChainsLoop_ok_or_mismatch multi _ b1 none hb1 with ⟨mcc, hm⟩ | ⟨r, hr⟩
  · left
    have := key mcc hm
    rw [e] at this
    cases this
    exact hm
  · exact Or.inr ⟨r, hr⟩

theorem allOps_of_singletons (multi : List IFCERFTRootMetadata) :
    ∀ ops : List IFCERFTOps, multi.map (fun r => r.ops) = ops.map (fun o => [o]) →
      allOps multi = ops := by
  induction multi with
  | nil =>
    intro ops h
    cases ops with
    | nil => rfl
    | cons o os => simp at h
  | cons rmd rest ih =>
    intro ops h
    cases ops with
    | nil => simp at h
    | cons o os =>
      simp only [List.map_cons, List.cons.injEq] at h
      simp only [allOps, h.1, ih os h.2, List.singleton_append]

/-! ## Collapsing, seen through the original pointers -/

theorem collapseInsert_keeps_create (ops : List IFCERFTOps) (op : IFCERFTOps) (X : String)
    (h : ops.any (fun o => o.isCreateOf X) = true) (hop : op.removes X = false) :
    (collapseInsert ops op).1.any (fun o => o.isCreateOf X) = true := by
  obtain ⟨e, he, hX⟩ := List.any_eq_true.1 h
  have hkeep : ∀ n : String, n ≠ X →
      (ops.filter (fun o => !o.isCreateOf n)).any (fun o => o.isCreateOf X) = true := by
    intro n hn
    refine List.any_eq_true.2 ⟨e, List.mem_filter.2 ⟨he, ?_⟩, hX⟩
    cases e with
    | createOp m d t r us =>
      simp only [IFCERFTOps.isCreateOf, decide_eq_true_eq] at hX
      subst hX
      have : ¬ m = n := fun e2 => hn e2.symm
      simp [IFCERFTOps.isCreateOf, this]
    | rmOp m d us => simp [IFCERFTOps.isCreateOf] at hX
    | renameOp a b c d f t us => simp [IFCERFTOps.isCreateOf] at hX
    | setAttrOp a b c d us => simp [IFCERFTOps.isCreateOf] at hX
    | syncOp f us => simp [IFCERFTOps.isCreateOf] at hX
  cases op with
  | createOp n d t r us =>
    by_cases hn : n = X
    · simp [collapseInsert, IFCERFTOps.isCreateOf, hn]
    · simp only [collapseInsert, List.any_append, hkeep n hn, Bool.true_or]
  | rmOp n d us =>
    have hn : n ≠ X := by
      intro e2
      simp [IFCERFTOps.removes, e2] at hop
    simp only [collapseInsert]
    split
    · exact hkeep n hn
    · simp only [List.any_append, h, Bool.true_or]
  | renameOp a b c d f t us => simp only [collapseInsert, List.any_append, h, Bool.true_or]
  | setAttrOp a b c d us => simp only [collapseInsert, List.any_append, h, Bool.true_or]
  | syncOp f us => simp only [collapseInsert, List.any_append, h, Bool.true_or]

theorem chainBuilder.insertOps_keeps_create (l : List (Nat × IFCERFTOps)) (X : String)
    (o : Nat) :
    ∀ {b b1 : chainBuilder}, b.Inv → chainBuilder.insertOps l b = .ok b1 →
      (∀ e ∈ l, e.2.removes X = true → b.originalOf e.1 ≠ o) →
      (b.opsOf o).any (fun x => x.isCreateOf X) = true →
      (b1.opsOf o).any (fun x => x.isCreateOf X) = true := by
  induction l with
  | nil =>
    intro b b1 _ e _ hany
    simp only [chainBuilder.insertOps, Except.ok.injEq] at e
    exact e ▸ hany
  | cons x rest ih =>
    intro b b1 h e hl hany
    obtain ⟨p, op⟩ := x
    simp only [chainBuilder.insertOps] at e
    cases hu : b.insertOp p op with
    | error err => simp [hu] at e
    | ok b2 =>
      simp only [hu] at e
      obtain ⟨h2, horig, hops, -, -, -⟩ := chainBuilder.insertOp_spec h hu
      refine ih h2 e ?_ ?_
      · intro e2 he2 hrem
        rw [horig]
        exact hl e2 (List.mem_cons_of_mem _ he2) hrem
      · rw [hops o]
        split
        · rename_i ho
          refine collapseInsert_keeps_create _ _ _ hany ?_
          cases hrem : op.removes X with
          | false => rfl
          | true => exact absurd ho.symm (hl (p, op) (List.mem_cons_self _ _) hrem)
        · exact hany

theorem chainBuilder.makeChainForOp_keeps_create {b b1 : chainBuilder} {op : IFCERFTOps}
    (X : String) (o : Nat) (h : b.Inv) (e : b.makeChainForOp op = .ok b1)
    (hop : op.removesFrom X o b = false)
    (hany : (b.opsOf o).any (fun x => x.isCreateOf X) = true) :
    (b1.opsOf o).any (fun x => x.isCreateOf X) = true := by
  unfold chainBuilder.makeChainForOp at e
  cases hi : b.insertOps op.chainOps with
  | error err => simp [hi] at e
  | ok b2 =>
    simp only [hi] at e
    have hl : ∀ e ∈ op.chainOps, e.2.removes X = true → b.originalOf e.1 ≠ o := by
      intro e2 he2 hrem ho
      have := List.any_eq_false.1 hop e2 he2
      simp [hrem, ho] at this
    have k1 := chainBuilder.insertOps_keeps_create _ X o h hi hl hany
    obtain ⟨-, hops, -, -⟩ := chainBuilder.applyUpdates_spec _
      (chainBuilder.recordRenameOf_inv (chainBuilder.insertOps_inv _ h hi) op) e
    rw [hops o, (chainBuilder.recordRenameOf_opsOf b2 op o).1]
    exact k1

theorem chainBuilder.processOps_keeps_create (mid : List IFCERFTOps) (X : String) (o : Nat) :
    ∀ {b b1 : chainBuilder}, b.Inv → chainBuilder.processOps mid b = .ok b1 →
      b.removedIn X o mid = false →
      (b.opsOf o).any (fun x => x.isCreateOf X) = true →
      (b1.opsOf o).any (fun x => x.isCreateOf X) = true := by
  induction mid with
  | nil =>
    intro b b1 _ e _ hany
    simp only [chainBuilder.processOps, Except.ok.injEq] at e
    exact e ▸ hany
  | cons op rest ih =>
    intro b b1 h e hl hany
    simp only [chainBuilder.processOps] at e
    cases hu : b.makeChainForOp op with
    | error err => simp [hu] at e
    | ok b2 =>
      simp only [hu] at e
      simp only [chainBuilder.removedIn, hu, Bool.or_eq_false_iff] at hl
      exact ih (chainBuilder.makeChainForOp_inv h hu) e hl.2
        (chainBuilder.makeChainForOp_keeps_create X o h hu hl.1 hany)

/-- An operation recorded on one chain only: the view of that step. -/
theorem chainBuilder.makeChainForOp_single {b b1 : chainBuilder} {op sub : IFCERFTOps} {p : Nat}
    (h : b.Inv) (hco : op.chainOps = [(p, sub)]) (e : b.makeChainForOp op = .ok b1) :
    b1.Inv ∧
    (∀ o, b1.opsOf o =
      if o = b.originalOf p then (collapseInsert (b.opsOf o) sub).1 else b.opsOf o) ∧
    (∀ o, b1.wasCancelled o =
      (b.wasCancelled o ||
        (decide (o = b.originalOf p) && (collapseInsert (b.opsOf o) sub).2))) := by
  unfold chainBuilder.makeChainForOp at e
  rw [hco] at e
  simp only [chainBuilder.insertOps] at e
  cases hi : b.insertOp p sub with
  | error err => simp [hi] at e
  | ok b2 =>
    simp only [hi] at e
    obtain ⟨h2, -, hops, hcanc, -, -⟩ := chainBuilder.insertOp_spec h hi
    obtain ⟨h3, hops3, hcanc3, -⟩ :=
      chainBuilder.applyUpdates_spec _ (chainBuilder.recordRenameOf_inv h2 op) e
    refine ⟨h3, ?_, ?_⟩
    · intro o
      rw [hops3 o, (chainBuilder.recordRenameOf_opsOf b2 op o).1, hops o]
    · intro o
      rw [hcanc3 o, (chainBuilder.recordRenameOf_opsOf b2 op o).2, hcanc o]

theorem chainBuilder.insertOps_wasCancelled (l : List (Nat × IFCERFTOps)) (o : Nat) :
    ∀ {b b1 : chainBuilder}, b.Inv → chainBuilder.insertOps l b = .ok b1 →
      b.wasCancelled o = true → b1.wasCancelled o = true := by
  induction l with
  | nil =>
    intro b b1 _ e hc
    simp only [chainBuilder.insertOps, Except.ok.injEq] at e
    exact e ▸ hc
  | cons x rest ih =>
    intro b b1 h e hc
    obtain ⟨p, op⟩ := x
    simp only [chainBuilder.insertOps] at e
    cases hu : b.insertOp p op with
    | error err => simp [hu] at e
    | ok b2 =>
      simp only [hu] at e
      obtain ⟨h2, -, -, hcanc, -, -⟩ := chainBuilder.insertOp_spec h hu
      refine ih h2 e ?_
      rw [hcanc o, hc]
      rfl

/-- Cancellations are never forgotten while operations are processed. -/
theorem chainBuilder.processOps_wasCancelled (post : List IFCERFTOps) (o : Nat) :
    ∀ {b b1 : chainBuilder}, b.Inv → chainBuilder.processOps post b = .ok b1 →
      b.wasCancelled o = true → b1.wasCancelled o = true := by
  induction post with
  | nil =>
    intro b b1 _ e hc
    simp only [chainBuilder.processOps, Except.ok.injEq] at e
    exact e ▸ hc
  | cons op rest ih =>
    intro b b1 h e hc
    simp only [chainBuilder.processOps] at e
    cases hu : b.makeChainForOp op with
    | error err => simp [hu] at e
    | ok b2 =>
      simp only [hu] at e
      refine ih (chainBuilder.makeChainForOp_inv h hu) e ?_
      unfold chainBuilder.makeChainForOp at hu
      cases hi : b.insertOps op.chainOps with
      | error err => simp [hi] at hu
      | ok b3 =>
        simp only [hi] at hu
        obtain ⟨-, -, hcanc, -⟩ := chainBuilder.applyUpdates_spec _
          (chainBuilder.recordRenameOf_inv (chainBuilder.insertOps_inv _ h hi) op) hu
        rw [hcanc o, (chainBuilder.recordRenameOf_opsOf b3 op o).2]
        exact chainBuilder.insertOps_wasCancelled _ o h hi hc

/-! ## Renames, seen through the original pointers -/

theorem mapLookup_insert_self {β : Type} (k : Nat) (v : β) (m : List (Nat × β)) :
    mapLookup k (mapInsert k v m) = some v := by
  simp [mapInsert, mapLookup_append_singleton, mapLookup_erase_self]

/-- Collapsing never drops an operation that is not a Create. -/
theorem collapseInsert_keeps_other (ops : List IFCERFTOps) (op e : IFCERFTOps)
    (he : e ∈ ops) (hne : ∀ n, e.isCreateOf n = false) : e ∈ (collapseInsert ops op).1 := by
  have hkeep : ∀ n : String, e ∈ ops.filter (fun o => !o.isCreateOf n) :=
    fun n => List.mem_filter.2 ⟨he, by simp [hne n]⟩
  cases op with
  | createOp n d t r us =>
    simp only [collapseInsert, List.mem_append]
    exact Or.inl (hkeep n)
  | rmOp n d us =>
    simp only [collapseInsert]
    split
    · exact hkeep n
    · exact List.mem_append_left _ he
  | renameOp a b c d f t us => exact List.mem_append_left _ he
  | setAttrOp a b c d us => exact List.mem_append_left _ he
  | syncOp f us => exact List.mem_append_left _ he

theorem chainBuilder.insertOps_spec (l : List (Nat × IFCERFTOps)) :
    ∀ {b b1 : chainBuilder}, b.Inv → chainBuilder.insertOps l b = .ok b1 →
      b1.Inv ∧ (∀ q, b1.originalOf q = b.originalOf q) ∧
      b1.renamedOriginals = b.renamedOriginals ∧
      (∀ o e, e ∈ b.opsOf o → (∀ n, e.isCreateOf n = false) → e ∈ b1.opsOf o) := by
  induction l with
  | nil =>
    intro b b1 h e
    simp only [chainBuilder.insertOps, Except.ok.injEq] at e
    subst e
    exact ⟨h, fun _ => rfl, rfl, fun _ _ he _ => he⟩
  | cons x rest ih =>
    intro b b1 h e
    obtain ⟨p, op⟩ := x
    simp only [chainBuilder.insertOps] at e
    cases hu : b.insertOp p op with
    | error err => simp [hu] at e
    | ok b2 =>
      simp only [hu] at e
      obtain ⟨h2, horig, hops, -, hren, -⟩ := chainBuilder.insertOp_spec h hu
      obtain ⟨h3, horig3, hren3, hkeep3⟩ := ih h2 e
      refine ⟨h3, fun q => (horig3 q).trans (horig q), hren3.trans hren, ?_⟩
      intro o e he hne
      apply hkeep3 o e _ hne
      rw [hops o]
      split
      · exact collapseInsert_keeps_other _ _ _ he hne
      · exact he

theorem mapLookup_insert_other {β : Type} {k k' : Nat} (v : β) (m : List (Nat × β))
    (h : k' ≠ k) : mapLookup k (mapInsert k' v m) = mapLookup k m := by
  have herase : mapLookup k (mapErase k' m) = mapLookup k m := by
    induction m with
    | nil => rfl
    | cons kv rest ih =>
      obtain ⟨k2, v2⟩ := kv
      by_cases h2 : k2 = k'
      · have : ¬ k2 = k := fun e => h (h2 ▸ e)
        simp only [mapErase, h2, if_true, mapLookup]
        rw [ih]
        have : ¬ k' = k := h
        simp [this]
      · by_cases h3 : k2 = k
        · subst h3
          simp [mapErase, h2, mapLookup]
        · simp only [mapErase, h2, if_false, mapLookup, h3]
          exact ih
  simp only [mapInsert, mapLookup_append_singleton, herase]
  cases mapLookup k m with
  | some x => rfl
  | none => simp [h]

/-- An operation that is not a Rename of the object filed under `o` leaves the
rename entry of `o` alone, and no operation drops a recorded operation that is
not a Create. -/
theorem chainBuilder.makeChainForOp_frame {b b1 : chainBuilder} {op : IFCERFTOps} (h : b.Inv)
    (e : b.makeChainForOp op = .ok b1) :
    (∀ o, op.renamesObject o b = false →
      mapLookup o b1.renamedOriginals = mapLookup o b.renamedOriginals) ∧
    (∀ o e, e ∈ b.opsOf o → (∀ n, e.isCreateOf n = false) → e ∈ b1.opsOf o) := by
  unfold chainBuilder.makeChainForOp at e
  cases hi : b.insertOps op.chainOps with
  | error err => simp [hi] at e
  | ok b2 =>
    simp only [hi] at e
    obtain ⟨h2, horig, hren, hkeep⟩ := chainBuilder.insertOps_spec _ h hi
    obtain ⟨-, hops3, -, hren3⟩ :=
      chainBuilder.applyUpdates_spec _ (chainBuilder.recordRenameOf_inv h2 op) e
    constructor
    · intro o hnr
      rw [hren3, ← hren]
      cases op with
      | renameOp a b c d f t us =>
        simp only [IFCERFTOps.renamesObject, decide_eq_false_iff_not] at hnr
        simp only [chainBuilder.recordRenameOf, chainBuilder.recordRename]
        apply mapLookup_insert_other
        rw [horig]
        exact hnr
      | createOp n d t r us => rfl
      | rmOp n d us => rfl
      | setAttrOp a b c d us => rfl
      | syncOp f us => rfl
    · intro o e he hne
      rw [hops3 o, (chainBuilder.recordRenameOf_opsOf b2 op o).1]
      exact hkeep o e he hne

theorem chainBuilder.processOps_frame (mid : List IFCERFTOps) :
    ∀ {b b1 : chainBuilder}, b.Inv → chainBuilder.processOps mid b = .ok b1 →
      (∀ o, b.renamedIn o mid = false →
        mapLookup o b1.renamedOriginals = mapLookup o b.renamedOriginals) ∧
      (∀ o e, e ∈ b.opsOf o → (∀ n, e.isCreateOf n = false) → e ∈ b1.opsOf o) := by
  induction mid with
  | nil =>
    intro b b1 _ e
    simp only [chainBuilder.processOps, Except.ok.injEq] at e
    subst e
    exact ⟨fun _ _ => rfl, fun _ _ he _ => he⟩
  | cons op rest ih =>
    intro b b1 h e
    simp only [chainBuilder.processOps] at e
    cases hu : b.makeChainForOp op with
    | error err => simp [hu] at e
    | ok b2 =>
      simp only [hu] at e
      obtain ⟨k1, k2⟩ := chainBuilder.makeChainForOp_frame h hu
      obtain ⟨i1, i2⟩ := ih (chainBuilder.makeChainForOp_inv h hu) e
      constructor
      · intro o hnr
        simp only [chainBuilder.renamedIn, hu, Bool.or_eq_false_iff] at hnr
        rw [i1 o hnr.2, k1 o hnr.1]
      · intro o e he hne
        exact i2 o e (k2 o e he hne) hne

/-- The view of one Rename: the remove half goes to the chain of the source
directory, then the create half to the chain of the destination directory, and
the entry of the moved object keeps its first source and takes the new
destination. -/
theorem chainBuilder.makeChainForOp_rename {b b1 : chainBuilder} (h : b.Inv)
    (oldName : String) (oldDir : Nat) (newName : String) (newDir renamed : Nat)
    (t : IFCERFTEntryType) (us : List blockUpdate)
    (e : b.makeChainForOp (.renameOp oldName oldDir newName newDir renamed t us) = .ok b1) :
    b1.Inv ∧
    (∀ o, b1.opsOf o =
      if o = b.originalOf newDir then
        (collapseInsert
          (if o = b.originalOf oldDir then
            (collapseInsert (b.opsOf o) (.rmOp oldName oldDir [])).1 else b.opsOf o)
          (.createOp newName newDir t true [])).1
      else if o = b.originalOf oldDir then
        (collapseInsert (b.opsOf o) (.rmOp oldName oldDir [])).1 else b.opsOf o) ∧
    b1.renamedOriginals =
      mapInsert (b.originalOf renamed)
        (match mapLookup (b.originalOf renamed) b.renamedOriginals with
         | some ri =>
           { ri with originalNewParent := b.originalOf newDir, newName := newName }
         | none =>
           { originalOldParent := b.originalOf oldDir, oldName := oldName,
             originalNewParent := b.originalOf newDir, newName := newName })
        b.renamedOriginals := by
  unfold chainBuilder.makeChainForOp at e
  simp only [IFCERFTOps.chainOps, chainBuilder.insertOps] at e
  cases h1 : b.insertOp oldDir (.rmOp oldName oldDir []) with
  | error err => simp [h1] at e
  | ok b2 =>
    simp only [h1] at e
    cases h2 : b2.insertOp newDir (.createOp newName newDir t true []) with
    | error err => simp [h2] at e
    | ok b3 =>
      simp only [h2] at e
      obtain ⟨i2, horig2, hops2, -, hren2, -⟩ := chainBuilder.insertOp_spec h h1
      obtain ⟨i3, horig3, hops3, -, hren3, -⟩ := chainBuilder.insertOp_spec i2 h2
      obtain ⟨i4, hops4, -, hren4⟩ :=
        chainBuilder.applyUpdates_spec _ (chainBuilder.recordRenameOf_inv i3 _) e
      have horig : ∀ q, b3.originalOf q = b.originalOf q :=
        fun q => (horig3 q).trans (horig2 q)
      refine ⟨i4, ?_, ?_⟩
      · intro o
        rw [hops4 o]
        show b3.opsOf o = _
        rw [hops3 o, hops2 o, horig2 newDir]
      · rw [hren4]
        simp only [chainBuilder.recordRenameOf, chainBuilder.recordRename, horig,
          hren3, hren2]

/-- A chain that holds an operation stays filed in the finished index. -/
theorem chainBuilder.finish_kept {b : chainBuilder} (h : b.Inv) (root o : Nat)
    (hops : b.opsOf o ≠ []) :
    ∃ id, mapLookup o (b.finish root).byOriginal = some id ∧
      ((b.finish root).chainAt id).ops = b.opsOf o := by
  cases hl : mapLookup o b.byOriginal with
  | none => simp [chainBuilder.opsOf, hl] at hops
  | some id =>
    refine ⟨id, ?_, ?_⟩
    · apply mapLookup_of_mem
      · exact h.keysO.sublist ((List.filter_sublist _).map Prod.fst)
      · refine List.mem_filter.2 ⟨mem_of_mapLookup hl, ?_⟩
        simp only [chainBuilder.opsOf, hl] at hops
        simp [chainBuilder.pruned, hops]
    · simp only [chainBuilder.opsOf, hl]
      rfl

/-! ## The pending Creates of one name, seen through the original pointers -/

/-- An operation that is neither a Create nor a Remove of `X` leaves the
Creates of `X` of a chain as they are. -/
theorem collapseInsert_filter_create (ops : List IFCERFTOps) (op : IFCERFTOps) (X : String)
    (hop : op.names X = false) :
    (collapseInsert ops op).1.filter (fun o => o.isCreateOf X)
      = ops.filter (fun o => o.isCreateOf X) := by
  have hkeep : ∀ n : String, n ≠ X →
      (ops.filter (fun o => !o.isCreateOf n)).filter (fun o => o.isCreateOf X)
        = ops.filter (fun o => o.isCreateOf X) := by
    intro n hn
    rw [List.filter_filter]
    apply List.filter_congr
    intro e _
    cases e with
    | createOp m d t r us =>
      by_cases hm : m = X
      · have : ¬ m = n := fun e2 => hn (e2 ▸ hm)
        simp [IFCERFTOps.isCreateOf, hm, this, hm ▸ this]
      · simp [IFCERFTOps.isCreateOf, hm]
    | rmOp m d us => rfl
    | renameOp a b c d f t us => rfl
    | setAttrOp a b c d us => rfl
    | syncOp f us => rfl
  cases op with
  | createOp n d t r us =>
    have hn : n ≠ X := by
      intro e2
      simp [IFCERFTOps.names, e2] at hop
    simp only [collapseInsert, List.filter_append, hkeep n hn]
    simp [IFCERFTOps.isCreateOf, hn]
  | rmOp n d us =>
    have hn : n ≠ X := by
      intro e2
      simp [IFCERFTOps.names, e2] at hop
    simp only [collapseInsert]
    split
    · exact hkeep n hn
    · simp [List.filter_append, IFCERFTOps.isCreateOf]
  | renameOp a b c d f t us => simp [collapseInsert, List.filter_append, IFCERFTOps.isCreateOf]
  | setAttrOp a b c d us => simp [collapseInsert, List.filter_append, IFCERFTOps.isCreateOf]
  | syncOp f us => simp [collapseInsert, List.filter_append, IFCERFTOps.isCreateOf]

theorem chainBuilder.insertOps_filter_create (l : List (Nat × IFCERFTOps)) (X : String)
    (o : Nat) :
    ∀ {b b1 : chainBuilder}, b.Inv → chainBuilder.insertOps l b = .ok b1 →
      (∀ e ∈ l, e.2.names X = true → b.originalOf e.1 ≠ o) →
      (b1.opsOf o).filter (fun x => x.isCreateOf X)
        = (b.opsOf o).filter (fun x => x.isCreateOf X) := by
  induction l with
  | nil =>
    intro b b1 _ e _
    simp only [chainBuilder.insertOps, Except.ok.injEq] at e
    rw [e]
  | cons x rest ih =>
    intro b b1 h e hl
    obtain ⟨p, op⟩ := x
    simp only [chainBuilder.insertOps] at e
    cases hu : b.insertOp p op with
    | error err => simp [hu] at e
    | ok b2 =>
      simp only [hu] at e
      obtain ⟨h2, horig, hops, -, -, -⟩ := chainBuilder.insertOp_spec h hu
      have k := ih h2 e (by
        intro e2 he2 hn
        rw [horig]
        exact hl e2 (List.mem_cons_of_mem _ he2) hn)
      rw [k, hops o]
      split
      · rename_i ho
        apply collapseInsert_filter_create
        cases hn : op.names X with
        | false => rfl
        | true => exact absurd ho.symm (hl (p, op) (List.mem_cons_self _ _) hn)
      · rfl

theorem chainBuilder.makeChainForOp_filter_create {b b1 : chainBuilder} {op : IFCERFTOps}
    (X : String) (o : Nat) (h : b.Inv) (e : b.makeChainForOp op = .ok b1)
    (hop : op.namesOn X o b = false) :
    (b1.opsOf o).filter (fun x => x.isCreateOf X)
      = (b.opsOf o).filter (fun x => x.isCreateOf X) := by
  unfold chainBuilder.makeChainForOp at e
  cases hi : b.insertOps op.chainOps with
  | error err => simp [hi] at e
  | ok b2 =>
    simp only [hi] at e
    have hl : ∀ e ∈ op.chainOps, e.2.names X = true → b.originalOf e.1 ≠ o := by
      intro e2 he2 hn ho
      have := List.any_eq_false.1 hop e2 he2
      simp [hn, ho] at this
    have k1 := chainBuilder.insertOps_filter_create _ X o h hi hl
    obtain ⟨-, hops, -, -⟩ := chainBuilder.applyUpdates_spec _
      (chainBuilder.recordRenameOf_inv (chainBuilder.insertOps_inv _ h hi) op) e
    rw [hops o, (chainBuilder.recordRenameOf_opsOf b2 op o).1]
    exact k1

/-- Operations that record neither a Create nor a Remove of `X` on the chain
filed under `o` leave the Creates of `X` on that chain as they are. -/
theorem chainBuilder.processOps_filter_create (post : List IFCERFTOps) (X : String) (o : Nat) :
    ∀ {b b1 : chainBuilder}, b.Inv → chainBuilder.processOps post b = .ok b1 →
      b.namedIn X o post = false →
      (b1.opsOf o).filter (fun x => x.isCreateOf X)
        = (b.opsOf o).filter (fun x => x.isCreateOf X) := by
  induction post with
  | nil =>
    intro b b1 _ e _
    simp only [chainBuilder.processOps, Except.ok.injEq] at e
    rw [e]
  | cons op rest ih =>
    intro b b1 h e hl
    simp only [chainBuilder.processOps] at e
    cases hu : b.makeChainForOp op with
    | error err => simp [hu] at e
    | ok b2 =>
      simp only [hu] at e
      simp only [chainBuilder.namedIn, hu, Bool.or_eq_false_iff] at hl
      rw [ih (chainBuilder.makeChainForOp_inv h hu) e hl.2]
      exact chainBuilder.makeChainForOp_filter_create X o h hu hl.1

/-! ## The status keeper: the claims -/

theorem signalChangeLocked_md (w w1 : World) (h : signalChangeLocked w = some w1) :
    w1.fbsk.md = w.fbsk.md := by
  unfold signalChangeLocked at h
  split at h
  · exact absurd h (by simp)
  · cases h
    rfl

/-- One call in a well-formed world: it does not panic, keeps the world
well-formed, and the close log grows by one exactly when the call changed the
keeper's data. -/
theorem apply_step (c : Call) (w : World) (hwf : w.WF) :
    ∃ w1, c.apply w = some w1 ∧ w1.WF ∧
      w1.heap.closed.length = w.heap.closed.length + (if c.effective w then 1 else 0) := by
  by_cases hd : c.differs w
  · obtain ⟨w1, e, hc, -, -, hk, hw⟩ := apply_of_differs c w hwf hd
    refine ⟨w1, e, hw, ?_⟩
    have heff : c.effective w = true := by
      simp only [Call.effective, e]
      exact decide_eq_true hk
    simp [heff, hc]
  · have e := apply_of_not_differs c w hd
    refine ⟨w, e, hwf, ?_⟩
    have heff : c.effective w = false := by
      simp [Call.effective, e]
    simp [heff]

theorem runCalls_spec (calls : List Call) :
    ∀ w : World, w.WF →
      ∃ w1, runCalls calls w = some w1 ∧ w1.WF ∧
        w1.heap.closed.length = w.heap.closed.length + effectiveCount calls w := by
  induction calls with
  | nil =>
    intro w hwf
    exact ⟨w, rfl, hwf, rfl⟩
  | cons c cs ih =>
    intro w hwf
    obtain ⟨w1, e, hw1, hlen⟩ := apply_step c w hwf
    obtain ⟨w2, e2, hw2, hlen2⟩ := ih w1 hw1
    refine ⟨w2, ?_, hw2, ?_⟩
    · simp only [runCalls, e, e2]
    · simp only [effectiveCount, e]
      omega

theorem newFolderBranchStatusKeeper_WF (config : IFCERFTConfig) (nodeCache : IFCERFTNodeCache)
    (h0 : ChanHeap) (hv : h0.Valid) : (newFolderBranchStatusKeeper config nodeCache h0).WF := by
  obtain ⟨h1, h2⟩ := hv
  refine ⟨Nat.lt_succ_self _, ?_, ?_, h2⟩
  · intro hmem
    exact absurd (h1 _ hmem) (Nat.lt_irrefl _)
  · intro c hc
    exact Nat.lt_succ_of_lt (h1 c hc)

/-- C3: in every keeper state (current handle allocated and open), a mutation
that carries a new value returns normally, closes exactly the handle that a
successful `getStatus` returned just before, and installs a handle that was not
allocated before, is not closed, differs from the old one, and is what a
successful `getStatus` returns afterwards. -/
theorem effective_mutation_closes_and_replaces (c : Call) (w : World) (hwf : w.WF)
    (hd : c.differs w) :
    ∃ w1, c.apply w = some w1 ∧
      (∀ ord, (getStatus ord w).1.err = none →
        (getStatus ord w).1.updateChan = some w.fbsk.updateChan) ∧
      w1.heap.closed = w.fbsk.updateChan :: w.heap.closed ∧
      w.heap.next ≤ w1.fbsk.updateChan ∧ w1.fbsk.updateChan < w1.heap.next ∧
      w1.fbsk.updateChan ∉ w1.heap.closed ∧
      w1.fbsk.updateChan ≠ w.fbsk.updateChan ∧
      (∀ ord, (getStatus ord w1).1.err = none →
        (getStatus ord w1).1.updateChan = some w1.fbsk.updateChan) := by
  obtain ⟨w1, e, hc, hu, -, -, hw⟩ := apply_of_differs c w hwf hd
  refine ⟨w1, e, fun ord h => getStatus_chan ord w h, hc, ?_, hw.1, hw.2.1, ?_,
    fun ord h => getStatus_chan ord w1 h⟩
  · exact Nat.le_of_eq hu.symm
  · rw [hu]
    exact (Nat.ne_of_lt hwf.1).symm

theorem sampleWorld_WF : sampleWorld.WF :=
  newFolderBranchStatusKeeper_WF sampleConfig sampleNodeCache { next := 0, closed := [] }
    ⟨by simp, by simp⟩

theorem effective_mutation_closes_and_replaces_witness :
    (Call.setRootMetadata (some 1)).differs sampleWorld ∧
    ∃ w1, (Call.setRootMetadata (some 1)).apply sampleWorld = some w1 ∧
      (∀ ord, (getStatus ord sampleWorld).1.err = none →
        (getStatus ord sampleWorld).1.updateChan = some sampleWorld.fbsk.updateChan) ∧
      w1.heap.closed = sampleWorld.fbsk.updateChan :: sampleWorld.heap.closed ∧
      sampleWorld.heap.next ≤ w1.fbsk.updateChan ∧ w1.fbsk.updateChan < w1.heap.next ∧
      w1.fbsk.updateChan ∉ w1.heap.closed ∧
      w1.fbsk.updateChan ≠ sampleWorld.fbsk.updateChan ∧
      (∀ ord, (getStatus ord w1).1.err = none →
        (getStatus ord w1).1.updateChan = some w1.fbsk.updateChan) :=
  ⟨by simp [Call.differs, sampleWorld, newFolderBranchStatusKeeper],
   effective_mutation_closes_and_replaces (Call.setRootMetadata (some 1)) sampleWorld
     sampleWorld_WF (by simp [Call.differs, sampleWorld, newFolderBranchStatusKeeper])⟩

/-- C4: a mutation whose value equals the current one (the current metadata
pointer, the current chain pair, a node whose ID is already dirty, a node whose
ID is not dirty) returns the world it was given: data, current handle and close
log are all unchanged.  A second `setRootMetadata` with the value just set is
such a call, so it signals nothing. -/
theorem mutation_with_current_value_is_noop (c : Call) (w : World) (h : ¬ c.differs w) :
    c.apply w = some w ∧
    (∀ md w1, setRootMetadata md w = some w1 → setRootMetadata md w1 = some w1) := by
  refine ⟨apply_of_not_differs c w h, ?_⟩
  intro md w1 h1
  by_cases hm : w.fbsk.md = md
  · simp only [setRootMetadata, hm, if_true] at h1
    cases h1
    simp [setRootMetadata, hm]
  · simp only [setRootMetadata, hm, if_false] at h1
    have := signalChangeLocked_md _ _ h1
    simp [setRootMetadata, this]

theorem mutation_with_current_value_is_noop_witness :
    ¬ (Call.addDirtyNode ⟨1, 5⟩).differs sampleDirtyWorld ∧
    (Call.addDirtyNode ⟨1, 5⟩).apply sampleDirtyWorld = some sampleDirtyWorld ∧
    (∀ md w1, setRootMetadata md sampleDirtyWorld = some w1 →
      setRootMetadata md w1 = some w1) :=
  ⟨by simp [Call.differs, sampleDirtyWorld, IFCERFTNode.GetID, mapLookup],
   mutation_with_current_value_is_noop (Call.addDirtyNode ⟨1, 5⟩) sampleDirtyWorld
     (by simp [Call.differs, sampleDirtyWorld, IFCERFTNode.GetID, mapLookup])⟩

/-- C5: any finite sequence of keeper calls, run on a keeper made by
`newFolderBranchStatusKeeper` in a valid channel heap, never panics on a
double close; in the state it reaches the current handle is allocated and
open and no handle was closed twice; and the number of handles closed during
the run is the number of calls that changed the keeper's data. -/
theorem keeper_run_closes_once_per_effective_call (config : IFCERFTConfig)
    (nodeCache : IFCERFTNodeCache) (h0 : ChanHeap) (calls : List Call) (hv : h0.Valid) :
    ∃ w, runCalls calls (newFolderBranchStatusKeeper config nodeCache h0) = some w ∧
      w.fbsk.updateChan < w.heap.next ∧ w.fbsk.updateChan ∉ w.heap.closed ∧
      w.heap.closed.Nodup ∧
      w.heap.closed.length =
        h0.closed.length +
          effectiveCount calls (newFolderBranchStatusKeeper config nodeCache h0) := by
  obtain ⟨w, e, hw, hlen⟩ :=
    runCalls_spec calls _ (newFolderBranchStatusKeeper_WF config nodeCache h0 hv)
  exact ⟨w, e, hw.1, hw.2.1, hw.2.2.2, hlen⟩

theorem keeper_run_closes_once_per_effective_call_witness :
    ChanHeap.Valid { next := 0, closed := [] } ∧
    ∃ w, runCalls
        [Call.setRootMetadata (some 1), Call.setRootMetadata (some 1),
         Call.addDirtyNode ⟨1, 0⟩, Call.getStatus rangeInOrder, Call.rmDirtyNode ⟨2, 0⟩]
        (newFolderBranchStatusKeeper sampleConfig sampleNodeCache { next := 0, closed := [] })
        = some w ∧
      w.fbsk.updateChan < w.heap.next ∧ w.fbsk.updateChan ∉ w.heap.closed ∧
      w.heap.closed.Nodup ∧
      w.heap.closed.length =
        (ChanHeap.mk 0 []).closed.length +
          effectiveCount
            [Call.setRootMetadata (some 1), Call.setRootMetadata (some 1),
             Call.addDirtyNode ⟨1, 0⟩, Call.getStatus rangeInOrder, Call.rmDirtyNode ⟨2, 0⟩]
            (newFolderBranchStatusKeeper sampleConfig sampleNodeCache
              { next := 0, closed := [] }) :=
  ⟨⟨by simp, by simp⟩,
   keeper_run_closes_once_per_effective_call sampleConfig sampleNodeCache
     { next := 0, closed := [] } _ ⟨by simp, by simp⟩⟩

/-- The run of the witness above closes two handles: the repeated
`setRootMetadata` and the removal of a node that is not dirty signal nothing. -/
theorem sample_run_effectiveCount :
    effectiveCount
      [Call.setRootMetadata (some 1), Call.setRootMetadata (some 1),
       Call.addDirtyNode ⟨1, 0⟩, Call.getStatus rangeInOrder, Call.rmDirtyNode ⟨2, 0⟩]
      (newFolderBranchStatusKeeper sampleConfig sampleNodeCache { next := 0, closed := [] })
      = 2 := by
  decide

/-- C8: `getStatus` returns an error exactly when head metadata is set and the
username lookup for its last modifying writer returns an error; then the status
is the zero value, the handle is nil and the error is the lookup's own. -/
theorem getStatus_error_iff_lookup_fails (ord : RangeOrder) (w : World) :
    ((getStatus ord w).1.err ≠ none ↔
      ∃ p, w.fbsk.md = some p ∧
        (w.fbsk.config.GetNormalizedUsername
          (w.fbsk.config.deref p).LastModifyingWriter).2 ≠ none) ∧
    (∀ e, (getStatus ord w).1.err = some e →
      (getStatus ord w).1.fbs = IFCERFTFolderBranchStatus.zero ∧
      (getStatus ord w).1.updateChan = none ∧
      ∃ p, w.fbsk.md = some p ∧
        (w.fbsk.config.GetNormalizedUsername
          (w.fbsk.config.deref p).LastModifyingWriter).2 = some e) := by
  cases hmd : w.fbsk.md with
  | none => simp [getStatus, statusHead, hmd]
  | some p =>
    rcases hl : w.fbsk.config.GetNormalizedUsername
      (w.fbsk.config.deref p).LastModifyingWriter with ⟨name, _ | err⟩
    · simp [getStatus, statusHead, hmd, hl]
    · simp [getStatus, statusHead, hmd, hl]

/-- C9 as stated fails: with two dirty nodes, two successful `getStatus` calls
with no mutation in between can list the dirty paths in different orders, so
the two snapshots are not equal. -/
theorem getStatus_snapshots_can_differ :
    (getStatus rangeInOrder sampleDirtyWorld).1.err = none ∧
    (getStatus rangeReversed (getStatus rangeInOrder sampleDirtyWorld).2).1.err = none ∧
    (getStatus rangeInOrder sampleDirtyWorld).1.fbs.DirtyPaths = ["a", "b"] ∧
    (getStatus rangeReversed (getStatus rangeInOrder sampleDirtyWorld).2).1.fbs.DirtyPaths
      = ["b", "a"] ∧
    (getStatus rangeInOrder sampleDirtyWorld).1.fbs ≠
      (getStatus rangeReversed (getStatus rangeInOrder sampleDirtyWorld).2).1.fbs := by
  decide

/-- C9, amended: a successful `getStatus` leaves the world as it was and returns
the current handle; a second call with no mutation in between succeeds as
well, returns the same handle and a snapshot equal to the first in every field
but `DirtyPaths`, which lists the same paths, possibly in another order (and
in the same order when both loops visit the map alike). -/
theorem getStatus_reads_only (ord1 ord2 : RangeOrder) (w : World)
    (h : (getStatus ord1 w).1.err = none) :
    (getStatus ord1 w).2 = w ∧
    (getStatus ord1 w).1.updateChan = some w.fbsk.updateChan ∧
    (getStatus ord2 (getStatus ord1 w).2).1.err = none ∧
    (getStatus ord2 (getStatus ord1 w).2).1.updateChan = (getStatus ord1 w).1.updateChan ∧
    { (getStatus ord2 (getStatus ord1 w).2).1.fbs with
        DirtyPaths := (getStatus ord1 w).1.fbs.DirtyPaths } = (getStatus ord1 w).1.fbs ∧
    ((getStatus ord2 (getStatus ord1 w).2).1.fbs.DirtyPaths).Perm
      (getStatus ord1 w).1.fbs.DirtyPaths ∧
    (ord2.visit w.fbsk.dirtyNodes = ord1.visit w.fbsk.dirtyNodes →
      (getStatus ord2 (getStatus ord1 w).2).1 = (getStatus ord1 w).1) := by
  have hw : ∀ ord, (getStatus ord w).2 = w := by
    intro ord
    unfold getStatus
    split <;> rfl
  rw [hw ord1]
  cases hs : statusHead w.fbsk IFCERFTFolderBranchStatus.zero with
  | error e => simp [getStatus, hs] at h
  | ok fbs =>
    have hperm : ((ord2.visit w.fbsk.dirtyNodes).map
        (fun kv => w.fbsk.nodeCache.PathFromNode kv.2)).Perm
        ((ord1.visit w.fbsk.dirtyNodes).map (fun kv => w.fbsk.nodeCache.PathFromNode kv.2)) :=
      ((ord2.perm _).trans (ord1.perm _).symm).map _
    refine ⟨rfl, ?_, ?_, ?_, ?_, ?_, ?_⟩
    · simp [getStatus, hs]
    · simp [getStatus, hs]
    · simp [getStatus, hs]
    · simp only [getStatus, hs, statusChains]
      cases w.fbsk.unmerged <;> cases w.fbsk.merged <;> rfl
    · simp only [getStatus, hs, statusChains, convertNodesToPathsLocked]
      cases w.fbsk.unmerged <;> cases w.fbsk.merged <;> exact hperm
    · intro hv
      simp only [getStatus, hs, convertNodesToPathsLocked, hv]

theorem getStatus_reads_only_witness :
    (getStatus rangeInOrder sampleDirtyWorld).1.err = none ∧
    (getStatus rangeInOrder sampleDirtyWorld).2 = sampleDirtyWorld ∧
    (getStatus rangeInOrder sampleDirtyWorld).1.updateChan
      = some sampleDirtyWorld.fbsk.updateChan ∧
    (getStatus rangeReversed (getStatus rangeInOrder sampleDirtyWorld).2).1.err = none :=
  ⟨by decide,
   (getStatus_reads_only rangeInOrder rangeReversed sampleDirtyWorld (by decide)).1,
   (getStatus_reads_only rangeInOrder rangeReversed sampleDirtyWorld (by decide)).2.1,
   (getStatus_reads_only rangeInOrder rangeReversed sampleDirtyWorld (by decide)).2.2.1⟩

/-! ## The chain builder: the claims -/

/-- C1: in every index that `newCRChains` returns without error, the keys of
each map are distinct, `byOriginal` and `byMostRecent` have the same number of
entries, and for every chain filed in `byOriginal` the entry of `byMostRecent`
at the chain's most-recent pointer exists and is the same chain object (the
same arena position) as the entry of `byOriginal` at the chain's original
pointer. -/
theorem newCRChains_maps_agree (rmds : List IFCERFTRootMetadata) (cc : IFCERFTCrChains)
    (h : newCRChains rmds = .ok cc) :
    (cc.byOriginal.map Prod.fst).Nodup ∧ (cc.byMostRecent.map Prod.fst).Nodup ∧
    cc.byOriginal.length = cc.byMostRecent.length ∧
    ∀ p id, mapLookup p cc.byOriginal = some id →
      id < cc.chains.length ∧
      (cc.chainAt id).original = p ∧
      mapLookup (cc.chainAt id).mostRecent cc.byMostRecent = some id ∧
      mapLookup (cc.chainAt id).original cc.byOriginal = some id ∧
      cc.lookupMostRecent (cc.chainAt id).mostRecent = some (cc.chainAt id) ∧
      cc.lookupOriginal (cc.chainAt id).original = some (cc.chainAt id) := by
  obtain ⟨b1, r, hinv, rfl⟩ := newCRChainsLoop_finish rmds _ _ _ chainBuilder.Inv.empty h
  obtain ⟨hlen, hall⟩ := chainBuilder.finish_spec hinv r
  refine ⟨hinv.keysO.sublist ((List.filter_sublist _).map Prod.fst),
    hinv.keysM.sublist ((List.filter_sublist _).map Prod.fst), hlen, ?_⟩
  intro p id hl
  obtain ⟨h1, h2, h3, h4⟩ := hall p id (mem_of_mapLookup hl)
  refine ⟨h1, h2, h3, h4, ?_, ?_⟩
  · simp only [IFCERFTCrChains.lookupMostRecent, h3, Option.map_some']
  · simp only [IFCERFTCrChains.lookupOriginal, h4, Option.map_some']

theorem newCRChains_maps_agree_witness :
    ∃ cc, newCRChains Collapse.rmds = .ok cc ∧
      (cc.byOriginal.map Prod.fst).Nodup ∧ (cc.byMostRecent.map Prod.fst).Nodup ∧
      cc.byOriginal.length = cc.byMostRecent.length ∧
      ∀ p id, mapLookup p cc.byOriginal = some id →
        id < cc.chains.length ∧
        (cc.chainAt id).original = p ∧
        mapLookup (cc.chainAt id).mostRecent cc.byMostRecent = some id ∧
        mapLookup (cc.chainAt id).original cc.byOriginal = some id ∧
        cc.lookupMostRecent (cc.chainAt id).mostRecent = some (cc.chainAt id) ∧
        cc.lookupOriginal (cc.chainAt id).original = some (cc.chainAt id) :=
  ⟨_, rfl, newCRChains_maps_agree Collapse.rmds _ rfl⟩

/-- C2: let a revision hold k operations, and let k revisions hold one of those
operations each, in the same order, the last of them ending at the single
revision's root.  Whenever `newCRChains` accepts the k revisions (they are
causally chained), it accepts the single revision and returns the very same
index: equal arena, `byOriginal`, `byMostRecent`, `renamedOriginals` and
`originalRoot`.  Conversely, when the single revision is accepted, the k
revisions give the same index unless they fail the root-continuity check. -/
theorem split_revision_same_chains (multi : List IFCERFTRootMetadata)
    (big : IFCERFTRootMetadata)
    (hone : multi.map (fun r => r.ops) = big.ops.map (fun o => [o]))
    (hlast : multi.getLast?.map (fun r => r.dataDir) = some big.dataDir) :
    (∀ mcc, newCRChains multi = .ok mcc →
      ∃ cc, newCRChains [big] = .ok cc ∧ cc.byOriginal = mcc.byOriginal ∧
        cc.byMostRecent = mcc.byMostRecent ∧ cc.originalRoot = mcc.originalRoot ∧ cc = mcc) ∧
    (∀ cc, newCRChains [big] = .ok cc →
      newCRChains multi = .ok cc ∨ ∃ r, newCRChains multi = .error (.rootMismatch r)) := by
  obtain ⟨h1, h2⟩ := newCRChains_split multi big (allOps_of_singletons multi _ hone) hlast
  exact ⟨fun mcc e => ⟨mcc, h1 mcc e, rfl, rfl, rfl, rfl⟩, h2⟩

theorem split_revision_same_chains_witness :
    MultiOps.multiRmds.map (fun r => r.ops)
      = (testRmd MultiOps.ops (MultiOps.step5.1.exp MultiOps.rootPtrUnref)).ops.map
          (fun o => [o]) ∧
    ∃ mcc, newCRChains MultiOps.multiRmds = .ok mcc ∧
      ∃ cc, newCRChains MultiOps.rmds = .ok cc ∧ cc.byOriginal = mcc.byOriginal ∧
        cc.byMostRecent = mcc.byMostRecent ∧ cc.originalRoot = mcc.originalRoot ∧ cc = mcc :=
  ⟨by decide, _, rfl,
   (split_revision_same_chains MultiOps.multiRmds
      (testRmd MultiOps.ops (MultiOps.step5.1.exp MultiOps.rootPtrUnref))
      (by decide) (by decide)).1 _ rfl⟩

theorem mapLookup_of_filter {β : Type} {k : Nat} {v : β} {m : List (Nat × β)}
    (f : Nat × β → Bool) (hn : (m.map Prod.fst).Nodup)
    (h : mapLookup k (m.filter f) = some v) : mapLookup k m = some v :=
  mapLookup_of_mem hn (List.mem_filter.1 (mem_of_mapLookup h)).1

/-- An accepted list of revisions: the index is the finished state after all
their operations. -/
theorem newCRChains_processed (rmds : List IFCERFTRootMetadata) (cc : IFCERFTCrChains)
    (h : newCRChains rmds = .ok cc) :
    ∃ (b : chainBuilder) (root : Nat),
      chainBuilder.empty.processOps (allOps rmds) = .ok b ∧ cc = b.finish root := by
  cases rmds with
  | nil =>
    simp only [newCRChains, newCRChainsLoop, Except.ok.injEq] at h
    exact ⟨chainBuilder.empty, _, rfl, h.symm⟩
  | cons rmd rest =>
    simp only [newCRChains, newCRChainsLoop] at h
    cases hp : chainBuilder.empty.processOps rmd.ops with
    | error err => simp [hp] at h
    | ok b2 =>
      simp only [hp] at h
      obtain ⟨b1, h1, h2, -⟩ := newCRChainsLoop_some rest b2 _ cc h
      refine ⟨b1, _, ?_, h2⟩
      simp only [allOps, chainBuilder.processOps_append, hp, h1]

/-- C7: let the operations of the revisions given to `newCRChains` be, in
order, any `pre`, then a Create of name X in a directory, then any `mid` that
takes X away from that directory neither by a Remove nor by a Rename, then a
Remove of X whose directory pointer resolves to the chain the Create went to
(the next Remove of X in that directory), then any `post`,
and let `newCRChains` return an index.  Right after the Remove the chain holds
what it held before it minus the Create of X: neither the Create nor the
Remove is on it.  If at the end nothing is on that chain, the chain is in
neither map of the index: its original pointer is not a key of `byOriginal`
and its most-recent pointer is not a key of `byMostRecent`.  Where the chain
is still filed, it carries the operations the builder left on it. -/
theorem create_then_remove_cancels (rmds : List IFCERFTRootMetadata) (cc : IFCERFTCrChains)
    (pre mid post : List IFCERFTOps) (X : String) (d d' : IFCERFTBlockPointer)
    (t : IFCERFTEntryType) (r : Bool) (us us' : List blockUpdate)
    (b0 b1 b2 b3 b4 : chainBuilder)
    (hcc : newCRChains rmds = .ok cc)
    (hops : allOps rmds = pre ++ (.createOp X d t r us :: (mid ++ (.rmOp X d' us' :: post))))
    (hpre : chainBuilder.empty.processOps pre = .ok b0)
    (hc : b0.makeChainForOp (.createOp X d t r us) = .ok b1)
    (hm : b1.processOps mid = .ok b2)
    (hmid : b1.removedIn X (b0.originalOf d) mid = false)
    (hsame : b2.originalOf d' = b0.originalOf d)
    (hr : b2.makeChainForOp (.rmOp X d' us') = .ok b3)
    (hpost : b3.processOps post = .ok b4) :
    b3.opsOf (b0.originalOf d)
      = (b2.opsOf (b0.originalOf d)).filter (fun o => !o.isCreateOf X) ∧
    (b3.opsOf (b0.originalOf d)).any (fun o => o.isCreateOf X) = false ∧
    (∀ id, mapLookup (b0.originalOf d) cc.byOriginal = some id →
      (cc.chainAt id).ops = b4.opsOf (b0.originalOf d)) ∧
    (b4.opsOf (b0.originalOf d) = [] →
      mapLookup (b0.originalOf d) cc.byOriginal = none ∧
      ∃ id, mapLookup (b0.originalOf d) b4.byOriginal = some id ∧
        mapLookup (b4.chainAt id).mostRecent cc.byMostRecent = none) := by
  have h0 : b0.Inv := chainBuilder.processOps_inv _ chainBuilder.Inv.empty hpre
  obtain ⟨h1, hops1, -⟩ := chainBuilder.makeChainForOp_single h0
    (rfl : (IFCERFTOps.createOp X d t r us).chainOps = [(d, .createOp X d t r us)]) hc
  have hany1 : (b1.opsOf (b0.originalOf d)).any (fun o => o.isCreateOf X) = true := by
    rw [hops1]
    simp [collapseInsert, IFCERFTOps.isCreateOf]
  have h2 : b2.Inv := chainBuilder.processOps_inv _ h1 hm
  have hany2 := chainBuilder.processOps_keeps_create mid X (b0.originalOf d) h1 hm hmid hany1
  obtain ⟨h3, hops3, hcanc3⟩ := chainBuilder.makeChainForOp_single h2
    (rfl : (IFCERFTOps.rmOp X d' us').chainOps = [(d', .rmOp X d' us')]) hr
  have hops3' : b3.opsOf (b0.originalOf d)
      = (b2.opsOf (b0.originalOf d)).filter (fun o => !o.isCreateOf X) := by
    rw [hops3, hsame]
    simp only [if_true, collapseInsert, hany2]
  have hcanc3' : b3.wasCancelled (b0.originalOf d) = true := by
    rw [hcanc3, hsame]
    simp [collapseInsert, hany2]
  have h4 : b4.Inv := chainBuilder.processOps_inv _ h3 hpost
  have hcanc4 := chainBuilder.processOps_wasCancelled post (b0.originalOf d) h3 hpost hcanc3'
  have hall : chainBuilder.empty.processOps (allOps rmds) = .ok b4 := by
    rw [hops, chainBuilder.processOps_append, hpre]
    simp only [chainBuilder.processOps, hc]
    rw [chainBuilder.processOps_append, hm]
    simp only [chainBuilder.processOps, hr, hpost]
  obtain ⟨b, root, hb, rfl⟩ := newCRChains_processed rmds cc hcc
  rw [hall] at hb
  cases hb
  refine ⟨hops3', ?_, ?_, ?_⟩
  · rw [hops3']
    simp [List.any_filter]
  · intro id hid
    have := mapLookup_of_filter _ h4.keysO hid
    simp only [chainBuilder.opsOf, this]
    rfl
  · intro hempty
    cases hl : mapLookup (b0.originalOf d) b4.byOriginal with
    | none => simp [chainBuilder.wasCancelled, hl] at hcanc4
    | some id =>
      obtain ⟨k1, k2⟩ := chainBuilder.finish_pruned h4 root _ id hl hcanc4 hempty
      exact ⟨k1, id, rfl, k2⟩

theorem create_then_remove_cancels_witness :
    ∃ cc, newCRChains [CreateRemove.rmd] = .ok cc ∧
      mapLookup Collapse.dir1Unref cc.byOriginal = none ∧
      ∃ id, mapLookup Collapse.dir1Unref
          (chainBuilder.after CreateRemove.rmd.ops).byOriginal = some id ∧
        mapLookup ((chainBuilder.after CreateRemove.rmd.ops).chainAt id).mostRecent
          cc.byMostRecent = none :=
  ⟨_, rfl,
    (create_then_remove_cancels [CreateRemove.rmd] _ [] [Collapse.step2.2] [] "file2"
      Collapse.dir1Unref (Collapse.step2.1.exp Collapse.dir1Unref) .File false
      Collapse.step1.2.Updates CreateRemove.rmStep.2.Updates
      chainBuilder.empty (chainBuilder.after [Collapse.step1.2])
      (chainBuilder.after [Collapse.step1.2, Collapse.step2.2])
      (chainBuilder.after CreateRemove.rmd.ops) (chainBuilder.after CreateRemove.rmd.ops)
      rfl (by decide) (by decide) (by decide) (by decide) (by decide) (by decide) (by decide)
      (by decide)).2.2.2 (by decide)⟩

/-- C10: a single revision holding one Rename of object F from `old` in dirA to
`new` in dirB, with pointer updates for root, dirA and dirB (six distinct
pointers) and the new root as its root.  `newCRChains` succeeds; the index has
exactly three chains, filed under root, dirA and dirB; `originalRoot` is the
root's pre-revision pointer; dirB's chain holds exactly one operation, a
Create of `new` marked renamed; dirA's chain holds exactly one operation, a
Remove of `old` with no updates; the root's chain holds none; and
`renamedOriginals` is exactly the one entry for F, from dirA and `old` to dirB
and `new`. -/
theorem single_rename_chains (root dirA dirB F root' dirA' dirB' : IFCERFTBlockPointer)
    (oldName newName : String) (t : IFCERFTEntryType) (rmd : IFCERFTRootMetadata)
    (hd : [root, dirA, dirB, root', dirA', dirB'].Nodup)
    (hops : rmd.ops = [.renameOp oldName dirA newName dirB F t
      [⟨root, root'⟩, ⟨dirA, dirA'⟩, ⟨dirB, dirB'⟩]])
    (hroot : rmd.dataDir = root') :
    ∃ cc, newCRChains [rmd] = .ok cc ∧
      cc.byOriginal.length = 3 ∧ cc.byMostRecent.length = 3 ∧
      cc.originalRoot = root ∧
      cc.lookupOriginal root = some ⟨[], root, root'⟩ ∧
      cc.lookupOriginal dirA = some ⟨[.rmOp oldName dirA []], dirA, dirA'⟩ ∧
      cc.lookupOriginal dirB = some ⟨[.createOp newName dirB t true []], dirB, dirB'⟩ ∧
      cc.lookupMostRecent root' = cc.lookupOriginal root ∧
      cc.lookupMostRecent dirA' = cc.lookupOriginal dirA ∧
      cc.lookupMostRecent dirB' = cc.lookupOriginal dirB ∧
      cc.renamedOriginals = [(F, ⟨dirA, oldName, dirB, newName⟩)] := by
  simp only [List.nodup_cons, List.mem_cons, List.mem_singleton, not_or, List.not_mem_nil,
    not_false_eq_true, List.nodup_nil, and_true] at hd
  obtain ⟨⟨h1, h2, h3, h4, h5⟩, ⟨h6, h7, h8, h9⟩, ⟨h10, h11, h12⟩, ⟨h13, h14⟩, h15⟩ := hd
  have hF : (match if dirA = F then some 0 else if dirB = F then some 1 else none with
      | some id =>
        ([({ ops := [IFCERFTOps.rmOp oldName dirA []], original := dirA, mostRecent := dirA } :
              crChain),
          { ops := [IFCERFTOps.createOp newName dirB t true []], original := dirB,
            mostRecent := dirB }][id]?.getD { ops := [], original := 0, mostRecent := 0 }).original
      | none => F) = F := by
    by_cases ha : dirA = F
    · simp [ha]
    · by_cases hb : dirB = F
      · simp [ha, hb]
      · simp [ha, hb]
  have key : newCRChains [rmd] = .ok
      { chains := [⟨[.rmOp oldName dirA []], dirA, dirA'⟩,
                   ⟨[.createOp newName dirB t true []], dirB, dirB'⟩, ⟨[], root, root'⟩],
        byOriginal := [(dirA, 0), (dirB, 1), (root, 2)],
        byMostRecent := [(root', 2), (dirA', 0), (dirB', 1)],
        renamedOriginals := [(F, ⟨dirA, oldName, dirB, newName⟩)],
        originalRoot := root } := by
    simp [newCRChains, newCRChainsLoop, chainBuilder.processOps, chainBuilder.makeChainForOp,
      chainBuilder.insertOps, chainBuilder.recordRenameOf, IFCERFTOps.chainOps,
      chainBuilder.insertOp, chainBuilder.chainFor, chainBuilder.applyUpdates,
      chainBuilder.applyUpdate, chainBuilder.setMostRecent, chainBuilder.recordRename,
      chainBuilder.originalOf, chainBuilder.finish, chainBuilder.pruned, chainBuilder.chainAt,
      chainBuilder.empty, crChain.addOp, collapseInsert, mapLookup, mapInsert, mapErase,
      IFCERFTOps.Updates, IFCERFTOps.isCreateOf, hops, hroot,
      h1, h2, h3, h4, h5, h6, h7, h8, h9, h10, h11, h12, h13, h14, h15,
      Ne.symm h1, Ne.symm h2, Ne.symm h3, Ne.symm h4, Ne.symm h5, Ne.symm h6, Ne.symm h7,
      Ne.symm h8, Ne.symm h9, Ne.symm h10, Ne.symm h11, Ne.symm h12, Ne.symm h13, Ne.symm h14,
      Ne.symm h15, hF]
  refine ⟨_, key, rfl, rfl, rfl, ?_, ?_, ?_, ?_, ?_, ?_, rfl⟩
  · simp [IFCERFTCrChains.lookupOriginal, IFCERFTCrChains.chainAt, mapLookup, Ne.symm h1,
      Ne.symm h2]
  · simp [IFCERFTCrChains.lookupOriginal, IFCERFTCrChains.chainAt, mapLookup]
  · simp [IFCERFTCrChains.lookupOriginal, IFCERFTCrChains.chainAt, mapLookup, h6]
  · simp [IFCERFTCrChains.lookupOriginal, IFCERFTCrChains.lookupMostRecent,
      IFCERFTCrChains.chainAt, mapLookup, Ne.symm h1, Ne.symm h2]
  · simp [IFCERFTCrChains.lookupOriginal, IFCERFTCrChains.lookupMostRecent,
      IFCERFTCrChains.chainAt, mapLookup, h13]
  · simp [IFCERFTCrChains.lookupOriginal, IFCERFTCrChains.lookupMostRecent,
      IFCERFTCrChains.chainAt, mapLookup, h6, h14, h15]

theorem single_rename_chains_witness :
    ∃ cc, newCRChains RenameOp.rmds = .ok cc ∧
      cc.byOriginal.length = 3 ∧ cc.byMostRecent.length = 3 ∧
      cc.originalRoot = 42 ∧
      cc.lookupOriginal 42 = some ⟨[], 42, 46⟩ ∧
      cc.lookupOriginal 43 = some ⟨[.rmOp "old" 43 []], 43, 47⟩ ∧
      cc.lookupOriginal 44 = some ⟨[.createOp "new" 44 .File true []], 44, 48⟩ ∧
      cc.lookupMostRecent 46 = cc.lookupOriginal 42 ∧
      cc.lookupMostRecent 47 = cc.lookupOriginal 43 ∧
      cc.lookupMostRecent 48 = cc.lookupOriginal 44 ∧
      cc.renamedOriginals = [(45, ⟨43, "old", 44, "new"⟩)] :=
  single_rename_chains 42 43 44 45 46 47 48 "old" "new" .File
    (testRmd [RenameOp.ro] (RenameOp.step1.1.exp RenameOp.rootPtrUnref))
    (by decide) (by decide) (by decide)

/-- C6 as stated fails, and first on the double rename of
`TestCRChainsCollapse` itself.  There file4 is created in dir1 and then renamed
twice, root/dir1/file4 to root/dir1/file5 to root/dir1/file3, so dirSrc, dirX
and dirY are all dir1 and name0 is file4.  The rename entry is as claimed, and
dir1's chain holds the renamed Create of file3, but it holds nothing else,
which is what the test expects of it (`testCRCheckOps` with the one expected
operation `co1`): the remove half of the first rename cancelled the pending
Create of file4, so dirSrc's chain holds no Remove of name0.  Second, on the
tree root/dirA, root/dirB, root/dirC the revision createfile root/dirA/name0,
rename root/dirA/name0 root/dirB/name1, rename root/dirB/name1 root/dirC/name2
(dirSrc is dirA, dirX is dirB, dirY is dirC) ends with no operation on the
chain of dirB and none on the chain of dirA: the Create of name2 stands on
dirC's chain, the Create and Remove of name1 cancelled on dirB's, and the
Remove of name0 cancelled the Create of name0 on dirA's.  Both emptied chains
are pruned from the index. -/
theorem two_renames_counterexample :
    (∃ cc, newCRChains Collapse.rmds = .ok cc ∧
      mapLookup Collapse.file4Ptr cc.renamedOriginals
        = some ⟨Collapse.dir1Unref, "file4", Collapse.dir1Unref, "file3"⟩ ∧
      testCRCheckOps cc Collapse.dir1Unref
        [.createOp "file3" (Collapse.step8.1.exp Collapse.dir1Unref) .File true []] = true ∧
      (cc.lookupOriginal Collapse.dir1Unref).map (fun c => c.ops)
        = some [.createOp "file3" (Collapse.step8.1.exp Collapse.dir1Unref) .File true []] ∧
      (cc.lookupOriginal Collapse.dir1Unref).map
        (fun c => c.ops.any (fun o => o.removes "file4")) = some false) ∧
    (∃ cc, newCRChains TwoRenames.rmds = .ok cc ∧
      mapLookup TwoRenames.objPtr cc.renamedOriginals
        = some ⟨TwoRenames.dirAUnref, "name0", TwoRenames.dirCUnref, "name2"⟩ ∧
      (chainBuilder.after [TwoRenames.step1.2, TwoRenames.step2.2, TwoRenames.step3.2]).opsOf
        TwoRenames.dirBUnref = [] ∧
      (chainBuilder.after [TwoRenames.step1.2, TwoRenames.step2.2, TwoRenames.step3.2]).opsOf
        TwoRenames.dirAUnref = [] ∧
      cc.lookupOriginal TwoRenames.dirBUnref = none ∧
      cc.lookupOriginal TwoRenames.dirAUnref = none ∧
      (cc.lookupOriginal TwoRenames.dirCUnref).map (fun c => c.ops)
        = some [.createOp "name2" TwoRenames.dirCUnref .File true []]) :=
  ⟨⟨_, rfl, by decide, by decide, by decide, by decide⟩,
   ⟨_, rfl, by decide, by decide, by decide, by decide, by decide, by decide⟩⟩

/-- A Remove after the two renames takes the Create of name2 away again: the
rename entry stays, and dirC's chain, left empty, is pruned. -/
theorem two_renames_then_remove :
    ∃ cc, newCRChains [TwoRenames.removedRmd] = .ok cc ∧
      mapLookup TwoRenames.objPtr cc.renamedOriginals
        = some ⟨TwoRenames.dirAUnref, "name0", TwoRenames.dirCUnref, "name2"⟩ ∧
      cc.lookupOriginal TwoRenames.dirCUnref = none :=
  ⟨_, rfl, by decide, by decide⟩

theorem any_eq_false_iff_filter_nil (l : List IFCERFTOps) (p : IFCERFTOps → Bool) :
    l.any p = false ↔ l.filter p = [] := by
  induction l with
  | nil => simp
  | cons a rest ih =>
    cases hp : p a <;> simp [List.filter, hp, ih]

/-- C6, amended: let the operations of the revisions given to `newCRChains` be,
in order, any `pre`, then a Rename R1 of an object from dirSrc/name0 to
dirX/name1, the object having no rename entry before it, then any `mid` that
neither renames the object nor takes name1 away from dirX, then a Rename R2
from name1 to dirY/name2 whose source directory pointer resolves to dirX's
chain and whose object resolves to the same original, then any `post`, and
let `newCRChains` return an index.  Then, in original pointers:
if `post` holds no Rename of the object, `renamedOriginals[object]` is
{dirSrc, name0, dirY, name2}, first source to last destination, never name1;
if no operation of `post` records a Create or a Remove of name2 on dirY's
chain, dirY's chain is in the index and its only Create of name2 is the one
marked renamed, with no updates (dirY's chain is dirX's chain only when dirX
and dirY are the same directory);
if no operation of `post` records a Create or a Remove of name1 on dirX's
chain, and dirY is not dirX or name2 is not name1, dirX's chain, where the
index still files it, holds no Create of name1;
and if no Create of name0 was pending on dirSrc's chain when R1 was processed,
dirSrc's chain is in the index and holds the Remove of name0 with no
updates. -/
theorem renamed_twice_first_source_last_destination (rmds : List IFCERFTRootMetadata)
    (cc : IFCERFTCrChains) (pre mid post : List IFCERFTOps) (name0 name1 name2 : String)
    (dirSrc dirX dirX' dirY obj obj' : IFCERFTBlockPointer) (t t' : IFCERFTEntryType)
    (us1 us2 : List blockUpdate) (b0 b1 b2 b3 b4 : chainBuilder)
    (hcc : newCRChains rmds = .ok cc)
    (hops : allOps rmds = pre ++ (.renameOp name0 dirSrc name1 dirX obj t us1 ::
      (mid ++ (.renameOp name1 dirX' name2 dirY obj' t' us2 :: post))))
    (hpre : chainBuilder.empty.processOps pre = .ok b0)
    (h1 : b0.makeChainForOp (.renameOp name0 dirSrc name1 dirX obj t us1) = .ok b1)
    (hm : b1.processOps mid = .ok b2)
    (hmid : b1.removedIn name1 (b0.originalOf dirX) mid = false)
    (hmid' : b1.renamedIn (b0.originalOf obj) mid = false)
    (hX : b2.originalOf dirX' = b0.originalOf dirX)
    (hobj : b2.originalOf obj' = b0.originalOf obj)
    (hfirst : mapLookup (b0.originalOf obj) b0.renamedOriginals = none)
    (h2 : b2.makeChainForOp (.renameOp name1 dirX' name2 dirY obj' t' us2) = .ok b3)
    (hpost : b3.processOps post = .ok b4) :
    (b3.renamedIn (b0.originalOf obj) post = false →
      mapLookup (b0.originalOf obj) cc.renamedOriginals
        = some ⟨b0.originalOf dirSrc, name0, b2.originalOf dirY, name2⟩) ∧
    (b3.namedIn name2 (b2.originalOf dirY) post = false →
      ∃ id, mapLookup (b2.originalOf dirY) cc.byOriginal = some id ∧
        (cc.chainAt id).ops.filter (fun o => o.isCreateOf name2)
          = [.createOp name2 dirY t' true []]) ∧
    (b3.namedIn name1 (b0.originalOf dirX) post = false →
      (b2.originalOf dirY ≠ b0.originalOf dirX ∨ name2 ≠ name1) →
      ∀ id, mapLookup (b0.originalOf dirX) cc.byOriginal = some id →
        (cc.chainAt id).ops.any (fun o => o.isCreateOf name1) = false) ∧
    ((b0.opsOf (b0.originalOf dirSrc)).any (fun o => o.isCreateOf name0) = false →
      ∃ id, mapLookup (b0.originalOf dirSrc) cc.byOriginal = some id ∧
        .rmOp name0 dirSrc [] ∈ (cc.chainAt id).ops) := by
  have i0 : b0.Inv := chainBuilder.processOps_inv _ chainBuilder.Inv.empty hpre
  obtain ⟨i1, hops1, hren1⟩ := chainBuilder.makeChainForOp_rename i0 _ _ _ _ _ _ _ h1
  have i2 : b2.Inv := chainBuilder.processOps_inv _ i1 hm
  obtain ⟨i3, hops3, hren3⟩ := chainBuilder.makeChainForOp_rename i2 _ _ _ _ _ _ _ h2
  have i4 : b4.Inv := chainBuilder.processOps_inv _ i3 hpost
  obtain ⟨hrenm, hkeepm⟩ := chainBuilder.processOps_frame mid i1 hm
  obtain ⟨hrenp, hkeepp⟩ := chainBuilder.processOps_frame post i3 hpost
  have hnotc : ∀ n, (IFCERFTOps.rmOp name0 dirSrc []).isCreateOf n = false := fun _ => rfl
  -- the create half of R1 is pending on dirX's chain until R2
  have hany1 : (b1.opsOf (b0.originalOf dirX)).any (fun o => o.isCreateOf name1) = true := by
    rw [hops1]
    simp [collapseInsert, IFCERFTOps.isCreateOf]
  have hany2 := chainBuilder.processOps_keeps_create mid name1 (b0.originalOf dirX) i1 hm
    hmid hany1
  -- the rename entry
  have hren2 : mapLookup (b0.originalOf obj) b2.renamedOriginals
      = some ⟨b0.originalOf dirSrc, name0, b0.originalOf dirX, name1⟩ := by
    rw [hrenm _ hmid', hren1, hfirst]
    exact mapLookup_insert_self _ _ _
  have hren3' : mapLookup (b0.originalOf obj) b3.renamedOriginals
      = some ⟨b0.originalOf dirSrc, name0, b2.originalOf dirY, name2⟩ := by
    rw [hren3, hobj, hren2]
    exact mapLookup_insert_self _ _ _
  -- dirY's chain
  have hY : (b3.opsOf (b2.originalOf dirY)).filter (fun o => o.isCreateOf name2)
      = [.createOp name2 dirY t' true []] := by
    rw [hops3]
    simp only [if_true, collapseInsert, List.filter_append, List.filter_filter]
    simp [IFCERFTOps.isCreateOf]
  -- dirX's chain
  have hXc : (b2.originalOf dirY ≠ b0.originalOf dirX ∨ name2 ≠ name1) →
      (b3.opsOf (b0.originalOf dirX)).any (fun o => o.isCreateOf name1) = false := by
    intro hcond
    have hfil : ((b2.opsOf (b0.originalOf dirX)).filter
        (fun o => !o.isCreateOf name1)).any (fun o => o.isCreateOf name1) = false := by
      simp [List.any_filter]
    rw [hops3, hX]
    by_cases hxy : b0.originalOf dirX = b2.originalOf dirY
    · have hn : ¬ name2 = name1 := by
        rcases hcond with hc | hc
        · exact absurd hxy.symm hc
        · exact hc
      simp only [hxy, if_true, collapseInsert]
      rw [hxy] at hany2
      simp only [hany2, if_true, List.any_append, Bool.or_eq_false_iff]
      constructor
      · rw [List.any_eq_false]
        intro x hx
        have hx1 := (List.mem_filter.1 (List.mem_filter.1 hx).1).2
        simpa using hx1
      · simp [IFCERFTOps.isCreateOf, hn]
    · simp only [hxy, if_false, if_true, collapseInsert, hany2]
      exact hfil
  have hall : chainBuilder.empty.processOps (allOps rmds) = .ok b4 := by
    rw [hops, chainBuilder.processOps_append, hpre]
    simp only [chainBuilder.processOps, h1]
    rw [chainBuilder.processOps_append, hm]
    simp only [chainBuilder.processOps, h2, hpost]
  obtain ⟨b, root, hb, rfl⟩ := newCRChains_processed rmds cc hcc
  rw [hall] at hb
  cases hb
  refine ⟨?_, ?_, ?_, ?_⟩
  · intro hp
    exact (hrenp _ hp).trans hren3'
  · intro hp
    have hY4 := (chainBuilder.processOps_filter_create post name2 _ i3 hpost hp).trans hY
    have hYne : b4.opsOf (b2.originalOf dirY) ≠ [] := by
      intro hnil
      rw [hnil] at hY4
      exact absurd hY4 (by simp)
    obtain ⟨id, hid, hopsid⟩ := chainBuilder.finish_kept i4 root _ hYne
    exact ⟨id, hid, by rw [hopsid]; exact hY4⟩
  · intro hp hcond id hid
    have := mapLookup_of_filter _ i4.keysO hid
    have hopsid : ((b4.finish root).chainAt id).ops = b4.opsOf (b0.originalOf dirX) := by
      simp only [chainBuilder.opsOf, this]
      rfl
    rw [hopsid, any_eq_false_iff_filter_nil,
      chainBuilder.processOps_filter_create post name1 _ i3 hpost hp,
      ← any_eq_false_iff_filter_nil]
    exact hXc hcond
  · intro hpend
    -- the remove half of R1 stays on dirSrc's chain
    have hrm0 : IFCERFTOps.rmOp name0 dirSrc [] ∈
        (collapseInsert (b0.opsOf (b0.originalOf dirSrc)) (.rmOp name0 dirSrc [])).1 := by
      simp [collapseInsert, hpend]
    have hrm1 : IFCERFTOps.rmOp name0 dirSrc [] ∈ b1.opsOf (b0.originalOf dirSrc) := by
      rw [hops1]
      by_cases hsx : b0.originalOf dirSrc = b0.originalOf dirX
      · simp only [hsx, if_true]
        rw [hsx] at hrm0
        exact collapseInsert_keeps_other _ _ _ hrm0 hnotc
      · simp only [hsx, if_false, if_true]
        exact hrm0
    have hrm2 := hkeepm _ _ hrm1 hnotc
    have hrm3 := (chainBuilder.makeChainForOp_frame i2 h2).2 _ _ hrm2 hnotc
    have hrm4 := hkeepp _ _ hrm3 hnotc
    have hne : b4.opsOf (b0.originalOf dirSrc) ≠ [] := List.ne_nil_of_mem hrm4
    obtain ⟨id, hid, hopsid⟩ := chainBuilder.finish_kept i4 root _ hne
    exact ⟨id, hid, by rw [hopsid]; exact hrm4⟩

theorem renamed_twice_first_source_last_destination_witness :
    (∃ cc, newCRChains [TwoRenames.fullRmd] = .ok cc ∧
      mapLookup TwoRenames.objPtr cc.renamedOriginals
        = some ⟨TwoRenames.dirAUnref, "name0", TwoRenames.dirCUnref, "name2"⟩ ∧
      (∃ id, mapLookup TwoRenames.dirCUnref cc.byOriginal = some id ∧
        (cc.chainAt id).ops.filter (fun o => o.isCreateOf "name2")
          = [.createOp "name2" (TwoRenames.full3.1.exp TwoRenames.dirCUnref) .File true []]) ∧
      (∀ id, mapLookup TwoRenames.dirBUnref cc.byOriginal = some id →
        (cc.chainAt id).ops.any (fun o => o.isCreateOf "name1") = false) ∧
      (∃ id, mapLookup TwoRenames.dirAUnref cc.byOriginal = some id ∧
        .rmOp "name0" (TwoRenames.full1.1.exp TwoRenames.dirAUnref) [] ∈ (cc.chainAt id).ops)) ∧
    (∃ cc, newCRChains Collapse.rmds = .ok cc ∧
      mapLookup Collapse.file4Ptr cc.renamedOriginals
        = some ⟨Collapse.dir1Unref, "file4", Collapse.dir1Unref, "file3"⟩ ∧
      (∃ id, mapLookup Collapse.dir1Unref cc.byOriginal = some id ∧
        (cc.chainAt id).ops.filter (fun o => o.isCreateOf "file3")
          = [.createOp "file3" (Collapse.step8.1.exp Collapse.dir1Unref) .File true []]) ∧
      (∀ id, mapLookup Collapse.dir1Unref cc.byOriginal = some id →
        (cc.chainAt id).ops.any (fun o => o.isCreateOf "file5") = false)) := by
  obtain ⟨k1, k2, k3, k4⟩ :=
    renamed_twice_first_source_last_destination [TwoRenames.fullRmd]
      (chainBuilder.after TwoRenames.fullRmd.ops |>.finish TwoRenames.rootPtrUnref)
      [TwoRenames.full1.2] [TwoRenames.full3.2] [TwoRenames.full5.2] "name0" "name1" "name2"
      (TwoRenames.full1.1.exp TwoRenames.dirAUnref) TwoRenames.dirBUnref
      (TwoRenames.full3.1.exp TwoRenames.dirBUnref)
      (TwoRenames.full3.1.exp TwoRenames.dirCUnref) TwoRenames.objPtr TwoRenames.objPtr
      .File .File TwoRenames.full2.2.Updates TwoRenames.full4.2.Updates
      (chainBuilder.after [TwoRenames.full1.2])
      (chainBuilder.after [TwoRenames.full1.2, TwoRenames.full2.2])
      (chainBuilder.after [TwoRenames.full1.2, TwoRenames.full2.2, TwoRenames.full3.2])
      (chainBuilder.after
        [TwoRenames.full1.2, TwoRenames.full2.2, TwoRenames.full3.2, TwoRenames.full4.2])
      (chainBuilder.after TwoRenames.fullRmd.ops)
      (by decide) (by decide) (by decide) (by decide) (by decide) (by decide) (by decide)
      (by decide) (by decide) (by decide) (by decide) (by decide)
  obtain ⟨c1, c2, c3, -⟩ :=
    renamed_twice_first_source_last_destination Collapse.rmds
      (chainBuilder.after Collapse.ops |>.finish Collapse.rootPtrUnref)
      [Collapse.step1.2, Collapse.step2.2, Collapse.step3.2, Collapse.step4.2, Collapse.step5.2,
       Collapse.step6.2, Collapse.step7.2] [] [] "file4" "file5" "file3"
      (Collapse.step7.1.exp Collapse.dir1Unref) (Collapse.step7.1.exp Collapse.dir1Unref)
      (Collapse.step8.1.exp Collapse.dir1Unref) (Collapse.step8.1.exp Collapse.dir1Unref)
      Collapse.file4Ptr Collapse.file4Ptr .File .File
      Collapse.step8.2.Updates Collapse.step9.2.Updates
      (chainBuilder.after
        [Collapse.step1.2, Collapse.step2.2, Collapse.step3.2, Collapse.step4.2,
         Collapse.step5.2, Collapse.step6.2, Collapse.step7.2])
      (chainBuilder.after
        [Collapse.step1.2, Collapse.step2.2, Collapse.step3.2, Collapse.step4.2,
         Collapse.step5.2, Collapse.step6.2, Collapse.step7.2, Collapse.step8.2])
      (chainBuilder.after
        [Collapse.step1.2, Collapse.step2.2, Collapse.step3.2, Collapse.step4.2,
         Collapse.step5.2, Collapse.step6.2, Collapse.step7.2, Collapse.step8.2])
      (chainBuilder.after Collapse.ops) (chainBuilder.after Collapse.ops)
      (by decide) (by decide) (by decide) (by decide) (by decide) (by decide) (by decide)
      (by decide) (by decide) (by decide) (by decide) (by decide)
  exact ⟨⟨_, by decide, k1 (by decide), k2 (by decide), k3 (by decide) (Or.inl (by decide)),
      k4 (by decide)⟩,
    ⟨_, by decide, c1 (by decide), c2 (by decide), c3 (by decide) (Or.inr (by decide))⟩⟩

/-! ## The status keeper: what each mutation writes -/

/-- The world `signalChangeLocked` leaves when the current handle is open: the
handle is logged as closed and the next fresh handle is installed. -/
theorem signalChangeLocked_eq (w : World) (hwf : w.WF) :
    ∃ w1, signalChangeLocked w = some w1 ∧
      w1.fbsk = { w.fbsk with updateChan := w.heap.next } ∧
      w1.heap = { next := w.heap.next + 1, closed := w.fbsk.updateChan :: w.heap.closed } :=
  ⟨{ fbsk := { w.fbsk with updateChan := w.heap.next },
     heap := { next := w.heap.next + 1, closed := w.fbsk.updateChan :: w.heap.closed } },
   by simp only [signalChangeLocked, ChanHeap.close, hwf.2.1, if_false, ChanHeap.make],
   rfl, rfl⟩

theorem bothChainsWorld_WF : bothChainsWorld.WF := by
  refine ⟨?_, ?_, ?_, ?_⟩ <;>
    simp [bothChainsWorld, sampleWorld, newFolderBranchStatusKeeper, ChanHeap.make]

/-- C11: in every keeper state (current handle allocated and open),
`setCRChains u m` with a pair other than the current one returns normally,
stores `u` and `m` in both fields (also the one that already matched), closes
the current handle once and installs one fresh handle, and leaves head
metadata and the dirty nodes as they were; `setRootMetadata` writes only the
head metadata, and `addDirtyNode` and `rmDirtyNode` write only the dirty-node
map (the node under its ID if the ID was absent, the map without the ID). -/
theorem setCRChains_sets_both_others_keep_frame (w : World) (hwf : w.WF)
    (u m : Option ChainsRef) (md : Option MdRef) (n : IFCERFTNode) :
    (¬ (u = w.fbsk.unmerged ∧ m = w.fbsk.merged) →
      ∃ w1, setCRChains u m w = some w1 ∧
        w1.fbsk.unmerged = u ∧ w1.fbsk.merged = m ∧
        w1.heap.closed = w.fbsk.updateChan :: w.heap.closed ∧
        w1.fbsk.updateChan = w.heap.next ∧ w1.heap.next = w.heap.next + 1 ∧
        w1.fbsk.md = w.fbsk.md ∧ w1.fbsk.dirtyNodes = w.fbsk.dirtyNodes) ∧
    (∃ w1, setRootMetadata md w = some w1 ∧ w1.fbsk.md = md ∧
        w1.fbsk.unmerged = w.fbsk.unmerged ∧ w1.fbsk.merged = w.fbsk.merged ∧
        w1.fbsk.dirtyNodes = w.fbsk.dirtyNodes) ∧
    (∃ w1, addDirtyNode n w = some w1 ∧ w1.fbsk.md = w.fbsk.md ∧
        w1.fbsk.unmerged = w.fbsk.unmerged ∧ w1.fbsk.merged = w.fbsk.merged ∧
        w1.fbsk.dirtyNodes =
          (match mapLookup n.GetID w.fbsk.dirtyNodes with
           | some _ => w.fbsk.dirtyNodes
           | none => mapInsert n.GetID n w.fbsk.dirtyNodes)) ∧
    (∃ w1, rmDirtyNode n w = some w1 ∧ w1.fbsk.md = w.fbsk.md ∧
        w1.fbsk.unmerged = w.fbsk.unmerged ∧ w1.fbsk.merged = w.fbsk.merged ∧
        w1.fbsk.dirtyNodes = mapErase n.GetID w.fbsk.dirtyNodes) := by
  refine ⟨?_, ?_, ?_, ?_⟩
  · intro hne
    obtain ⟨w1, e, hf, hh⟩ := signalChangeLocked_eq
      { w with fbsk := { w.fbsk with unmerged := u, merged := m } } hwf
    refine ⟨w1, by simp only [setCRChains, hne, if_false, e], ?_⟩
    rw [hf, hh]
    exact ⟨rfl, rfl, rfl, rfl, rfl, rfl, rfl⟩
  · by_cases h : w.fbsk.md = md
    · exact ⟨w, by simp only [setRootMetadata, h, if_true], h, rfl, rfl, rfl⟩
    · obtain ⟨w1, e, hf, hh⟩ := signalChangeLocked_eq { w with fbsk := { w.fbsk with md := md } } hwf
      refine ⟨w1, by simp only [setRootMetadata, h, if_false, e], ?_⟩
      rw [hf]
      exact ⟨rfl, rfl, rfl, rfl⟩
  · cases hl : mapLookup n.GetID w.fbsk.dirtyNodes with
    | some v =>
      exact ⟨w, by simp only [addDirtyNode, addNode, hl], rfl, rfl, rfl, rfl⟩
    | none =>
      obtain ⟨w1, e, hf, hh⟩ := signalChangeLocked_eq
        { w with fbsk := setDirtyNodes (mapInsert n.GetID n w.fbsk.dirtyNodes) w.fbsk } hwf
      refine ⟨w1, by simp only [addDirtyNode, addNode, hl, e], ?_⟩
      rw [hf]
      exact ⟨rfl, rfl, rfl, rfl⟩
  · cases hl : mapLookup n.GetID w.fbsk.dirtyNodes with
    | none =>
      exact ⟨w, by simp only [rmDirtyNode, rmNode, hl], rfl, rfl, rfl,
        (mapErase_of_lookup_none _ _ hl).symm⟩
    | some v =>
      obtain ⟨w1, e, hf, hh⟩ := signalChangeLocked_eq
        { w with fbsk := setDirtyNodes (mapErase n.GetID w.fbsk.dirtyNodes) w.fbsk } hwf
      refine ⟨w1, by simp only [rmDirtyNode, rmNode, hl, e], ?_⟩
      rw [hf]
      exact ⟨rfl, rfl, rfl, rfl⟩

theorem setCRChains_sets_both_others_keep_frame_witness :
    bothChainsWorld.WF ∧
    ¬ (some 4 = bothChainsWorld.fbsk.unmerged ∧ some 6 = bothChainsWorld.fbsk.merged) ∧
    (∃ w1, setCRChains (some 4) (some 6) bothChainsWorld = some w1 ∧
        w1.fbsk.unmerged = some 4 ∧ w1.fbsk.merged = some 6 ∧
        w1.heap.closed = bothChainsWorld.fbsk.updateChan :: bothChainsWorld.heap.closed ∧
        w1.fbsk.updateChan = bothChainsWorld.heap.next ∧
        w1.heap.next = bothChainsWorld.heap.next + 1 ∧
        w1.fbsk.md = bothChainsWorld.fbsk.md ∧
        w1.fbsk.dirtyNodes = bothChainsWorld.fbsk.dirtyNodes) ∧
    (∃ w1, setRootMetadata (some 3) bothChainsWorld = some w1 ∧ w1.fbsk.md = some 3 ∧
        w1.fbsk.unmerged = bothChainsWorld.fbsk.unmerged ∧
        w1.fbsk.merged = bothChainsWorld.fbsk.merged ∧
        w1.fbsk.dirtyNodes = bothChainsWorld.fbsk.dirtyNodes) :=
  ⟨bothChainsWorld_WF, by decide,
   (setCRChains_sets_both_others_keep_frame bothChainsWorld bothChainsWorld_WF
      (some 4) (some 6) (some 3) ⟨1, 0⟩).1 (by decide),
   (setCRChains_sets_both_others_keep_frame bothChainsWorld bothChainsWorld_WF
      (some 4) (some 6) (some 3) ⟨1, 0⟩).2.1⟩

/-! ## The status keeper: the summaries and the head fields of a snapshot -/

/-- C12: in the status `getStatus` returns, `Unmerged` is empty when unmerged
chains are nil, and `Merged` is empty when unmerged or merged chains are nil
(also with merged chains set and unmerged nil); a successful call with
unmerged chains `u` carries `Summary` of `u` identified by `u`, and with merged
chains `m` as well `Summary` of `m` identified by `u`.  When head metadata is
nil the call returns no error, returns the current handle, and `Staged`,
`HeadWriter`, `DiskUsage`, `RekeyPending` and `FolderID` hold their zero
values. -/
theorem getStatus_summaries_and_nil_head (ord : RangeOrder) (w : World) :
    (w.fbsk.unmerged = none →
      (getStatus ord w).1.fbs.Unmerged = [] ∧ (getStatus ord w).1.fbs.Merged = []) ∧
    (w.fbsk.merged = none → (getStatus ord w).1.fbs.Merged = []) ∧
    (∀ u, w.fbsk.unmerged = some u → (getStatus ord w).1.err = none →
      (getStatus ord w).1.fbs.Unmerged = w.fbsk.config.Summary u u ∧
      ∀ m, w.fbsk.merged = some m →
        (getStatus ord w).1.fbs.Merged = w.fbsk.config.Summary m u) ∧
    (w.fbsk.md = none →
      (getStatus ord w).1.err = none ∧
      (getStatus ord w).1.updateChan = some w.fbsk.updateChan ∧
      (getStatus ord w).1.fbs.Staged = false ∧
      (getStatus ord w).1.fbs.HeadWriter = "" ∧
      (getStatus ord w).1.fbs.DiskUsage = 0 ∧
      (getStatus ord w).1.fbs.RekeyPending = false ∧
      (getStatus ord w).1.fbs.FolderID = "") := by
  have hU : ∀ fbs, statusHead w.fbsk IFCERFTFolderBranchStatus.zero = .ok fbs →
      fbs.Unmerged = [] ∧ fbs.Merged = [] := by
    intro fbs h
    unfold statusHead at h
    split at h
    · cases h
      exact ⟨rfl, rfl⟩
    · dsimp only at h
      split at h
      · cases h
      · cases h
        exact ⟨rfl, rfl⟩
  refine ⟨?_, ?_, ?_, ?_⟩
  · intro hu
    cases hs : statusHead w.fbsk IFCERFTFolderBranchStatus.zero with
    | error e =>
      simp only [getStatus, hs]
      exact ⟨rfl, rfl⟩
    | ok fbs =>
      simp only [getStatus, hs, statusChains, hu]
      exact hU fbs hs
  · intro hm
    cases hs : statusHead w.fbsk IFCERFTFolderBranchStatus.zero with
    | error e =>
      simp only [getStatus, hs]
      rfl
    | ok fbs =>
      cases hu : w.fbsk.unmerged with
      | none =>
        simp only [getStatus, hs, statusChains, hu]
        exact (hU fbs hs).2
      | some u =>
        simp only [getStatus, hs, statusChains, hu, hm]
        exact (hU fbs hs).2
  · intro u hu herr
    cases hs : statusHead w.fbsk IFCERFTFolderBranchStatus.zero with
    | error e =>
      simp only [getStatus, hs] at herr
      cases herr
    | ok fbs =>
      refine ⟨?_, ?_⟩
      · cases hm : w.fbsk.merged <;> simp only [getStatus, hs, statusChains, hu, hm]
      · intro m hm
        simp only [getStatus, hs, statusChains, hu, hm]
  · intro hmd
    have hs : statusHead w.fbsk IFCERFTFolderBranchStatus.zero
        = .ok IFCERFTFolderBranchStatus.zero := by
      simp only [statusHead, hmd]
    simp only [getStatus, hs, statusChains]
    cases w.fbsk.unmerged <;> cases w.fbsk.merged <;>
      simp [IFCERFTFolderBranchStatus.zero]

theorem getStatus_summaries_and_nil_head_witness :
    mergedOnlyWorld.fbsk.unmerged = none ∧ mergedOnlyWorld.fbsk.merged = some 5 ∧
    mergedOnlyWorld.fbsk.config.Summary 5 5 ≠ [] ∧
    mergedOnlyWorld.fbsk.md = none ∧
    ((getStatus rangeInOrder mergedOnlyWorld).1.fbs.Unmerged = [] ∧
      (getStatus rangeInOrder mergedOnlyWorld).1.fbs.Merged = []) ∧
    ((getStatus rangeInOrder mergedOnlyWorld).1.err = none ∧
      (getStatus rangeInOrder mergedOnlyWorld).1.updateChan
        = some mergedOnlyWorld.fbsk.updateChan ∧
      (getStatus rangeInOrder mergedOnlyWorld).1.fbs.Staged = false ∧
      (getStatus rangeInOrder mergedOnlyWorld).1.fbs.HeadWriter = "" ∧
      (getStatus rangeInOrder mergedOnlyWorld).1.fbs.DiskUsage = 0 ∧
      (getStatus rangeInOrder mergedOnlyWorld).1.fbs.RekeyPending = false ∧
      (getStatus rangeInOrder mergedOnlyWorld).1.fbs.FolderID = "") :=
  ⟨rfl, rfl, by decide, rfl,
   (getStatus_summaries_and_nil_head rangeInOrder mergedOnlyWorld).1 rfl,
   (getStatus_summaries_and_nil_head rangeInOrder mergedOnlyWorld).2.2.2 rfl⟩

/-- With head metadata and both chain sets, the snapshot carries both
summaries, the merged one identified by the unmerged chains. -/
theorem getStatus_bothChains_example :
    (getStatus rangeInOrder bothChainsWorld).1.err = none ∧
    (getStatus rangeInOrder bothChainsWorld).1.fbs.Unmerged = [⟨"unmerged", []⟩] ∧
    (getStatus rangeInOrder bothChainsWorld).1.fbs.Merged = [⟨"merged", []⟩] ∧
    (getStatus rangeInOrder bothChainsWorld).1.fbs.HeadWriter = "alice" := by
  decide
end KBFS
